import Mathlib

/-!
Verification development for the chart-pattern detection engine of the
`finance` repository (`src/analysis/app.py`).

The eleven detectors (`detect_head_and_shoulders` … `detect_falling_wedge`)
are shallowly embedded below.  Prices are modelled as exact rationals (the
source manipulates numpy floats; all the properties considered here are
arithmetic-level and stated "up to rounding", as the specification does),
Python lists as Lean lists, Python `int` as `ℤ`, and fallible results as
`Option`.  Helper functions reproduce the Python built-ins that the source
relies on (`max`/`min` on a non-empty list, `min(..., key=...)` keeping the
first minimal element, `np.argmin`/`np.argmax` returning the first extremal
index, truncation `int(...)`, banker's rounding `round(..., 2)`).
-/

set_option maxHeartbeats 4000000
set_option maxRecDepth 8000

attribute [local semireducible] Rat.add Rat.mul Rat.sub Rat.inv Rat.ofScientific

/-- Python `max(l)` on a non-empty list (junk value 0 on `[]`, which the
source never does thanks to its guards). -/
def pymax : List ℚ → ℚ
  | [] => 0
  | x :: xs => xs.foldl max x

/-- Python `min(l)` on a non-empty list. -/
def pymin : List ℚ → ℚ
  | [] => 0
  | x :: xs => xs.foldl min x

/-- Python `min(l, key=lambda x: x[1])`: first element with the minimal
second component. -/
def pyMinByKey : List (ℕ × ℚ) → ℕ × ℚ
  | [] => (0, 0)
  | x :: xs => xs.foldl (fun a y => if y.2 < a.2 then y else a) x

/-- Python `max(l, key=lambda x: x[1])`: first element with the maximal
second component. -/
def pyMaxByKey : List (ℕ × ℚ) → ℕ × ℚ
  | [] => (0, 0)
  | x :: xs => xs.foldl (fun a y => if a.2 < y.2 then y else a) x

/-- `np.argmin`: index of the first occurrence of the minimum. -/
def pyargmin : List ℚ → ℕ
  | [] => 0
  | [_] => 0
  | x :: y :: t => if pymin (y :: t) < x then pyargmin (y :: t) + 1 else 0

/-- `np.argmax`: index of the first occurrence of the maximum. -/
def pyargmax : List ℚ → ℕ
  | [] => 0
  | [_] => 0
  | x :: y :: t => if x < pymax (y :: t) then pyargmax (y :: t) + 1 else 0

/-- Python `int(q)`: truncation towards zero. -/
def pyint (q : ℚ) : ℤ := if q < 0 then -(Rat.floor (-q)) else Rat.floor q

/-- Round to the nearest integer, ties to even (the rounding used by
Python / numpy `round`). -/
def roundHalfEven (q : ℚ) : ℤ :=
  if q - Rat.floor q < 1/2 then Rat.floor q
  else if 1/2 < q - Rat.floor q then Rat.floor q + 1
  else if Rat.floor q % 2 = 0 then Rat.floor q else Rat.floor q + 1

/-- Python `round(q, 2)`. -/
def round2 (q : ℚ) : ℚ := (roundHalfEven (q * 100) : ℚ) / 100

/-- `np.mean`. -/
def listMean (l : List ℚ) : ℚ := l.sum / l.length

/-- The closed slice `prices[i - w : i + w + 1]` used by the rolling-window
extrema scan (for `w ≤ i` and `i + w < n` it is the full closed window
`[i - w, i + w]`). -/
def windowSlice (prices : List ℚ) (w i : ℕ) : List ℚ :=
  (prices.drop (i - w)).take (2 * w + 1)

/-- The local-maxima scan shared by all eleven detectors:
`for i in range(window, n - window): if prices[i] == max(prices[i - window : i + window + 1])`. -/
def localMaxima (prices : List ℚ) (w : ℕ) : List (ℕ × ℚ) :=
  (List.range' w (prices.length - 2 * w)).filterMap fun i =>
    if prices.getD i 0 = pymax (windowSlice prices w i) then some (i, prices.getD i 0)
    else none

/-- The local-minima scan shared by all eleven detectors. -/
def localMinima (prices : List ℚ) (w : ℕ) : List (ℕ × ℚ) :=
  (List.range' w (prices.length - 2 * w)).filterMap fun i =>
    if prices.getD i 0 = pymin (windowSlice prices w i) then some (i, prices.getD i 0)
    else none

/-- Consecutive pairs: `for i in range(len(l) - 1): (l[i], l[i+1])`. -/
def pairs (l : List α) : List (α × α) := l.zip l.tail

/-- Consecutive triples: `for i in range(len(l) - 2): (l[i], l[i+1], l[i+2])`. -/
def triples (l : List α) : List (α × α × α) := l.zip (l.tail.zip l.tail.tail)

/-- One step of the `best_confidence` loop shared by the candidate searches:
a tuple that fails a constraint (`f t = none`) is skipped, a qualifying
tuple replaces the current best exactly when its confidence is strictly
greater (`if confidence > best_confidence`). -/
def bestStep (f : α → Option (ℤ × β)) (s : ℤ × Option β) (t : α) : ℤ × Option β :=
  match f t with
  | none => s
  | some (c, p) => if s.1 < c then (c, some p) else s

/-- The whole `best_confidence` loop over a list of candidate tuples. -/
def bestFold (f : α → Option (ℤ × β)) (l : List α) : ℤ × Option β :=
  l.foldl (bestStep f) (0, none)

-- Basic sanity checks of the Python-builtin models.
example : pymax [3, 7, 5] = 7 := by decide
example : pymin [3, 7, 5] = 3 := by decide
example : pyargmin [3, 1, 1, 5] = 1 := by decide
example : pyargmax [3, 7, 7, 5] = 1 := by decide
example : pyint (-(7/2)) = -3 := by decide
example : pyint (7/2) = 3 := by decide
example : round2 (1/8) = 12/100 := by decide       -- 0.125 rounds to 0.12 (ties to even)
example : round2 (3/8) = 38/100 := by decide       -- 0.375 rounds to 0.38
example : localMaxima [0, 5, 5, 0] 1 = [(1, 5), (2, 5)] := by decide

/-! ## Pattern records

One structure per detector, with the fields of the dict that detector
returns (`'detected': True` is implicit in `some`).  Landmarks that the
source reports as `{'date': dates[idx], 'price': round(price, 2)}` keep,
for specification purposes, the index `idx` at which the date was looked
up; the constant `pattern_type` / `pattern_name` / `signal` strings of the
source dicts are omitted (they are fixed per detector, see the registry
`PATTERN_DETECTORS`). -/

/-- A reported landmark point: the source emits `dates[idx]` and the
rounded price; `idx` is the index used for that lookup. -/
structure Landmark where
  idx : ℕ
  date : String
  price : ℚ
deriving Repr, DecidableEq

/-- Result dict of `detect_head_and_shoulders`. -/
structure HSPat where
  confidence : ℤ
  left_shoulder : Landmark
  head : Landmark
  right_shoulder : Landmark
  neckline : ℚ
  target_price : ℚ
  current_price : ℚ
  price_vs_neckline_pct : ℚ
  pattern_height_pct : ℚ
deriving Repr, DecidableEq

/-- Result dict of `detect_inverse_head_shoulders`. -/
structure IHSPat where
  confidence : ℤ
  left_shoulder : Landmark
  head : Landmark
  right_shoulder : Landmark
  neckline : ℚ
  target_price : ℚ
  current_price : ℚ
  price_vs_neckline_pct : ℚ
  pattern_height_pct : ℚ
deriving Repr, DecidableEq

/-- Result dict of `detect_double_top`. -/
structure DTPat where
  confidence : ℤ
  first_peak : Landmark
  second_peak : Landmark
  trough : Landmark
  neckline : ℚ
  target_price : ℚ
  current_price : ℚ
  pattern_height_pct : ℚ
deriving Repr, DecidableEq

/-- Result dict of `detect_double_bottom`. -/
structure DBPat where
  confidence : ℤ
  first_trough : Landmark
  second_trough : Landmark
  peak : Landmark
  neckline : ℚ
  target_price : ℚ
  current_price : ℚ
  pattern_height_pct : ℚ
deriving Repr, DecidableEq

/-- Result dict of `detect_triple_top`. -/
structure TTPat where
  confidence : ℤ
  first_peak : Landmark
  second_peak : Landmark
  third_peak : Landmark
  neckline : ℚ
  target_price : ℚ
  current_price : ℚ
  pattern_height_pct : ℚ
deriving Repr, DecidableEq

/-- Result dict of `detect_triple_bottom`. -/
structure TBPat where
  confidence : ℤ
  first_trough : Landmark
  second_trough : Landmark
  third_trough : Landmark
  neckline : ℚ
  target_price : ℚ
  current_price : ℚ
  pattern_height_pct : ℚ
deriving Repr, DecidableEq

/-- Result dict of `detect_ascending_triangle` (levels only, no dated
landmarks). -/
structure AscPat where
  confidence : ℤ
  resistance : ℚ
  support_start : ℚ
  support_current : ℚ
  target_price : ℚ
  current_price : ℚ
  pattern_height_pct : ℚ
deriving Repr, DecidableEq

/-- Result dict of `detect_descending_triangle`. -/
structure DescPat where
  confidence : ℤ
  support : ℚ
  resistance_start : ℚ
  resistance_current : ℚ
  target_price : ℚ
  current_price : ℚ
  pattern_height_pct : ℚ
deriving Repr, DecidableEq

/-- Result dict of `detect_cup_and_handle`; `cup_bottom_idx` is the index
at which `cup_bottom_date = dates[cup_start + cup_bottom_idx]` is looked
up. -/
structure CupPat where
  confidence : ℤ
  cup_bottom : ℚ
  cup_bottom_idx : ℕ
  cup_bottom_date : String
  left_lip : ℚ
  right_lip : ℚ
  resistance : ℚ
  target_price : ℚ
  current_price : ℚ
  cup_depth_pct : ℚ
deriving Repr, DecidableEq

/-- Result dict of `detect_bullish_flag` (levels only, no dated
landmarks). -/
structure FlagPat where
  confidence : ℤ
  pole_low : ℚ
  pole_high : ℚ
  flag_high : ℚ
  flag_low : ℚ
  target_price : ℚ
  current_price : ℚ
  pole_gain_pct : ℚ
deriving Repr, DecidableEq

/-- Result dict of `detect_falling_wedge`. -/
structure WedgePat where
  confidence : ℤ
  resistance_start : ℚ
  resistance_current : ℚ
  support_start : ℚ
  support_current : ℚ
  breakout_level : ℚ
  target_price : ℚ
  current_price : ℚ
  convergence_pct : ℚ
deriving Repr, DecidableEq

/-! ## The six loop detectors

Each `...Eval` function is the body of the corresponding `for` loop over
candidate tuples: it returns `none` when one of the geometric constraints
fires a `continue`, and `some (confidence, pattern)` when the tuple
qualifies, with `pattern` the dict the source would build for it.  The
detector itself runs the `best_confidence` fold over the consecutive
tuples of the recent extrema. -/

/-- Loop body of `detect_head_and_shoulders`. -/
def hsEval (prices : List ℚ) (dates : List String) (search_start : ℕ)
    (local_minima : List (ℕ × ℚ)) (t : (ℕ × ℚ) × (ℕ × ℚ) × (ℕ × ℚ)) :
    Option (ℤ × HSPat) :=
  let n := prices.length
  let left_idx := t.1.1; let left_price := t.1.2
  let head_idx := t.2.1.1; let head_price := t.2.1.2
  let right_idx := t.2.2.1; let right_price := t.2.2.2
  -- 1. Head must be higher than both shoulders
  if head_price ≤ left_price ∨ head_price ≤ right_price then none else
  -- 2. Shoulders should be roughly equal (within 15%)
  let shoulder_diff := |left_price - right_price| / max left_price right_price
  if 0.15 < shoulder_diff then none else
  -- 3. Troughs between the peaks, for the neckline
  let left_trough_candidates := local_minima.filter fun m => left_idx < m.1 ∧ m.1 < head_idx
  let right_trough_candidates := local_minima.filter fun m => head_idx < m.1 ∧ m.1 < right_idx
  if left_trough_candidates = [] ∨ right_trough_candidates = [] then none else
  let left_trough := pyMinByKey left_trough_candidates
  let right_trough := pyMinByKey right_trough_candidates
  let neckline := (left_trough.2 + right_trough.2) / 2
  -- 4. Head at least 5% above the neckline
  let head_height := (head_price - neckline) / neckline
  if head_height < 0.05 then none else
  let shoulder_symmetry := 1 - shoulder_diff
  let height_score := min (head_height * 5) 1
  let recency := ((right_idx : ℚ) - (search_start : ℚ)) / ((n : ℚ) - (search_start : ℚ))
  let confidence := pyint ((shoulder_symmetry * 0.3 + height_score * 0.4 + recency * 0.3) * 100)
  let pattern_height := head_price - neckline
  let target_price := neckline - pattern_height
  let current_price := prices.getLastD 0
  let price_vs_neckline := (current_price - neckline) / neckline
  some (confidence,
    { confidence := confidence
      left_shoulder := ⟨left_idx, dates.getD left_idx "", round2 left_price⟩
      head := ⟨head_idx, dates.getD head_idx "", round2 head_price⟩
      right_shoulder := ⟨right_idx, dates.getD right_idx "", round2 right_price⟩
      neckline := round2 neckline
      target_price := round2 target_price
      current_price := round2 current_price
      price_vs_neckline_pct := round2 (price_vs_neckline * 100)
      pattern_height_pct := round2 (head_height * 100) })

/-- `detect_head_and_shoulders(prices, dates, window=20)`. -/
def detect_head_and_shoulders (prices : List ℚ) (dates : List String)
    (window : ℕ) : Option HSPat :=
  if prices.length < window * 5 then none else
  let n := prices.length
  let local_maxima := localMaxima prices window
  if local_maxima.length < 3 then none else
  let local_minima := localMinima prices window
  if local_minima.length < 2 then none else
  let search_start := n - 120
  let recent_maxima := local_maxima.filter fun m => search_start ≤ m.1
  (bestFold (hsEval prices dates search_start local_minima) (triples recent_maxima)).2

/-- Loop body of `detect_inverse_head_shoulders`. -/
def ihsEval (prices : List ℚ) (dates : List String) (search_start : ℕ)
    (local_maxima : List (ℕ × ℚ)) (t : (ℕ × ℚ) × (ℕ × ℚ) × (ℕ × ℚ)) :
    Option (ℤ × IHSPat) :=
  let n := prices.length
  let left_idx := t.1.1; let left_price := t.1.2
  let head_idx := t.2.1.1; let head_price := t.2.1.2
  let right_idx := t.2.2.1; let right_price := t.2.2.2
  -- 1. Head must be lower than both shoulders
  if left_price ≤ head_price ∨ right_price ≤ head_price then none else
  let shoulder_diff := |left_price - right_price| / max left_price right_price
  if 0.15 < shoulder_diff then none else
  let left_peak_candidates := local_maxima.filter fun m => left_idx < m.1 ∧ m.1 < head_idx
  let right_peak_candidates := local_maxima.filter fun m => head_idx < m.1 ∧ m.1 < right_idx
  if left_peak_candidates = [] ∨ right_peak_candidates = [] then none else
  let left_peak := pyMaxByKey left_peak_candidates
  let right_peak := pyMaxByKey right_peak_candidates
  let neckline := (left_peak.2 + right_peak.2) / 2
  let head_depth := (neckline - head_price) / neckline
  if head_depth < 0.05 then none else
  let shoulder_symmetry := 1 - shoulder_diff
  let depth_score := min (head_depth * 5) 1
  let recency := ((right_idx : ℚ) - (search_start : ℚ)) / ((n : ℚ) - (search_start : ℚ))
  let confidence := pyint ((shoulder_symmetry * 0.3 + depth_score * 0.4 + recency * 0.3) * 100)
  let pattern_height := neckline - head_price
  let target_price := neckline + pattern_height
  let current_price := prices.getLastD 0
  let price_vs_neckline := (current_price - neckline) / neckline
  some (confidence,
    { confidence := confidence
      left_shoulder := ⟨left_idx, dates.getD left_idx "", round2 left_price⟩
      head := ⟨head_idx, dates.getD head_idx "", round2 head_price⟩
      right_shoulder := ⟨right_idx, dates.getD right_idx "", round2 right_price⟩
      neckline := round2 neckline
      target_price := round2 target_price
      current_price := round2 current_price
      price_vs_neckline_pct := round2 (price_vs_neckline * 100)
      pattern_height_pct := round2 (head_depth * 100) })

/-- `detect_inverse_head_shoulders(prices, dates, window=20)`. -/
def detect_inverse_head_shoulders (prices : List ℚ) (dates : List String)
    (window : ℕ) : Option IHSPat :=
  if prices.length < window * 5 then none else
  let n := prices.length
  let local_minima := localMinima prices window
  if local_minima.length < 3 then none else
  let local_maxima := localMaxima prices window
  if local_maxima.length < 2 then none else
  let search_start := n - 120
  let recent_minima := local_minima.filter fun m => search_start ≤ m.1
  (bestFold (ihsEval prices dates search_start local_maxima) (triples recent_minima)).2

/-- Loop body of `detect_double_top`. -/
def dtEval (prices : List ℚ) (dates : List String) (window search_start : ℕ)
    (local_minima : List (ℕ × ℚ)) (t : (ℕ × ℚ) × (ℕ × ℚ)) :
    Option (ℤ × DTPat) :=
  let n := prices.length
  let first_idx := t.1.1; let first_price := t.1.2
  let second_idx := t.2.1; let second_price := t.2.2
  -- Peaks should be roughly equal (within 3%)
  let peak_diff := |first_price - second_price| / max first_price second_price
  if 0.03 < peak_diff then none else
  -- Need sufficient distance between peaks
  if (second_idx : ℤ) - (first_idx : ℤ) < (window : ℤ) * 2 then none else
  let trough_candidates := local_minima.filter fun m => first_idx < m.1 ∧ m.1 < second_idx
  if trough_candidates = [] then none else
  let trough := pyMinByKey trough_candidates
  let neckline := trough.2
  let pattern_height := (first_price - neckline) / neckline
  if pattern_height < 0.05 then none else
  let peak_symmetry := 1 - peak_diff
  let height_score := min (pattern_height * 5) 1
  let recency := ((second_idx : ℚ) - (search_start : ℚ)) / ((n : ℚ) - (search_start : ℚ))
  let confidence := pyint ((peak_symmetry * 0.4 + height_score * 0.3 + recency * 0.3) * 100)
  let target_price := neckline - (first_price - neckline)
  let current_price := prices.getLastD 0
  some (confidence,
    { confidence := confidence
      first_peak := ⟨first_idx, dates.getD first_idx "", round2 first_price⟩
      second_peak := ⟨second_idx, dates.getD second_idx "", round2 second_price⟩
      trough := ⟨trough.1, dates.getD trough.1 "", round2 trough.2⟩
      neckline := round2 neckline
      target_price := round2 target_price
      current_price := round2 current_price
      pattern_height_pct := round2 (pattern_height * 100) })

/-- `detect_double_top(prices, dates, window=15)`. -/
def detect_double_top (prices : List ℚ) (dates : List String)
    (window : ℕ) : Option DTPat :=
  if prices.length < window * 4 then none else
  let n := prices.length
  let local_maxima := localMaxima prices window
  if local_maxima.length < 2 then none else
  let local_minima := localMinima prices window
  let search_start := n - 100
  let recent_maxima := local_maxima.filter fun m => search_start ≤ m.1
  (bestFold (dtEval prices dates window search_start local_minima) (pairs recent_maxima)).2

/-- Loop body of `detect_double_bottom`. -/
def dbEval (prices : List ℚ) (dates : List String) (window search_start : ℕ)
    (local_maxima : List (ℕ × ℚ)) (t : (ℕ × ℚ) × (ℕ × ℚ)) :
    Option (ℤ × DBPat) :=
  let n := prices.length
  let first_idx := t.1.1; let first_price := t.1.2
  let second_idx := t.2.1; let second_price := t.2.2
  let trough_diff := |first_price - second_price| / max first_price second_price
  if 0.03 < trough_diff then none else
  if (second_idx : ℤ) - (first_idx : ℤ) < (window : ℤ) * 2 then none else
  let peak_candidates := local_maxima.filter fun m => first_idx < m.1 ∧ m.1 < second_idx
  if peak_candidates = [] then none else
  let peak := pyMaxByKey peak_candidates
  let neckline := peak.2
  let pattern_height := (neckline - first_price) / first_price
  if pattern_height < 0.05 then none else
  let trough_symmetry := 1 - trough_diff
  let height_score := min (pattern_height * 5) 1
  let recency := ((second_idx : ℚ) - (search_start : ℚ)) / ((n : ℚ) - (search_start : ℚ))
  let confidence := pyint ((trough_symmetry * 0.4 + height_score * 0.3 + recency * 0.3) * 100)
  let target_price := neckline + (neckline - first_price)
  let current_price := prices.getLastD 0
  some (confidence,
    { confidence := confidence
      first_trough := ⟨first_idx, dates.getD first_idx "", round2 first_price⟩
      second_trough := ⟨second_idx, dates.getD second_idx "", round2 second_price⟩
      peak := ⟨peak.1, dates.getD peak.1 "", round2 peak.2⟩
      neckline := round2 neckline
      target_price := round2 target_price
      current_price := round2 current_price
      pattern_height_pct := round2 (pattern_height * 100) })

/-- `detect_double_bottom(prices, dates, window=15)`. -/
def detect_double_bottom (prices : List ℚ) (dates : List String)
    (window : ℕ) : Option DBPat :=
  if prices.length < window * 4 then none else
  let n := prices.length
  let local_minima := localMinima prices window
  if local_minima.length < 2 then none else
  let local_maxima := localMaxima prices window
  let search_start := n - 100
  let recent_minima := local_minima.filter fun m => search_start ≤ m.1
  (bestFold (dbEval prices dates window search_start local_maxima) (pairs recent_minima)).2

/-- Loop body of `detect_triple_top`. -/
def ttEval (prices : List ℚ) (dates : List String) (search_start : ℕ)
    (local_minima : List (ℕ × ℚ)) (t : (ℕ × ℚ) × (ℕ × ℚ) × (ℕ × ℚ)) :
    Option (ℤ × TTPat) :=
  let n := prices.length
  let first_idx := t.1.1; let first_price := t.1.2
  let second_idx := t.2.1.1; let second_price := t.2.1.2
  let third_idx := t.2.2.1; let third_price := t.2.2.2
  -- All three peaks should be roughly equal (within 5%)
  let avg_peak := (first_price + second_price + third_price) / 3
  let max_diff := max (|first_price - avg_peak|)
      (max (|second_price - avg_peak|) (|third_price - avg_peak|)) / avg_peak
  if 0.05 < max_diff then none else
  let trough1_candidates := local_minima.filter fun m => first_idx < m.1 ∧ m.1 < second_idx
  let trough2_candidates := local_minima.filter fun m => second_idx < m.1 ∧ m.1 < third_idx
  if trough1_candidates = [] ∨ trough2_candidates = [] then none else
  let trough1 := pyMinByKey trough1_candidates
  let trough2 := pyMinByKey trough2_candidates
  let neckline := min trough1.2 trough2.2
  let pattern_height := (avg_peak - neckline) / neckline
  if pattern_height < 0.05 then none else
  let peak_uniformity := 1 - max_diff
  let height_score := min (pattern_height * 5) 1
  let recency := ((third_idx : ℚ) - (search_start : ℚ)) / ((n : ℚ) - (search_start : ℚ))
  let confidence := pyint ((peak_uniformity * 0.4 + height_score * 0.3 + recency * 0.3) * 100)
  let target_price := neckline - (avg_peak - neckline)
  let current_price := prices.getLastD 0
  some (confidence,
    { confidence := confidence
      first_peak := ⟨first_idx, dates.getD first_idx "", round2 first_price⟩
      second_peak := ⟨second_idx, dates.getD second_idx "", round2 second_price⟩
      third_peak := ⟨third_idx, dates.getD third_idx "", round2 third_price⟩
      neckline := round2 neckline
      target_price := round2 target_price
      current_price := round2 current_price
      pattern_height_pct := round2 (pattern_height * 100) })

/-- `detect_triple_top(prices, dates, window=12)`. -/
def detect_triple_top (prices : List ℚ) (dates : List String)
    (window : ℕ) : Option TTPat :=
  if prices.length < window * 6 then none else
  let n := prices.length
  let local_maxima := localMaxima prices window
  if local_maxima.length < 3 then none else
  let local_minima := localMinima prices window
  let search_start := n - 150
  let recent_maxima := local_maxima.filter fun m => search_start ≤ m.1
  (bestFold (ttEval prices dates search_start local_minima) (triples recent_maxima)).2

/-- Loop body of `detect_triple_bottom`. -/
def tbEval (prices : List ℚ) (dates : List String) (search_start : ℕ)
    (local_maxima : List (ℕ × ℚ)) (t : (ℕ × ℚ) × (ℕ × ℚ) × (ℕ × ℚ)) :
    Option (ℤ × TBPat) :=
  let n := prices.length
  let first_idx := t.1.1; let first_price := t.1.2
  let second_idx := t.2.1.1; let second_price := t.2.1.2
  let third_idx := t.2.2.1; let third_price := t.2.2.2
  let avg_trough := (first_price + second_price + third_price) / 3
  let max_diff := max (|first_price - avg_trough|)
      (max (|second_price - avg_trough|) (|third_price - avg_trough|)) / avg_trough
  if 0.05 < max_diff then none else
  let peak1_candidates := local_maxima.filter fun m => first_idx < m.1 ∧ m.1 < second_idx
  let peak2_candidates := local_maxima.filter fun m => second_idx < m.1 ∧ m.1 < third_idx
  if peak1_candidates = [] ∨ peak2_candidates = [] then none else
  let peak1 := pyMaxByKey peak1_candidates
  let peak2 := pyMaxByKey peak2_candidates
  let neckline := max peak1.2 peak2.2
  let pattern_height := (neckline - avg_trough) / avg_trough
  if pattern_height < 0.05 then none else
  let trough_uniformity := 1 - max_diff
  let height_score := min (pattern_height * 5) 1
  let recency := ((third_idx : ℚ) - (search_start : ℚ)) / ((n : ℚ) - (search_start : ℚ))
  let confidence := pyint ((trough_uniformity * 0.4 + height_score * 0.3 + recency * 0.3) * 100)
  let target_price := neckline + (neckline - avg_trough)
  let current_price := prices.getLastD 0
  some (confidence,
    { confidence := confidence
      first_trough := ⟨first_idx, dates.getD first_idx "", round2 first_price⟩
      second_trough := ⟨second_idx, dates.getD second_idx "", round2 second_price⟩
      third_trough := ⟨third_idx, dates.getD third_idx "", round2 third_price⟩
      neckline := round2 neckline
      target_price := round2 target_price
      current_price := round2 current_price
      pattern_height_pct := round2 (pattern_height * 100) })

/-- `detect_triple_bottom(prices, dates, window=12)`. -/
def detect_triple_bottom (prices : List ℚ) (dates : List String)
    (window : ℕ) : Option TBPat :=
  if prices.length < window * 6 then none else
  let n := prices.length
  let local_minima := localMinima prices window
  if local_minima.length < 3 then none else
  let local_maxima := localMaxima prices window
  let search_start := n - 150
  let recent_minima := local_minima.filter fun m => search_start ≤ m.1
  (bestFold (tbEval prices dates search_start local_maxima) (triples recent_minima)).2

/-! ## The five single-candidate detectors

Each is split into an `...Eval` returning `some (confidence, pattern)`
when all geometric constraints pass (with the confidence exactly as the
source computes it at that point), and the detector applies the final
minimum-publishable-confidence gate. -/

/-- `detect_ascending_triangle` up to (and excluding) the
`if confidence < 30` gate. -/
def ascendingTriangleEval (prices : List ℚ) (window : ℕ) : Option (ℤ × AscPat) :=
  if prices.length < 60 then none else
  let n := prices.length
  let local_maxima := localMaxima prices window
  let local_minima := localMinima prices window
  if local_maxima.length < 2 ∨ local_minima.length < 2 then none else
  let search_start := n - 80
  let recent_maxima := local_maxima.filter fun m => search_start ≤ m.1
  let recent_minima := local_minima.filter fun m => search_start ≤ m.1
  if recent_maxima.length < 2 ∨ recent_minima.length < 2 then none else
  -- Flat resistance: peaks within 2% of their mean
  let peak_prices := recent_maxima.map (fun m => m.2)
  let resistance := listMean peak_prices
  let resistance_flatness := pymax (peak_prices.map fun p => |p - resistance| / resistance)
  if 0.02 < resistance_flatness then none else
  -- Rising support
  let trough_prices := recent_minima.map (fun m => m.2)
  if trough_prices.length < 2 then none else
  let trough_indices := recent_minima.map (fun m => m.1)
  let slope := (trough_prices.getLastD 0 - trough_prices.headD 0) /
      ((trough_indices.getLastD 0 : ℚ) - (trough_indices.headD 0 : ℚ) + 1)
  if slope ≤ 0 then none else
  let current_support := trough_prices.getLastD 0
  let pattern_height := (resistance - current_support) / current_support
  if pattern_height < 0.03 then none else
  let flatness_score := 1 - resistance_flatness * 20
  let height_score := min (pattern_height * 10) 1
  let convergence := min (slope * 1000) 1
  let confidence0 := pyint ((flatness_score * 0.4 + height_score * 0.3 + convergence * 0.3) * 100)
  let confidence := max 0 (min 100 confidence0)
  let target_price := resistance + (resistance - current_support)
  let current_price := prices.getLastD 0
  some (confidence,
    { confidence := confidence
      resistance := round2 resistance
      support_start := round2 (trough_prices.headD 0)
      support_current := round2 current_support
      target_price := round2 target_price
      current_price := round2 current_price
      pattern_height_pct := round2 (pattern_height * 100) })

/-- `detect_ascending_triangle(prices, dates, window=10)`. -/
def detect_ascending_triangle (prices : List ℚ) (_dates : List String)
    (window : ℕ) : Option AscPat :=
  match ascendingTriangleEval prices window with
  | none => none
  | some (c, p) => if c < 30 then none else some p

/-- `detect_descending_triangle` up to (and excluding) the
`if confidence < 30` gate. -/
def descendingTriangleEval (prices : List ℚ) (window : ℕ) : Option (ℤ × DescPat) :=
  if prices.length < 60 then none else
  let n := prices.length
  let local_maxima := localMaxima prices window
  let local_minima := localMinima prices window
  if local_maxima.length < 2 ∨ local_minima.length < 2 then none else
  let search_start := n - 80
  let recent_maxima := local_maxima.filter fun m => search_start ≤ m.1
  let recent_minima := local_minima.filter fun m => search_start ≤ m.1
  if recent_maxima.length < 2 ∨ recent_minima.length < 2 then none else
  -- Flat support: troughs within 2% of their mean
  let trough_prices := recent_minima.map (fun m => m.2)
  let support := listMean trough_prices
  let support_flatness := pymax (trough_prices.map fun p => |p - support| / support)
  if 0.02 < support_flatness then none else
  -- Falling resistance
  let peak_prices := recent_maxima.map (fun m => m.2)
  let peak_indices := recent_maxima.map (fun m => m.1)
  let slope := (peak_prices.getLastD 0 - peak_prices.headD 0) /
      ((peak_indices.getLastD 0 : ℚ) - (peak_indices.headD 0 : ℚ) + 1)
  if 0 ≤ slope then none else
  let current_resistance := peak_prices.getLastD 0
  let pattern_height := (current_resistance - support) / support
  if pattern_height < 0.03 then none else
  let flatness_score := 1 - support_flatness * 20
  let height_score := min (pattern_height * 10) 1
  let convergence := min (|slope| * 1000) 1
  let confidence0 := pyint ((flatness_score * 0.4 + height_score * 0.3 + convergence * 0.3) * 100)
  let confidence := max 0 (min 100 confidence0)
  let target_price := support - (current_resistance - support)
  let current_price := prices.getLastD 0
  some (confidence,
    { confidence := confidence
      support := round2 support
      resistance_start := round2 (peak_prices.headD 0)
      resistance_current := round2 current_resistance
      target_price := round2 target_price
      current_price := round2 current_price
      pattern_height_pct := round2 (pattern_height * 100) })

/-- `detect_descending_triangle(prices, dates, window=10)`. -/
def detect_descending_triangle (prices : List ℚ) (_dates : List String)
    (window : ℕ) : Option DescPat :=
  match descendingTriangleEval prices window with
  | none => none
  | some (c, p) => if c < 30 then none else some p

/-- `detect_cup_and_handle` up to (and excluding) the
`if confidence < 35` gate.  The `window` parameter of the source is unused
by its body. -/
def cupAndHandleEval (prices : List ℚ) (dates : List String) : Option (ℤ × CupPat) :=
  if prices.length < 80 then none else
  let n := prices.length
  let cup_start := n - 100
  let cup_data := prices.drop cup_start
  let cup_n := cup_data.length
  if cup_n < 40 then none else
  let cup_bottom_idx := pyargmin cup_data
  if cup_bottom_idx < 10 ∨ cup_n - 15 < cup_bottom_idx then none else
  let left_half := cup_data.take cup_bottom_idx
  let right_half := cup_data.drop cup_bottom_idx
  if left_half.length < 5 ∨ right_half.length < 10 then none else
  let left_lip := pymax (left_half.take 5)
  let right_lip := if 15 ≤ right_half.length
    then pymax ((right_half.drop (right_half.length - 15)).take 10)
    else pymax (right_half.drop (right_half.length - 5))
  let lip_diff := |left_lip - right_lip| / max left_lip right_lip
  if 0.10 < lip_diff then none else
  let cup_bottom := cup_data.getD cup_bottom_idx 0
  let cup_depth := (left_lip - cup_bottom) / left_lip
  if cup_depth < 0.10 ∨ 0.50 < cup_depth then none else
  -- Handle: small pullback in the last 15 days
  let handle_data := cup_data.drop (cup_n - 15)
  let handle_low := pymin handle_data
  let handle_depth := (right_lip - handle_low) / right_lip
  if cup_depth * 0.5 < handle_depth then none else
  let lip_uniformity := 1 - lip_diff
  let depth_score := min (cup_depth * 3) 1
  let shape_score : ℚ := if handle_depth < cup_depth * 0.3 then 0.7 else 0.4
  let confidence := pyint ((lip_uniformity * 0.3 + depth_score * 0.4 + shape_score * 0.3) * 100)
  let resistance := max left_lip right_lip
  let target_price := resistance + (resistance - cup_bottom)
  let current_price := prices.getLastD 0
  some (confidence,
    { confidence := confidence
      cup_bottom := round2 cup_bottom
      cup_bottom_idx := cup_start + cup_bottom_idx
      cup_bottom_date := dates.getD (cup_start + cup_bottom_idx) ""
      left_lip := round2 left_lip
      right_lip := round2 right_lip
      resistance := round2 resistance
      target_price := round2 target_price
      current_price := round2 current_price
      cup_depth_pct := round2 (cup_depth * 100) })

/-- `detect_cup_and_handle(prices, dates, window=10)`. -/
def detect_cup_and_handle (prices : List ℚ) (dates : List String)
    (_window : ℕ) : Option CupPat :=
  match cupAndHandleEval prices dates with
  | none => none
  | some (c, p) => if c < 35 then none else some p

/-- `detect_bullish_flag` up to (and excluding) the `if confidence < 35`
gate.  The `window` parameter of the source is unused by its body. -/
def bullishFlagEval (prices : List ℚ) : Option (ℤ × FlagPat) :=
  if prices.length < 40 then none else
  let n := prices.length
  let pole_end := n - 15
  let pole_start := pole_end - 30
  let pole_data := (prices.drop pole_start).take (pole_end - pole_start)
  if pole_data.length < 15 then none else
  let pole_low_idx := pyargmin (pole_data.take 10)
  let pole_high_idx := pyargmax (pole_data.drop (pole_data.length - 10)) + pole_data.length - 10
  let pole_low := pole_data.getD pole_low_idx 0
  let pole_high := pole_data.getD pole_high_idx 0
  let pole_gain := (pole_high - pole_low) / pole_low
  if pole_gain < 0.10 then none else
  let flag_data := prices.drop pole_end
  if flag_data.length < 8 then none else
  let flag_high := pymax flag_data
  let flag_low := pymin flag_data
  let flag_range := (flag_high - flag_low) / flag_high
  if 0.08 < flag_range then none else
  let flag_pullback := (pole_high - pymin flag_data) / pole_high
  if 0.10 < flag_pullback then none else
  let pole_strength := min (pole_gain * 5) 1
  let consolidation := 1 - flag_range * 10
  let position_score := 1 - flag_pullback * 10
  let confidence0 := pyint ((pole_strength * 0.4 + consolidation * 0.3 + position_score * 0.3) * 100)
  let confidence := max 0 (min 100 confidence0)
  let target_price := pole_high + (pole_high - pole_low)
  let current_price := prices.getLastD 0
  some (confidence,
    { confidence := confidence
      pole_low := round2 pole_low
      pole_high := round2 pole_high
      flag_high := round2 flag_high
      flag_low := round2 flag_low
      target_price := round2 target_price
      current_price := round2 current_price
      pole_gain_pct := round2 (pole_gain * 100) })

/-- `detect_bullish_flag(prices, dates, window=5)`. -/
def detect_bullish_flag (prices : List ℚ) (_dates : List String)
    (_window : ℕ) : Option FlagPat :=
  match bullishFlagEval prices with
  | none => none
  | some (c, p) => if c < 35 then none else some p

/-- `detect_falling_wedge` up to (and excluding) the `if confidence < 30`
gate.  In the source, `convergence` divides by `initial_spread`, a
quantity that can be zero (see `fallingWedgeConvergenceDenom`); rational
division by zero gives 0 here, whereas numpy float division gives
infinity. -/
def fallingWedgeEval (prices : List ℚ) (window : ℕ) : Option (ℤ × WedgePat) :=
  if prices.length < 50 then none else
  let n := prices.length
  let local_maxima := localMaxima prices window
  let local_minima := localMinima prices window
  if local_maxima.length < 2 ∨ local_minima.length < 2 then none else
  let search_start := n - 70
  let recent_maxima := local_maxima.filter fun m => search_start ≤ m.1
  let recent_minima := local_minima.filter fun m => search_start ≤ m.1
  if recent_maxima.length < 2 ∨ recent_minima.length < 2 then none else
  let peak_indices := recent_maxima.map (fun m => m.1)
  let peak_prices := recent_maxima.map (fun m => m.2)
  let trough_indices := recent_minima.map (fun m => m.1)
  let trough_prices := recent_minima.map (fun m => m.2)
  let resistance_slope := (peak_prices.getLastD 0 - peak_prices.headD 0) /
      ((peak_indices.getLastD 0 : ℚ) - (peak_indices.headD 0 : ℚ) + 1)
  let support_slope := (trough_prices.getLastD 0 - trough_prices.headD 0) /
      ((trough_indices.getLastD 0 : ℚ) - (trough_indices.headD 0 : ℚ) + 1)
  -- Both slopes must be negative (falling)
  if 0 ≤ resistance_slope ∨ 0 ≤ support_slope then none else
  -- Converging: support less steep than resistance
  if |resistance_slope| ≤ |support_slope| then none else
  let initial_spread := peak_prices.headD 0 - trough_prices.headD 0
  let current_spread := peak_prices.getLastD 0 - trough_prices.getLastD 0
  if initial_spread ≤ current_spread then none else
  let convergence := (initial_spread - current_spread) / initial_spread
  if convergence < 0.20 then none else
  let convergence_score := min (convergence * 2) 1
  let slope_score := min (|resistance_slope| * 100) 1
  let confidence0 := pyint ((convergence_score * 0.5 + slope_score * 0.5) * 100)
  let confidence := max 0 (min 100 confidence0)
  let breakout_level := peak_prices.getLastD 0
  let target_price := breakout_level + initial_spread
  let current_price := prices.getLastD 0
  some (confidence,
    { confidence := confidence
      resistance_start := round2 (peak_prices.headD 0)
      resistance_current := round2 (peak_prices.getLastD 0)
      support_start := round2 (trough_prices.headD 0)
      support_current := round2 (trough_prices.getLastD 0)
      breakout_level := round2 breakout_level
      target_price := round2 target_price
      current_price := round2 current_price
      convergence_pct := round2 (convergence * 100) })

/-- `detect_falling_wedge(prices, dates, window=8)`. -/
def detect_falling_wedge (prices : List ℚ) (_dates : List String)
    (window : ℕ) : Option WedgePat :=
  match fallingWedgeEval prices window with
  | none => none
  | some (c, p) => if c < 30 then none else some p

/-- The denominator of the `convergence` division in `detect_falling_wedge`:
returns `some initial_spread` exactly when control in the source reaches
`convergence = (initial_spread - current_spread) / initial_spread`
(all prior guards passed and `current_spread < initial_spread`). -/
def fallingWedgeConvergenceDenom (prices : List ℚ) (window : ℕ) : Option ℚ :=
  if prices.length < 50 then none else
  let n := prices.length
  let local_maxima := localMaxima prices window
  let local_minima := localMinima prices window
  if local_maxima.length < 2 ∨ local_minima.length < 2 then none else
  let search_start := n - 70
  let recent_maxima := local_maxima.filter fun m => search_start ≤ m.1
  let recent_minima := local_minima.filter fun m => search_start ≤ m.1
  if recent_maxima.length < 2 ∨ recent_minima.length < 2 then none else
  let peak_indices := recent_maxima.map (fun m => m.1)
  let peak_prices := recent_maxima.map (fun m => m.2)
  let trough_indices := recent_minima.map (fun m => m.1)
  let trough_prices := recent_minima.map (fun m => m.2)
  let resistance_slope := (peak_prices.getLastD 0 - peak_prices.headD 0) /
      ((peak_indices.getLastD 0 : ℚ) - (peak_indices.headD 0 : ℚ) + 1)
  let support_slope := (trough_prices.getLastD 0 - trough_prices.headD 0) /
      ((trough_indices.getLastD 0 : ℚ) - (trough_indices.headD 0 : ℚ) + 1)
  if 0 ≤ resistance_slope ∨ 0 ≤ support_slope then none else
  if |resistance_slope| ≤ |support_slope| then none else
  let initial_spread := peak_prices.headD 0 - trough_prices.headD 0
  let current_spread := peak_prices.getLastD 0 - trough_prices.getLastD 0
  if initial_spread ≤ current_spread then none else
  some initial_spread

/-! ## Safety event mirrors (claim C10)

For each detector we mirror, in control-flow order, the *division
denominators* whose value depends on the input (divisions by the literal
constants 2, 3, 100 — averaging and rounding — are omitted: those
denominators are nonzero literals) and the *raw index accesses* the
source performs: indices into `dates` at reported landmarks, indices
into `prices` or its slices (translated to the index in `prices`), and
`prices[-1]` as `n - 1`.  The guards are exactly those of the
corresponding `...Eval`, so an event is collected precisely when the
source would execute the division / access.  The `convergence`
denominator of `detect_falling_wedge` is deliberately *not* in
`wedgeEvents`: that division is mirrored by
`fallingWedgeConvergenceDenom`, and its denominator can be zero even on
strictly positive prices. -/

/-- Denominators and index accesses of one `detect_head_and_shoulders`
loop iteration. -/
def hsEvalEvents (prices : List ℚ) (search_start : ℕ)
    (local_minima : List (ℕ × ℚ)) (t : (ℕ × ℚ) × (ℕ × ℚ) × (ℕ × ℚ)) :
    List ℚ × List ℕ :=
  let n := prices.length
  let left_idx := t.1.1; let left_price := t.1.2
  let head_idx := t.2.1.1; let head_price := t.2.1.2
  let right_idx := t.2.2.1; let right_price := t.2.2.2
  if head_price ≤ left_price ∨ head_price ≤ right_price then ([], []) else
  let d1 := max left_price right_price
  if 0.15 < |left_price - right_price| / d1 then ([d1], []) else
  let left_trough_candidates := local_minima.filter fun m => left_idx < m.1 ∧ m.1 < head_idx
  let right_trough_candidates := local_minima.filter fun m => head_idx < m.1 ∧ m.1 < right_idx
  if left_trough_candidates = [] ∨ right_trough_candidates = [] then ([d1], []) else
  let left_trough := pyMinByKey left_trough_candidates
  let right_trough := pyMinByKey right_trough_candidates
  let neckline := (left_trough.2 + right_trough.2) / 2
  if (head_price - neckline) / neckline < 0.05 then ([d1, neckline], []) else
  ([d1, neckline, (n : ℚ) - (search_start : ℚ), neckline],
   [left_idx, head_idx, right_idx, n - 1])

/-- Denominators and index accesses of `detect_head_and_shoulders`. -/
def hsEvents (prices : List ℚ) (window : ℕ) : List ℚ × List ℕ :=
  if prices.length < window * 5 then ([], []) else
  let n := prices.length
  let local_maxima := localMaxima prices window
  if local_maxima.length < 3 then ([], []) else
  let local_minima := localMinima prices window
  if local_minima.length < 2 then ([], []) else
  let search_start := n - 120
  let recent_maxima := local_maxima.filter fun m => search_start ≤ m.1
  ((triples recent_maxima).flatMap fun t => (hsEvalEvents prices search_start local_minima t).1,
   (triples recent_maxima).flatMap fun t => (hsEvalEvents prices search_start local_minima t).2)

/-- Denominators and index accesses of one `detect_inverse_head_shoulders`
loop iteration. -/
def ihsEvalEvents (prices : List ℚ) (search_start : ℕ)
    (local_maxima : List (ℕ × ℚ)) (t : (ℕ × ℚ) × (ℕ × ℚ) × (ℕ × ℚ)) :
    List ℚ × List ℕ :=
  let n := prices.length
  let left_idx := t.1.1; let left_price := t.1.2
  let head_idx := t.2.1.1; let head_price := t.2.1.2
  let right_idx := t.2.2.1; let right_price := t.2.2.2
  if left_price ≤ head_price ∨ right_price ≤ head_price then ([], []) else
  let d1 := max left_price right_price
  if 0.15 < |left_price - right_price| / d1 then ([d1], []) else
  let left_peak_candidates := local_maxima.filter fun m => left_idx < m.1 ∧ m.1 < head_idx
  let right_peak_candidates := local_maxima.filter fun m => head_idx < m.1 ∧ m.1 < right_idx
  if left_peak_candidates = [] ∨ right_peak_candidates = [] then ([d1], []) else
  let left_peak := pyMaxByKey left_peak_candidates
  let right_peak := pyMaxByKey right_peak_candidates
  let neckline := (left_peak.2 + right_peak.2) / 2
  if (neckline - head_price) / neckline < 0.05 then ([d1, neckline], []) else
  ([d1, neckline, (n : ℚ) - (search_start : ℚ), neckline],
   [left_idx, head_idx, right_idx, n - 1])

/-- Denominators and index accesses of `detect_inverse_head_shoulders`. -/
def ihsEvents (prices : List ℚ) (window : ℕ) : List ℚ × List ℕ :=
  if prices.length < window * 5 then ([], []) else
  let n := prices.length
  let local_minima := localMinima prices window
  if local_minima.length < 3 then ([], []) else
  let local_maxima := localMaxima prices window
  if local_maxima.length < 2 then ([], []) else
  let search_start := n - 120
  let recent_minima := local_minima.filter fun m => search_start ≤ m.1
  ((triples recent_minima).flatMap fun t => (ihsEvalEvents prices search_start local_maxima t).1,
   (triples recent_minima).flatMap fun t => (ihsEvalEvents prices search_start local_maxima t).2)

/-- Denominators and index accesses of one `detect_double_top` loop
iteration. -/
def dtEvalEvents (prices : List ℚ) (window search_start : ℕ)
    (local_minima : List (ℕ × ℚ)) (t : (ℕ × ℚ) × (ℕ × ℚ)) : List ℚ × List ℕ :=
  let n := prices.length
  let first_idx := t.1.1; let first_price := t.1.2
  let second_idx := t.2.1; let second_price := t.2.2
  let d1 := max first_price second_price
  if 0.03 < |first_price - second_price| / d1 then ([d1], []) else
  if (second_idx : ℤ) - (first_idx : ℤ) < (window : ℤ) * 2 then ([d1], []) else
  let trough_candidates := local_minima.filter fun m => first_idx < m.1 ∧ m.1 < second_idx
  if trough_candidates = [] then ([d1], []) else
  let trough := pyMinByKey trough_candidates
  let neckline := trough.2
  if (first_price - neckline) / neckline < 0.05 then ([d1, neckline], []) else
  ([d1, neckline, (n : ℚ) - (search_start : ℚ)],
   [first_idx, second_idx, trough.1, n - 1])

/-- Denominators and index accesses of `detect_double_top`. -/
def dtEvents (prices : List ℚ) (window : ℕ) : List ℚ × List ℕ :=
  if prices.length < window * 4 then ([], []) else
  let n := prices.length
  let local_maxima := localMaxima prices window
  if local_maxima.length < 2 then ([], []) else
  let local_minima := localMinima prices window
  let search_start := n - 100
  let recent_maxima := local_maxima.filter fun m => search_start ≤ m.1
  ((pairs recent_maxima).flatMap fun t => (dtEvalEvents prices window search_start local_minima t).1,
   (pairs recent_maxima).flatMap fun t => (dtEvalEvents prices window search_start local_minima t).2)

/-- Denominators and index accesses of one `detect_double_bottom` loop
iteration. -/
def dbEvalEvents (prices : List ℚ) (window search_start : ℕ)
    (local_maxima : List (ℕ × ℚ)) (t : (ℕ × ℚ) × (ℕ × ℚ)) : List ℚ × List ℕ :=
  let n := prices.length
  let first_idx := t.1.1; let first_price := t.1.2
  let second_idx := t.2.1; let second_price := t.2.2
  let d1 := max first_price second_price
  if 0.03 < |first_price - second_price| / d1 then ([d1], []) else
  if (second_idx : ℤ) - (first_idx : ℤ) < (window : ℤ) * 2 then ([d1], []) else
  let peak_candidates := local_maxima.filter fun m => first_idx < m.1 ∧ m.1 < second_idx
  if peak_candidates = [] then ([d1], []) else
  let peak := pyMaxByKey peak_candidates
  let neckline := peak.2
  if (neckline - first_price) / first_price < 0.05 then ([d1, first_price], []) else
  ([d1, first_price, (n : ℚ) - (search_start : ℚ)],
   [first_idx, second_idx, peak.1, n - 1])

/-- Denominators and index accesses of `detect_double_bottom`. -/
def dbEvents (prices : List ℚ) (window : ℕ) : List ℚ × List ℕ :=
  if prices.length < window * 4 then ([], []) else
  let n := prices.length
  let local_minima := localMinima prices window
  if local_minima.length < 2 then ([], []) else
  let local_maxima := localMaxima prices window
  let search_start := n - 100
  let recent_minima := local_minima.filter fun m => search_start ≤ m.1
  ((pairs recent_minima).flatMap fun t => (dbEvalEvents prices window search_start local_maxima t).1,
   (pairs recent_minima).flatMap fun t => (dbEvalEvents prices window search_start local_maxima t).2)

/-- Denominators and index accesses of one `detect_triple_top` loop
iteration. -/
def ttEvalEvents (prices : List ℚ) (search_start : ℕ)
    (local_minima : List (ℕ × ℚ)) (t : (ℕ × ℚ) × (ℕ × ℚ) × (ℕ × ℚ)) :
    List ℚ × List ℕ :=
  let n := prices.length
  let first_idx := t.1.1; let first_price := t.1.2
  let second_idx := t.2.1.1; let second_price := t.2.1.2
  let third_idx := t.2.2.1; let third_price := t.2.2.2
  let avg_peak := (first_price + second_price + third_price) / 3
  if 0.05 < max (|first_price - avg_peak|)
      (max (|second_price - avg_peak|) (|third_price - avg_peak|)) / avg_peak then
    ([avg_peak], []) else
  let trough1_candidates := local_minima.filter fun m => first_idx < m.1 ∧ m.1 < second_idx
  let trough2_candidates := local_minima.filter fun m => second_idx < m.1 ∧ m.1 < third_idx
  if trough1_candidates = [] ∨ trough2_candidates = [] then ([avg_peak], []) else
  let neckline := min (pyMinByKey trough1_candidates).2 (pyMinByKey trough2_candidates).2
  if (avg_peak - neckline) / neckline < 0.05 then ([avg_peak, neckline], []) else
  ([avg_peak, neckline, (n : ℚ) - (search_start : ℚ)],
   [first_idx, second_idx, third_idx, n - 1])

/-- Denominators and index accesses of `detect_triple_top`. -/
def ttEvents (prices : List ℚ) (window : ℕ) : List ℚ × List ℕ :=
  if prices.length < window * 6 then ([], []) else
  let n := prices.length
  let local_maxima := localMaxima prices window
  if local_maxima.length < 3 then ([], []) else
  let local_minima := localMinima prices window
  let search_start := n - 150
  let recent_maxima := local_maxima.filter fun m => search_start ≤ m.1
  ((triples recent_maxima).flatMap fun t => (ttEvalEvents prices search_start local_minima t).1,
   (triples recent_maxima).flatMap fun t => (ttEvalEvents prices search_start local_minima t).2)

/-- Denominators and index accesses of one `detect_triple_bottom` loop
iteration. -/
def tbEvalEvents (prices : List ℚ) (search_start : ℕ)
    (local_maxima : List (ℕ × ℚ)) (t : (ℕ × ℚ) × (ℕ × ℚ) × (ℕ × ℚ)) :
    List ℚ × List ℕ :=
  let n := prices.length
  let first_idx := t.1.1; let first_price := t.1.2
  let second_idx := t.2.1.1; let second_price := t.2.1.2
  let third_idx := t.2.2.1; let third_price := t.2.2.2
  let avg_trough := (first_price + second_price + third_price) / 3
  if 0.05 < max (|first_price - avg_trough|)
      (max (|second_price - avg_trough|) (|third_price - avg_trough|)) / avg_trough then
    ([avg_trough], []) else
  let peak1_candidates := local_maxima.filter fun m => first_idx < m.1 ∧ m.1 < second_idx
  let peak2_candidates := local_maxima.filter fun m => second_idx < m.1 ∧ m.1 < third_idx
  if peak1_candidates = [] ∨ peak2_candidates = [] then ([avg_trough], []) else
  let neckline := max (pyMaxByKey peak1_candidates).2 (pyMaxByKey peak2_candidates).2
  if (neckline - avg_trough) / avg_trough < 0.05 then ([avg_trough, avg_trough], []) else
  ([avg_trough, avg_trough, (n : ℚ) - (search_start : ℚ)],
   [first_idx, second_idx, third_idx, n - 1])

/-- Denominators and index accesses of `detect_triple_bottom`. -/
def tbEvents (prices : List ℚ) (window : ℕ) : List ℚ × List ℕ :=
  if prices.length < window * 6 then ([], []) else
  let n := prices.length
  let local_minima := localMinima prices window
  if local_minima.length < 3 then ([], []) else
  let local_maxima := localMaxima prices window
  let search_start := n - 150
  let recent_minima := local_minima.filter fun m => search_start ≤ m.1
  ((triples recent_minima).flatMap fun t => (tbEvalEvents prices search_start local_maxima t).1,
   (triples recent_minima).flatMap fun t => (tbEvalEvents prices search_start local_maxima t).2)

/-- Denominators and index accesses of `detect_ascending_triangle`.
`np.mean` divides by the element count; each flatness term divides by
`resistance`. -/
def ascEvents (prices : List ℚ) (window : ℕ) : List ℚ × List ℕ :=
  if prices.length < 60 then ([], []) else
  let n := prices.length
  let local_maxima := localMaxima prices window
  let local_minima := localMinima prices window
  if local_maxima.length < 2 ∨ local_minima.length < 2 then ([], []) else
  let search_start := n - 80
  let recent_maxima := local_maxima.filter fun m => search_start ≤ m.1
  let recent_minima := local_minima.filter fun m => search_start ≤ m.1
  if recent_maxima.length < 2 ∨ recent_minima.length < 2 then ([], []) else
  let peak_prices := recent_maxima.map (fun m => m.2)
  let resistance := listMean peak_prices
  let e1 := (peak_prices.length : ℚ) :: peak_prices.map (fun _ => resistance)
  if 0.02 < pymax (peak_prices.map fun p => |p - resistance| / resistance) then (e1, []) else
  let trough_prices := recent_minima.map (fun m => m.2)
  if trough_prices.length < 2 then (e1, []) else
  let trough_indices := recent_minima.map (fun m => m.1)
  let d2 := (trough_indices.getLastD 0 : ℚ) - (trough_indices.headD 0 : ℚ) + 1
  if (trough_prices.getLastD 0 - trough_prices.headD 0) / d2 ≤ 0 then (e1 ++ [d2], []) else
  let current_support := trough_prices.getLastD 0
  if (resistance - current_support) / current_support < 0.03 then
    (e1 ++ [d2, current_support], []) else
  (e1 ++ [d2, current_support], [n - 1])

/-- Denominators and index accesses of `detect_descending_triangle`. -/
def descEvents (prices : List ℚ) (window : ℕ) : List ℚ × List ℕ :=
  if prices.length < 60 then ([], []) else
  let n := prices.length
  let local_maxima := localMaxima prices window
  let local_minima := localMinima prices window
  if local_maxima.length < 2 ∨ local_minima.length < 2 then ([], []) else
  let search_start := n - 80
  let recent_maxima := local_maxima.filter fun m => search_start ≤ m.1
  let recent_minima := local_minima.filter fun m => search_start ≤ m.1
  if recent_maxima.length < 2 ∨ recent_minima.length < 2 then ([], []) else
  let trough_prices := recent_minima.map (fun m => m.2)
  let support := listMean trough_prices
  let e1 := (trough_prices.length : ℚ) :: trough_prices.map (fun _ => support)
  if 0.02 < pymax (trough_prices.map fun p => |p - support| / support) then (e1, []) else
  let peak_prices := recent_maxima.map (fun m => m.2)
  let peak_indices := recent_maxima.map (fun m => m.1)
  let d2 := (peak_indices.getLastD 0 : ℚ) - (peak_indices.headD 0 : ℚ) + 1
  if 0 ≤ (peak_prices.getLastD 0 - peak_prices.headD 0) / d2 then (e1 ++ [d2], []) else
  let current_resistance := peak_prices.getLastD 0
  if (current_resistance - support) / support < 0.03 then (e1 ++ [d2, support], []) else
  (e1 ++ [d2, support], [n - 1])

/-- Denominators and index accesses of `detect_cup_and_handle`.  The
access into `cup_data` at `cup_bottom_idx` and the `dates` access at the
reported bottom both translate to index `cup_start + cup_bottom_idx` of
the full series. -/
def cupEvents (prices : List ℚ) : List ℚ × List ℕ :=
  if prices.length < 80 then ([], []) else
  let n := prices.length
  let cup_start := n - 100
  let cup_data := prices.drop cup_start
  let cup_n := cup_data.length
  if cup_n < 40 then ([], []) else
  let cup_bottom_idx := pyargmin cup_data
  if cup_bottom_idx < 10 ∨ cup_n - 15 < cup_bottom_idx then ([], []) else
  let left_half := cup_data.take cup_bottom_idx
  let right_half := cup_data.drop cup_bottom_idx
  if left_half.length < 5 ∨ right_half.length < 10 then ([], []) else
  let left_lip := pymax (left_half.take 5)
  let right_lip := if 15 ≤ right_half.length
    then pymax ((right_half.drop (right_half.length - 15)).take 10)
    else pymax (right_half.drop (right_half.length - 5))
  let d1 := max left_lip right_lip
  if 0.10 < |left_lip - right_lip| / d1 then ([d1], []) else
  let cup_depth := (left_lip - cup_data.getD cup_bottom_idx 0) / left_lip
  if cup_depth < 0.10 ∨ 0.50 < cup_depth then
    ([d1, left_lip], [cup_start + cup_bottom_idx]) else
  let handle_low := pymin (cup_data.drop (cup_n - 15))
  if cup_depth * 0.5 < (right_lip - handle_low) / right_lip then
    ([d1, left_lip, right_lip], [cup_start + cup_bottom_idx]) else
  ([d1, left_lip, right_lip],
   [cup_start + cup_bottom_idx, cup_start + cup_bottom_idx, n - 1])

/-- Denominators and index accesses of `detect_bullish_flag`.  Accesses
into `pole_data` at the pole extremes translate to
`pole_start + index`. -/
def flagEvents (prices : List ℚ) : List ℚ × List ℕ :=
  if prices.length < 40 then ([], []) else
  let n := prices.length
  let pole_end := n - 15
  let pole_start := pole_end - 30
  let pole_data := (prices.drop pole_start).take (pole_end - pole_start)
  if pole_data.length < 15 then ([], []) else
  let pole_low_idx := pyargmin (pole_data.take 10)
  let pole_high_idx := pyargmax (pole_data.drop (pole_data.length - 10)) + pole_data.length - 10
  let pole_low := pole_data.getD pole_low_idx 0
  let a1 := [pole_start + pole_low_idx, pole_start + pole_high_idx]
  if (pole_data.getD pole_high_idx 0 - pole_low) / pole_low < 0.10 then ([pole_low], a1) else
  let flag_data := prices.drop pole_end
  if flag_data.length < 8 then ([pole_low], a1) else
  let flag_high := pymax flag_data
  if 0.08 < (flag_high - pymin flag_data) / flag_high then ([pole_low, flag_high], a1) else
  let pole_high := pole_data.getD pole_high_idx 0
  if 0.10 < (pole_high - pymin flag_data) / pole_high then
    ([pole_low, flag_high, pole_high], a1) else
  ([pole_low, flag_high, pole_high], a1 ++ [n - 1])

/-- Denominators and index accesses of `detect_falling_wedge`, *except*
the `convergence` denominator `initial_spread`, which is mirrored by
`fallingWedgeConvergenceDenom` and can be zero. -/
def wedgeEvents (prices : List ℚ) (window : ℕ) : List ℚ × List ℕ :=
  if prices.length < 50 then ([], []) else
  let n := prices.length
  let local_maxima := localMaxima prices window
  let local_minima := localMinima prices window
  if local_maxima.length < 2 ∨ local_minima.length < 2 then ([], []) else
  let search_start := n - 70
  let recent_maxima := local_maxima.filter fun m => search_start ≤ m.1
  let recent_minima := local_minima.filter fun m => search_start ≤ m.1
  if recent_maxima.length < 2 ∨ recent_minima.length < 2 then ([], []) else
  let peak_indices := recent_maxima.map (fun m => m.1)
  let peak_prices := recent_maxima.map (fun m => m.2)
  let trough_indices := recent_minima.map (fun m => m.1)
  let trough_prices := recent_minima.map (fun m => m.2)
  let d1 := (peak_indices.getLastD 0 : ℚ) - (peak_indices.headD 0 : ℚ) + 1
  let d2 := (trough_indices.getLastD 0 : ℚ) - (trough_indices.headD 0 : ℚ) + 1
  let resistance_slope := (peak_prices.getLastD 0 - peak_prices.headD 0) / d1
  let support_slope := (trough_prices.getLastD 0 - trough_prices.headD 0) / d2
  if 0 ≤ resistance_slope ∨ 0 ≤ support_slope then ([d1, d2], []) else
  if |resistance_slope| ≤ |support_slope| then ([d1, d2], []) else
  let initial_spread := peak_prices.headD 0 - trough_prices.headD 0
  let current_spread := peak_prices.getLastD 0 - trough_prices.getLastD 0
  if initial_spread ≤ current_spread then ([d1, d2], []) else
  ([d1, d2], [n - 1])

/-- A 70-point strictly positive series on which `detect_falling_wedge`
(window 8) reaches the `convergence` division with
`initial_spread = 0`. -/
def wedgeZeroPrices : List ℚ :=
  [9.2, 9.3, 9.4, 9.5, 9.6, 9.7, 9.8, 9.9] ++ List.replicate 26 10 ++
  [9.99, 9.98, 9.97, 9.96, 9.95, 9.94, 9.93, 9.92, 9.9,
   9.91, 9.92, 9.93, 9.94, 9.95, 9.96, 9.97, 9.98,
   9.5, 9.1, 8.8, 8.5, 8.6, 8.7, 8.75, 8.8, 8.85, 8.9, 9.0,
   8.4, 8.3, 8.2, 8.1, 8.0, 7.9, 7.8, 7.7]

/-- Dates list of the same length as `wedgeZeroPrices`. -/
def wedgeZeroDates : List String := List.replicate 70 "d"

/-! ## Properties of the extrema extractor -/

/-- Membership in the local-maxima list: exactly the indices `i` of
`[w, n - w)` whose price equals the maximum of the closed window. -/
theorem mem_localMaxima_iff {prices : List ℚ} {w i : ℕ} {p : ℚ} :
    (i, p) ∈ localMaxima prices w ↔
      w ≤ i ∧ i + w < prices.length ∧ p = prices.getD i 0 ∧
        prices.getD i 0 = pymax (windowSlice prices w i) := by
  unfold localMaxima
  rw [List.mem_filterMap]
  constructor
  · rintro ⟨a, ha, hsome⟩
    rw [List.mem_range'_1] at ha
    split at hsome
    · rename_i heq
      obtain ⟨rfl, rfl⟩ : a = i ∧ prices.getD a 0 = p := by
        constructor <;> [skip; skip] <;> injection hsome with h <;>
          [exact (congrArg Prod.fst h); exact (congrArg Prod.snd h)]
      exact ⟨ha.1, by omega, rfl, heq⟩
    · exact absurd hsome (by simp)
  · rintro ⟨h1, h2, rfl, heq⟩
    exact ⟨i, List.mem_range'_1.2 ⟨h1, by omega⟩, by rw [if_pos heq]⟩

/-- Membership in the local-minima list. -/
theorem mem_localMinima_iff {prices : List ℚ} {w i : ℕ} {p : ℚ} :
    (i, p) ∈ localMinima prices w ↔
      w ≤ i ∧ i + w < prices.length ∧ p = prices.getD i 0 ∧
        prices.getD i 0 = pymin (windowSlice prices w i) := by
  unfold localMinima
  rw [List.mem_filterMap]
  constructor
  · rintro ⟨a, ha, hsome⟩
    rw [List.mem_range'_1] at ha
    split at hsome
    · rename_i heq
      obtain ⟨rfl, rfl⟩ : a = i ∧ prices.getD a 0 = p := by
        constructor <;> [skip; skip] <;> injection hsome with h <;>
          [exact (congrArg Prod.fst h); exact (congrArg Prod.snd h)]
      exact ⟨ha.1, by omega, rfl, heq⟩
    · exact absurd hsome (by simp)
  · rintro ⟨h1, h2, rfl, heq⟩
    exact ⟨i, List.mem_range'_1.2 ⟨h1, by omega⟩, by rw [if_pos heq]⟩

/-- Short input: if `n < 2w + 1` the scan range is empty. -/
theorem localMaxima_short {prices : List ℚ} {w : ℕ}
    (h : prices.length < 2 * w + 1) : localMaxima prices w = [] := by
  unfold localMaxima
  have : prices.length - 2 * w = 0 := by omega
  rw [this]
  rfl

/-- Short input: if `n < 2w + 1` the scan range is empty. -/
theorem localMinima_short {prices : List ℚ} {w : ℕ}
    (h : prices.length < 2 * w + 1) : localMinima prices w = [] := by
  unfold localMinima
  have : prices.length - 2 * w = 0 := by omega
  rw [this]
  rfl

/-! ## Facts about the Python builtin models -/

theorem foldl_max_mono {l : List ℚ} {a b : ℚ} (h : a ≤ b) :
    l.foldl max a ≤ l.foldl max b := by
  induction l generalizing a b with
  | nil => exact h
  | cons x t ih => exact ih (max_le_max h le_rfl)

theorem le_foldl_max (l : List ℚ) (a : ℚ) : a ≤ l.foldl max a := by
  induction l generalizing a with
  | nil => simp
  | cons x t ih => exact le_trans (le_max_left a x) (ih (max a x))

theorem mem_le_foldl_max {l : List ℚ} {x : ℚ} (h : x ∈ l) (a : ℚ) :
    x ≤ l.foldl max a := by
  induction l generalizing a with
  | nil => cases h
  | cons y t ih =>
    rcases List.mem_cons.1 h with rfl | hmem
    · exact le_trans (le_max_right a x) (le_foldl_max t _)
    · exact ih hmem _

theorem foldl_max_mem (l : List ℚ) (a : ℚ) : l.foldl max a ∈ a :: l := by
  induction l generalizing a with
  | nil => simp
  | cons x t ih =>
    rcases List.mem_cons.1 (ih (max a x)) with h | h
    · rcases max_choice a x with h2 | h2 <;> rw [List.foldl_cons, h, h2] <;> simp
    · exact List.mem_cons.2 (Or.inr (List.mem_cons.2 (Or.inr h)))

theorem pymax_mem {l : List ℚ} (h : l ≠ []) : pymax l ∈ l := by
  cases l with
  | nil => exact absurd rfl h
  | cons x t => exact foldl_max_mem t x

theorem le_pymax {l : List ℚ} {x : ℚ} (h : x ∈ l) : x ≤ pymax l := by
  cases l with
  | nil => cases h
  | cons y t =>
    rcases List.mem_cons.1 h with rfl | hmem
    · exact le_foldl_max t x
    · exact mem_le_foldl_max hmem y

theorem pymax_eq_of {l : List ℚ} {x : ℚ} (hx : x ∈ l) (hub : ∀ y ∈ l, y ≤ x) :
    pymax l = x :=
  le_antisymm (hub _ (pymax_mem (List.ne_nil_of_mem hx))) (le_pymax hx)

theorem foldl_min_mono {l : List ℚ} {a b : ℚ} (h : a ≤ b) :
    l.foldl min a ≤ l.foldl min b := by
  induction l generalizing a b with
  | nil => exact h
  | cons x t ih => exact ih (min_le_min h le_rfl)

theorem foldl_min_le (l : List ℚ) (a : ℚ) : l.foldl min a ≤ a := by
  induction l generalizing a with
  | nil => simp
  | cons x t ih => exact le_trans (ih (min a x)) (min_le_left a x)

theorem foldl_min_le_mem {l : List ℚ} {x : ℚ} (h : x ∈ l) (a : ℚ) :
    l.foldl min a ≤ x := by
  induction l generalizing a with
  | nil => cases h
  | cons y t ih =>
    rcases List.mem_cons.1 h with rfl | hmem
    · exact le_trans (foldl_min_le t _) (min_le_right a x)
    · exact ih hmem _

theorem foldl_min_mem (l : List ℚ) (a : ℚ) : l.foldl min a ∈ a :: l := by
  induction l generalizing a with
  | nil => simp
  | cons x t ih =>
    rcases List.mem_cons.1 (ih (min a x)) with h | h
    · rcases min_choice a x with h2 | h2 <;> rw [List.foldl_cons, h, h2] <;> simp
    · exact List.mem_cons.2 (Or.inr (List.mem_cons.2 (Or.inr h)))

theorem pymin_mem {l : List ℚ} (h : l ≠ []) : pymin l ∈ l := by
  cases l with
  | nil => exact absurd rfl h
  | cons x t => exact foldl_min_mem t x

theorem pymin_le {l : List ℚ} {x : ℚ} (h : x ∈ l) : pymin l ≤ x := by
  cases l with
  | nil => cases h
  | cons y t =>
    rcases List.mem_cons.1 h with rfl | hmem
    · exact foldl_min_le t x
    · exact foldl_min_le_mem hmem y

theorem pymin_eq_of {l : List ℚ} {x : ℚ} (hx : x ∈ l) (hlb : ∀ y ∈ l, x ≤ y) :
    pymin l = x :=
  le_antisymm (pymin_le hx) (hlb _ (pymin_mem (List.ne_nil_of_mem hx)))

theorem foldl_selectMin_mem (t : List (ℕ × ℚ)) (x : ℕ × ℚ) :
    t.foldl (fun a y => if y.2 < a.2 then y else a) x ∈ x :: t := by
  induction t generalizing x with
  | nil => simp
  | cons y s ih =>
    rw [List.foldl_cons]
    rcases List.mem_cons.1 (ih (if y.2 < x.2 then y else x)) with h2 | h2
    · rw [h2]; split <;> simp
    · exact List.mem_cons.2 (Or.inr (List.mem_cons.2 (Or.inr h2)))

theorem foldl_selectMax_mem (t : List (ℕ × ℚ)) (x : ℕ × ℚ) :
    t.foldl (fun a y => if a.2 < y.2 then y else a) x ∈ x :: t := by
  induction t generalizing x with
  | nil => simp
  | cons y s ih =>
    rw [List.foldl_cons]
    rcases List.mem_cons.1 (ih (if x.2 < y.2 then y else x)) with h2 | h2
    · rw [h2]; split <;> simp
    · exact List.mem_cons.2 (Or.inr (List.mem_cons.2 (Or.inr h2)))

theorem pyMinByKey_mem {l : List (ℕ × ℚ)} (h : l ≠ []) : pyMinByKey l ∈ l := by
  cases l with
  | nil => exact absurd rfl h
  | cons x t => exact foldl_selectMin_mem t x

theorem pyMaxByKey_mem {l : List (ℕ × ℚ)} (h : l ≠ []) : pyMaxByKey l ∈ l := by
  cases l with
  | nil => exact absurd rfl h
  | cons x t => exact foldl_selectMax_mem t x

theorem pyargmin_lt_length {l : List ℚ} (h : l ≠ []) : pyargmin l < l.length := by
  induction l with
  | nil => exact absurd rfl h
  | cons x t ih =>
    cases t with
    | nil => simp [pyargmin]
    | cons y s =>
      rw [pyargmin]
      split
      · have := ih (by simp)
        simpa [Nat.add_lt_add_iff_right] using Nat.add_lt_add_right this 1
      · simp

theorem foldl_min_out (s : List ℚ) (x y : ℚ) :
    s.foldl min (min x y) = min x (s.foldl min y) := by
  induction s generalizing y with
  | nil => simp
  | cons z t2 ih2 =>
    rw [List.foldl_cons, List.foldl_cons, min_assoc]
    exact ih2 (min y z)

theorem pymin_cons (x y : ℚ) (s : List ℚ) :
    pymin (x :: y :: s) = min x (pymin (y :: s)) := by
  show (y :: s).foldl min x = _
  rw [List.foldl_cons]
  exact foldl_min_out s x y

theorem foldl_max_out (s : List ℚ) (x y : ℚ) :
    s.foldl max (max x y) = max x (s.foldl max y) := by
  induction s generalizing y with
  | nil => simp
  | cons z t2 ih2 =>
    rw [List.foldl_cons, List.foldl_cons, max_assoc]
    exact ih2 (max y z)

theorem pymax_cons (x y : ℚ) (s : List ℚ) :
    pymax (x :: y :: s) = max x (pymax (y :: s)) := by
  show (y :: s).foldl max x = _
  rw [List.foldl_cons]
  exact foldl_max_out s x y

theorem getD_pyargmin {l : List ℚ} (h : l ≠ []) :
    l.getD (pyargmin l) 0 = pymin l := by
  induction l with
  | nil => exact absurd rfl h
  | cons x t ih =>
    cases t with
    | nil => simp [pyargmin, pymin]
    | cons y s =>
      rw [pyargmin, pymin_cons]
      split
      · rename_i hlt
        rw [List.getD_cons_succ, ih (by simp)]
        exact (min_eq_right (le_of_lt hlt)).symm
      · rename_i hge
        rw [List.getD_cons_zero]
        exact (min_eq_left (le_of_not_lt hge)).symm

/-! ## Consequences for extrema lists -/

theorem localMaxima_idx_lt {prices : List ℚ} {w i : ℕ} {p : ℚ}
    (h : (i, p) ∈ localMaxima prices w) : i < prices.length := by
  obtain ⟨_, h2, _, _⟩ := mem_localMaxima_iff.1 h
  omega

theorem localMinima_idx_lt {prices : List ℚ} {w i : ℕ} {p : ℚ}
    (h : (i, p) ∈ localMinima prices w) : i < prices.length := by
  obtain ⟨_, h2, _, _⟩ := mem_localMinima_iff.1 h
  omega

theorem localMaxima_snd_mem {prices : List ℚ} {w i : ℕ} {p : ℚ}
    (h : (i, p) ∈ localMaxima prices w) : p ∈ prices := by
  obtain ⟨_, h2, rfl, _⟩ := mem_localMaxima_iff.1 h
  rw [List.getD_eq_getElem _ _ (by omega)]
  exact List.getElem_mem _

theorem localMinima_snd_mem {prices : List ℚ} {w i : ℕ} {p : ℚ}
    (h : (i, p) ∈ localMinima prices w) : p ∈ prices := by
  obtain ⟨_, h2, rfl, _⟩ := mem_localMinima_iff.1 h
  rw [List.getD_eq_getElem _ _ (by omega)]
  exact List.getElem_mem _

/-- Extrema are listed in strictly increasing index order. -/
theorem localMaxima_pairwise (prices : List ℚ) (w : ℕ) :
    (localMaxima prices w).Pairwise (fun a b => a.1 < b.1) := by
  unfold localMaxima
  refine List.Pairwise.filterMap _ ?_ (List.pairwise_lt_range' _ _)
  intro a b hab x hx y hy
  rw [Option.mem_def] at hx hy
  split at hx
  · split at hy
    · injection hx with h1
      injection hy with h2
      rw [← h1, ← h2]
      exact hab
    · simp at hy
  · simp at hx

theorem localMinima_pairwise (prices : List ℚ) (w : ℕ) :
    (localMinima prices w).Pairwise (fun a b => a.1 < b.1) := by
  unfold localMinima
  refine List.Pairwise.filterMap _ ?_ (List.pairwise_lt_range' _ _)
  intro a b hab x hx y hy
  rw [Option.mem_def] at hx hy
  split at hx
  · split at hy
    · injection hx with h1
      injection hy with h2
      rw [← h1, ← h2]
      exact hab
    · simp at hy
  · simp at hx

theorem headD_mem {α : Type} {l : List α} (h : l ≠ []) (d : α) : l.headD d ∈ l := by
  cases l with
  | nil => exact absurd rfl h
  | cons x t => simp

theorem getLastD_mem {α : Type} {l : List α} (h : l ≠ []) (d : α) : l.getLastD d ∈ l := by
  induction l generalizing d with
  | nil => exact absurd rfl h
  | cons x t ih =>
    rw [List.getLastD_cons]
    cases t with
    | nil => simp [List.getLastD]
    | cons y s => exact List.mem_cons.2 (Or.inr (ih (by simp) x))

theorem getLastD_ge_aux (t : List ℕ) (x : ℕ) (hp : t.Pairwise (· < ·))
    (hall : ∀ y ∈ t, x < y) : x ≤ t.getLastD x := by
  induction t generalizing x with
  | nil => simp [List.getLastD]
  | cons y s ih =>
    rw [List.getLastD_cons]
    obtain ⟨hall2, hp2⟩ := List.pairwise_cons.1 hp
    have h1 : x < y := hall y (by simp)
    exact le_of_lt (lt_of_lt_of_le h1 (ih y hp2 hall2))

/-- In a strictly increasing `ℕ` list the first element bounds the last. -/
theorem sorted_headD_le_getLastD {l : List ℕ} (hp : l.Pairwise (· < ·))
    (h : l ≠ []) : l.headD 0 ≤ l.getLastD 0 := by
  cases l with
  | nil => exact absurd rfl h
  | cons x t =>
    rw [List.headD_cons, List.getLastD_cons]
    obtain ⟨hall, hp2⟩ := List.pairwise_cons.1 hp
    exact getLastD_ge_aux t x hp2 hall

theorem mem_pairs {α : Type} {l : List α} {t : α × α} (h : t ∈ pairs l) :
    t.1 ∈ l ∧ t.2 ∈ l := by
  have h2 : (t.1, t.2) ∈ l.zip l.tail := by simpa using h
  obtain ⟨ha, hb⟩ := List.of_mem_zip h2
  exact ⟨ha, List.mem_of_mem_tail hb⟩

theorem mem_triples {α : Type} {l : List α} {t : α × α × α} (h : t ∈ triples l) :
    t.1 ∈ l ∧ t.2.1 ∈ l ∧ t.2.2 ∈ l := by
  have h2 : (t.1, t.2) ∈ l.zip (l.tail.zip l.tail.tail) := by simpa using h
  obtain ⟨ha, hb⟩ := List.of_mem_zip h2
  have h3 : (t.2.1, t.2.2) ∈ l.tail.zip l.tail.tail := by simpa using hb
  obtain ⟨hc, hd⟩ := List.of_mem_zip h3
  exact ⟨ha, List.mem_of_mem_tail hc, List.mem_of_mem_tail (List.mem_of_mem_tail hd)⟩

/-! ## The `best_confidence` loop -/

/-- One step of the loop once the tuple is known to qualify. -/
def pickStep (a : ℤ × Option β) (q : ℤ × β) : ℤ × Option β :=
  if a.1 < q.1 then (q.1, some q.2) else a

theorem foldl_bestStep_eq (f : α → Option (ℤ × β)) (l : List α) (s : ℤ × Option β) :
    l.foldl (bestStep f) s = (l.filterMap f).foldl pickStep s := by
  induction l generalizing s with
  | nil => rfl
  | cons x t ih =>
    rw [List.foldl_cons]
    cases hfx : f x with
    | none =>
      rw [List.filterMap_cons_none hfx]
      have : bestStep f s x = s := by unfold bestStep; rw [hfx]
      rw [this]; exact ih s
    | some q =>
      rw [List.filterMap_cons_some hfx, List.foldl_cons]
      have : bestStep f s x = pickStep s q := by
        unfold bestStep pickStep; rw [hfx]
      rw [this]; exact ih _

/-- Characterization of the strict-improvement fold: either no qualifying
tuple beats the initial confidence and the state is unchanged, or the
result is the first tuple attaining the maximal confidence. -/
theorem pick_char {β : Type} :
    ∀ (Q : List (ℤ × β)) (s : ℤ × Option β),
      ((∀ q ∈ Q, q.1 ≤ s.1) ∧ Q.foldl pickStep s = s) ∨
      ∃ l1 c p l2, Q = l1 ++ (c, p) :: l2 ∧ s.1 < c ∧
        (∀ q ∈ l1, q.1 < c) ∧ (∀ q ∈ l2, q.1 ≤ c) ∧
        Q.foldl pickStep s = (c, some p) := by
  intro Q
  induction Q with
  | nil => exact fun s => Or.inl ⟨by simp, rfl⟩
  | cons q0 Q ih =>
    intro s
    rw [List.foldl_cons]
    by_cases hlt : s.1 < q0.1
    · have hstep : pickStep s q0 = (q0.1, some q0.2) := by
        unfold pickStep; rw [if_pos hlt]
      rw [hstep]
      rcases ih (q0.1, some q0.2) with ⟨hall, heq⟩ | ⟨l1, c, p, l2, hQ, hsc, h1, h2, heq⟩
      · exact Or.inr ⟨[], q0.1, q0.2, Q, by simp, hlt, by simp, hall, heq⟩
      · exact Or.inr ⟨q0 :: l1, c, p, l2, by rw [hQ, List.cons_append], lt_trans hlt hsc,
          fun q hq => by
            rcases List.mem_cons.1 hq with rfl | hq2
            · exact lt_of_lt_of_le hsc le_rfl
            · exact h1 q hq2,
          h2, heq⟩
    · have hstep : pickStep s q0 = s := by
        unfold pickStep; rw [if_neg hlt]
      rw [hstep]
      rcases ih s with ⟨hall, heq⟩ | ⟨l1, c, p, l2, hQ, hsc, h1, h2, heq⟩
      · refine Or.inl ⟨fun q hq => ?_, heq⟩
        rcases List.mem_cons.1 hq with rfl | hq2
        · exact le_of_not_lt hlt
        · exact hall q hq2
      · exact Or.inr ⟨q0 :: l1, c, p, l2, by rw [hQ, List.cons_append], hsc,
          fun q hq => by
            rcases List.mem_cons.1 hq with rfl | hq2
            · exact lt_of_le_of_lt (le_of_not_lt hlt) hsc
            · exact h1 q hq2,
          h2, heq⟩

/-- If the `best_confidence` loop returns a pattern, it is the pattern of
the first qualifying tuple attaining the maximal confidence (strictly
positive, since `best_confidence` starts at 0). -/
theorem bestFold_some {α β : Type} {f : α → Option (ℤ × β)} {l : List α} {p : β}
    (h : (bestFold f l).2 = some p) :
    ∃ l1 c l2, l.filterMap f = l1 ++ (c, p) :: l2 ∧ 0 < c ∧
      (∀ q ∈ l1, q.1 < c) ∧ (∀ q ∈ l2, q.1 ≤ c) := by
  unfold bestFold at h
  rw [foldl_bestStep_eq] at h
  rcases pick_char (l.filterMap f) (0, none) with ⟨_, heq⟩ | ⟨l1, c, p2, l2, hQ, hsc, h1, h2, heq⟩
  · rw [heq] at h; cases h
  · rw [heq] at h
    cases h
    exact ⟨l1, c, l2, hQ, hsc, h1, h2⟩

/-! ## Claim C1 -/

/-- C1: for every price list, window radius `w` and index `i`, the extrema
extraction reports `i` as a local maximum exactly when `i ∈ [w, n - w)` and
`prices[i]` equals the maximum of the closed slice `[i - w, i + w]`, and
symmetrically as a local minimum with the minimum; when `n < 2w + 1` both
output lists are empty (and, the embedding being total, no error is
raised). -/
theorem claim_C1 (prices : List ℚ) (w i : ℕ) :
    ((∃ p, (i, p) ∈ localMaxima prices w) ↔
      w ≤ i ∧ i + w < prices.length ∧
        prices.getD i 0 = pymax (windowSlice prices w i)) ∧
    ((∃ p, (i, p) ∈ localMinima prices w) ↔
      w ≤ i ∧ i + w < prices.length ∧
        prices.getD i 0 = pymin (windowSlice prices w i)) ∧
    (prices.length < 2 * w + 1 →
      localMaxima prices w = [] ∧ localMinima prices w = []) := by
  refine ⟨⟨?_, ?_⟩, ⟨?_, ?_⟩, fun h => ⟨localMaxima_short h, localMinima_short h⟩⟩
  · rintro ⟨p, hp⟩
    obtain ⟨h1, h2, _, h4⟩ := mem_localMaxima_iff.1 hp
    exact ⟨h1, h2, h4⟩
  · rintro ⟨h1, h2, h3⟩
    exact ⟨prices.getD i 0, mem_localMaxima_iff.2 ⟨h1, h2, rfl, h3⟩⟩
  · rintro ⟨p, hp⟩
    obtain ⟨h1, h2, _, h4⟩ := mem_localMinima_iff.1 hp
    exact ⟨h1, h2, h4⟩
  · rintro ⟨h1, h2, h3⟩
    exact ⟨prices.getD i 0, mem_localMinima_iff.2 ⟨h1, h2, rfl, h3⟩⟩

/-- Witness for C1 at a concrete short input (`n = 3 < 2·5 + 1`). -/
theorem claim_C1_witness :
    localMaxima [1, 2, 1] 5 = [] ∧ localMinima [1, 2, 1] 5 = [] :=
  (claim_C1 [1, 2, 1] 5 0).2.2 (by norm_num)

/-! ## Claim C8 -/

/-- C8 counterexample: on the flat top `[0, 5, 5, 0]` with `w = 1`, both
tied indices 1 and 2 qualify (`==` against the window maximum) and both
are appended — the output is not restricted to the first tied index. -/
theorem claim_C8_counterexample :
    localMaxima [0, 5, 5, 0] 1 = [(1, 5), (2, 5)] ∧
    ((2 : ℕ), (5 : ℚ)) ∈ localMaxima [0, 5, 5, 0] 1 ∧ (1 : ℕ) ≠ 2 :=
  ⟨by decide, by decide, by decide⟩

/-- C8 (amended): on a flat top, every tied index in `[w, n - w)` whose
price equals the window extremum is included in the output list — one
entry per tied in-range index (the first qualifying index among them
included), not only the first. -/
theorem claim_C8 (prices : List ℚ) (w i : ℕ) (h1 : w ≤ i)
    (h2 : i + w < prices.length) :
    (prices.getD i 0 = pymax (windowSlice prices w i) →
      (i, prices.getD i 0) ∈ localMaxima prices w) ∧
    (prices.getD i 0 = pymin (windowSlice prices w i) →
      (i, prices.getD i 0) ∈ localMinima prices w) :=
  ⟨fun h3 => mem_localMaxima_iff.2 ⟨h1, h2, rfl, h3⟩,
   fun h3 => mem_localMinima_iff.2 ⟨h1, h2, rfl, h3⟩⟩

/-- Witness for C8 at the second tied index of the flat top. -/
theorem claim_C8_witness :
    ((2 : ℕ), ([0, 5, 5, 0] : List ℚ).getD 2 0) ∈ localMaxima [0, 5, 5, 0] 1 :=
  (claim_C8 [0, 5, 5, 0] 1 2 (by norm_num) (by norm_num)).1 (by decide)

/-! ## Claim C3 -/

/-- C3: every detector returns `none` (and, the embedding being total,
raises nothing) on any series shorter than its hard length gate:
`window*5` for the head-and-shoulders pair, `window*4` for the double
patterns, `window*6` for the triple patterns, and the fixed minima 60
(triangles), 80 (cup and handle), 40 (bullish flag), 50 (falling
wedge). -/
theorem claim_C3 (prices : List ℚ) (dates : List String) (w : ℕ) :
    (prices.length < w * 5 → detect_head_and_shoulders prices dates w = none) ∧
    (prices.length < w * 5 → detect_inverse_head_shoulders prices dates w = none) ∧
    (prices.length < w * 4 → detect_double_top prices dates w = none) ∧
    (prices.length < w * 4 → detect_double_bottom prices dates w = none) ∧
    (prices.length < w * 6 → detect_triple_top prices dates w = none) ∧
    (prices.length < w * 6 → detect_triple_bottom prices dates w = none) ∧
    (prices.length < 60 → detect_ascending_triangle prices dates w = none) ∧
    (prices.length < 60 → detect_descending_triangle prices dates w = none) ∧
    (prices.length < 80 → detect_cup_and_handle prices dates w = none) ∧
    (prices.length < 40 → detect_bullish_flag prices dates w = none) ∧
    (prices.length < 50 → detect_falling_wedge prices dates w = none) := by
  refine ⟨fun h => ?_, fun h => ?_, fun h => ?_, fun h => ?_, fun h => ?_, fun h => ?_,
    fun h => ?_, fun h => ?_, fun h => ?_, fun h => ?_, fun h => ?_⟩
  · unfold detect_head_and_shoulders; rw [if_pos h]
  · unfold detect_inverse_head_shoulders; rw [if_pos h]
  · unfold detect_double_top; rw [if_pos h]
  · unfold detect_double_bottom; rw [if_pos h]
  · unfold detect_triple_top; rw [if_pos h]
  · unfold detect_triple_bottom; rw [if_pos h]
  · unfold detect_ascending_triangle ascendingTriangleEval; rw [if_pos h]
  · unfold detect_descending_triangle descendingTriangleEval; rw [if_pos h]
  · unfold detect_cup_and_handle cupAndHandleEval; rw [if_pos h]
  · unfold detect_bullish_flag bullishFlagEval; rw [if_pos h]
  · unfold detect_falling_wedge fallingWedgeEval; rw [if_pos h]

/-- Witness for C3: a one-point series is rejected by all eleven
detectors at their default windows. -/
theorem claim_C3_witness :
    detect_head_and_shoulders [1] [] 20 = none ∧
    detect_inverse_head_shoulders [1] [] 20 = none ∧
    detect_double_top [1] [] 15 = none ∧
    detect_double_bottom [1] [] 15 = none ∧
    detect_triple_top [1] [] 12 = none ∧
    detect_triple_bottom [1] [] 12 = none ∧
    detect_ascending_triangle [1] [] 10 = none ∧
    detect_descending_triangle [1] [] 10 = none ∧
    detect_cup_and_handle [1] [] 10 = none ∧
    detect_bullish_flag [1] [] 5 = none ∧
    detect_falling_wedge [1] [] 8 = none :=
  ⟨(claim_C3 [1] [] 20).1 (by norm_num),
   (claim_C3 [1] [] 20).2.1 (by norm_num),
   (claim_C3 [1] [] 15).2.2.1 (by norm_num),
   (claim_C3 [1] [] 15).2.2.2.1 (by norm_num),
   (claim_C3 [1] [] 12).2.2.2.2.1 (by norm_num),
   (claim_C3 [1] [] 12).2.2.2.2.2.1 (by norm_num),
   (claim_C3 [1] [] 10).2.2.2.2.2.2.1 (by norm_num),
   (claim_C3 [1] [] 10).2.2.2.2.2.2.2.1 (by norm_num),
   (claim_C3 [1] [] 10).2.2.2.2.2.2.2.2.1 (by norm_num),
   (claim_C3 [1] [] 5).2.2.2.2.2.2.2.2.2.1 (by norm_num),
   (claim_C3 [1] [] 8).2.2.2.2.2.2.2.2.2.2 (by norm_num)⟩

/-! ## Qualifying candidates and inversion lemmas -/

/-- The qualifying tuples of `detect_head_and_shoulders` (in enumeration
order), with their confidence and pattern. -/
def hsCandidates (prices : List ℚ) (dates : List String) (window : ℕ) :
    List (ℤ × HSPat) :=
  (triples ((localMaxima prices window).filter
      fun m => prices.length - 120 ≤ m.1)).filterMap
    (hsEval prices dates (prices.length - 120) (localMinima prices window))

/-- The qualifying tuples of `detect_inverse_head_shoulders`. -/
def ihsCandidates (prices : List ℚ) (dates : List String) (window : ℕ) :
    List (ℤ × IHSPat) :=
  (triples ((localMinima prices window).filter
      fun m => prices.length - 120 ≤ m.1)).filterMap
    (ihsEval prices dates (prices.length - 120) (localMaxima prices window))

/-- The qualifying tuples of `detect_double_top`. -/
def dtCandidates (prices : List ℚ) (dates : List String) (window : ℕ) :
    List (ℤ × DTPat) :=
  (pairs ((localMaxima prices window).filter
      fun m => prices.length - 100 ≤ m.1)).filterMap
    (dtEval prices dates window (prices.length - 100) (localMinima prices window))

/-- The qualifying tuples of `detect_double_bottom`. -/
def dbCandidates (prices : List ℚ) (dates : List String) (window : ℕ) :
    List (ℤ × DBPat) :=
  (pairs ((localMinima prices window).filter
      fun m => prices.length - 100 ≤ m.1)).filterMap
    (dbEval prices dates window (prices.length - 100) (localMaxima prices window))

/-- The qualifying tuples of `detect_triple_top`. -/
def ttCandidates (prices : List ℚ) (dates : List String) (window : ℕ) :
    List (ℤ × TTPat) :=
  (triples ((localMaxima prices window).filter
      fun m => prices.length - 150 ≤ m.1)).filterMap
    (ttEval prices dates (prices.length - 150) (localMinima prices window))

/-- The qualifying tuples of `detect_triple_bottom`. -/
def tbCandidates (prices : List ℚ) (dates : List String) (window : ℕ) :
    List (ℤ × TBPat) :=
  (triples ((localMinima prices window).filter
      fun m => prices.length - 150 ≤ m.1)).filterMap
    (tbEval prices dates (prices.length - 150) (localMaxima prices window))

theorem detect_hs_some {prices : List ℚ} {dates : List String} {w : ℕ} {p : HSPat}
    (h : detect_head_and_shoulders prices dates w = some p) :
    ∃ l1 c l2, hsCandidates prices dates w = l1 ++ (c, p) :: l2 ∧ 0 < c ∧
      (∀ q ∈ l1, q.1 < c) ∧ (∀ q ∈ l2, q.1 ≤ c) := by
  unfold detect_head_and_shoulders at h
  split at h
  · cases h
  · dsimp only [] at h
    split at h
    · cases h
    · split at h
      · cases h
      · have h2 := bestFold_some h
        unfold hsCandidates
        exact h2

theorem detect_ihs_some {prices : List ℚ} {dates : List String} {w : ℕ} {p : IHSPat}
    (h : detect_inverse_head_shoulders prices dates w = some p) :
    ∃ l1 c l2, ihsCandidates prices dates w = l1 ++ (c, p) :: l2 ∧ 0 < c ∧
      (∀ q ∈ l1, q.1 < c) ∧ (∀ q ∈ l2, q.1 ≤ c) := by
  unfold detect_inverse_head_shoulders at h
  split at h
  · cases h
  · dsimp only [] at h
    split at h
    · cases h
    · split at h
      · cases h
      · have h2 := bestFold_some h
        unfold ihsCandidates
        exact h2

theorem detect_dt_some {prices : List ℚ} {dates : List String} {w : ℕ} {p : DTPat}
    (h : detect_double_top prices dates w = some p) :
    ∃ l1 c l2, dtCandidates prices dates w = l1 ++ (c, p) :: l2 ∧ 0 < c ∧
      (∀ q ∈ l1, q.1 < c) ∧ (∀ q ∈ l2, q.1 ≤ c) := by
  unfold detect_double_top at h
  split at h
  · cases h
  · dsimp only [] at h
    split at h
    · cases h
    · have h2 := bestFold_some h
      unfold dtCandidates
      exact h2

theorem detect_db_some {prices : List ℚ} {dates : List String} {w : ℕ} {p : DBPat}
    (h : detect_double_bottom prices dates w = some p) :
    ∃ l1 c l2, dbCandidates prices dates w = l1 ++ (c, p) :: l2 ∧ 0 < c ∧
      (∀ q ∈ l1, q.1 < c) ∧ (∀ q ∈ l2, q.1 ≤ c) := by
  unfold detect_double_bottom at h
  split at h
  · cases h
  · dsimp only [] at h
    split at h
    · cases h
    · have h2 := bestFold_some h
      unfold dbCandidates
      exact h2

theorem detect_tt_some {prices : List ℚ} {dates : List String} {w : ℕ} {p : TTPat}
    (h : detect_triple_top prices dates w = some p) :
    ∃ l1 c l2, ttCandidates prices dates w = l1 ++ (c, p) :: l2 ∧ 0 < c ∧
      (∀ q ∈ l1, q.1 < c) ∧ (∀ q ∈ l2, q.1 ≤ c) := by
  unfold detect_triple_top at h
  split at h
  · cases h
  · dsimp only [] at h
    split at h
    · cases h
    · have h2 := bestFold_some h
      unfold ttCandidates
      exact h2

theorem detect_tb_some {prices : List ℚ} {dates : List String} {w : ℕ} {p : TBPat}
    (h : detect_triple_bottom prices dates w = some p) :
    ∃ l1 c l2, tbCandidates prices dates w = l1 ++ (c, p) :: l2 ∧ 0 < c ∧
      (∀ q ∈ l1, q.1 < c) ∧ (∀ q ∈ l2, q.1 ≤ c) := by
  unfold detect_triple_bottom at h
  split at h
  · cases h
  · dsimp only [] at h
    split at h
    · cases h
    · have h2 := bestFold_some h
      unfold tbCandidates
      exact h2

theorem detect_asc_some {prices : List ℚ} {dates : List String} {w : ℕ} {p : AscPat}
    (h : detect_ascending_triangle prices dates w = some p) :
    ∃ c, ascendingTriangleEval prices w = some (c, p) ∧ 30 ≤ c := by
  unfold detect_ascending_triangle at h
  split at h
  · cases h
  · rename_i c q heq
    split at h
    · cases h
    · cases h
      exact ⟨c, heq, le_of_not_lt (by assumption)⟩

theorem detect_desc_some {prices : List ℚ} {dates : List String} {w : ℕ} {p : DescPat}
    (h : detect_descending_triangle prices dates w = some p) :
    ∃ c, descendingTriangleEval prices w = some (c, p) ∧ 30 ≤ c := by
  unfold detect_descending_triangle at h
  split at h
  · cases h
  · rename_i c q heq
    split at h
    · cases h
    · cases h
      exact ⟨c, heq, le_of_not_lt (by assumption)⟩

theorem detect_cup_some {prices : List ℚ} {dates : List String} {w : ℕ} {p : CupPat}
    (h : detect_cup_and_handle prices dates w = some p) :
    ∃ c, cupAndHandleEval prices dates = some (c, p) ∧ 35 ≤ c := by
  unfold detect_cup_and_handle at h
  split at h
  · cases h
  · rename_i c q heq
    split at h
    · cases h
    · cases h
      exact ⟨c, heq, le_of_not_lt (by assumption)⟩

theorem detect_flag_some {prices : List ℚ} {dates : List String} {w : ℕ} {p : FlagPat}
    (h : detect_bullish_flag prices dates w = some p) :
    ∃ c, bullishFlagEval prices = some (c, p) ∧ 35 ≤ c := by
  unfold detect_bullish_flag at h
  split at h
  · cases h
  · rename_i c q heq
    split at h
    · cases h
    · cases h
      exact ⟨c, heq, le_of_not_lt (by assumption)⟩

theorem detect_wedge_some {prices : List ℚ} {dates : List String} {w : ℕ} {p : WedgePat}
    (h : detect_falling_wedge prices dates w = some p) :
    ∃ c, fallingWedgeEval prices w = some (c, p) ∧ 30 ≤ c := by
  unfold detect_falling_wedge at h
  split at h
  · cases h
  · rename_i c q heq
    split at h
    · cases h
    · cases h
      exact ⟨c, heq, le_of_not_lt (by assumption)⟩

/-! ## The confidence stored in a pattern is the loop's confidence -/

theorem hsEval_conf {prices : List ℚ} {dates : List String} {ss : ℕ}
    {minima : List (ℕ × ℚ)} {t : (ℕ × ℚ) × (ℕ × ℚ) × (ℕ × ℚ)} {c : ℤ} {p : HSPat}
    (h : hsEval prices dates ss minima t = some (c, p)) : p.confidence = c := by
  unfold hsEval at h
  dsimp only [] at h
  repeat (split at h <;> try exact Option.noConfusion h)
  all_goals
    rw [Option.some.injEq, Prod.mk.injEq] at h
  all_goals
    obtain ⟨h1, h2⟩ := h
  all_goals
    rw [← h2, ← h1]

theorem ihsEval_conf {prices : List ℚ} {dates : List String} {ss : ℕ}
    {maxima : List (ℕ × ℚ)} {t : (ℕ × ℚ) × (ℕ × ℚ) × (ℕ × ℚ)} {c : ℤ} {p : IHSPat}
    (h : ihsEval prices dates ss maxima t = some (c, p)) : p.confidence = c := by
  unfold ihsEval at h
  dsimp only [] at h
  repeat (split at h <;> try exact Option.noConfusion h)
  all_goals rw [Option.some.injEq, Prod.mk.injEq] at h
  all_goals obtain ⟨h1, h2⟩ := h
  all_goals rw [← h2, ← h1]

theorem dtEval_conf {prices : List ℚ} {dates : List String} {w ss : ℕ}
    {minima : List (ℕ × ℚ)} {t : (ℕ × ℚ) × (ℕ × ℚ)} {c : ℤ} {p : DTPat}
    (h : dtEval prices dates w ss minima t = some (c, p)) : p.confidence = c := by
  unfold dtEval at h
  dsimp only [] at h
  repeat (split at h <;> try exact Option.noConfusion h)
  all_goals rw [Option.some.injEq, Prod.mk.injEq] at h
  all_goals obtain ⟨h1, h2⟩ := h
  all_goals rw [← h2, ← h1]

theorem dbEval_conf {prices : List ℚ} {dates : List String} {w ss : ℕ}
    {maxima : List (ℕ × ℚ)} {t : (ℕ × ℚ) × (ℕ × ℚ)} {c : ℤ} {p : DBPat}
    (h : dbEval prices dates w ss maxima t = some (c, p)) : p.confidence = c := by
  unfold dbEval at h
  dsimp only [] at h
  repeat (split at h <;> try exact Option.noConfusion h)
  all_goals rw [Option.some.injEq, Prod.mk.injEq] at h
  all_goals obtain ⟨h1, h2⟩ := h
  all_goals rw [← h2, ← h1]

theorem ttEval_conf {prices : List ℚ} {dates : List String} {ss : ℕ}
    {minima : List (ℕ × ℚ)} {t : (ℕ × ℚ) × (ℕ × ℚ) × (ℕ × ℚ)} {c : ℤ} {p : TTPat}
    (h : ttEval prices dates ss minima t = some (c, p)) : p.confidence = c := by
  unfold ttEval at h
  dsimp only [] at h
  repeat (split at h <;> try exact Option.noConfusion h)
  all_goals rw [Option.some.injEq, Prod.mk.injEq] at h
  all_goals obtain ⟨h1, h2⟩ := h
  all_goals rw [← h2, ← h1]

theorem tbEval_conf {prices : List ℚ} {dates : List String} {ss : ℕ}
    {maxima : List (ℕ × ℚ)} {t : (ℕ × ℚ) × (ℕ × ℚ) × (ℕ × ℚ)} {c : ℤ} {p : TBPat}
    (h : tbEval prices dates ss maxima t = some (c, p)) : p.confidence = c := by
  unfold tbEval at h
  dsimp only [] at h
  repeat (split at h <;> try exact Option.noConfusion h)
  all_goals rw [Option.some.injEq, Prod.mk.injEq] at h
  all_goals obtain ⟨h1, h2⟩ := h
  all_goals rw [← h2, ← h1]

theorem ascEval_conf {prices : List ℚ} {w : ℕ} {c : ℤ} {p : AscPat}
    (h : ascendingTriangleEval prices w = some (c, p)) : p.confidence = c := by
  unfold ascendingTriangleEval at h
  repeat
    first
    | (split at h <;> try exact Option.noConfusion h)
    | dsimp only [] at h
  all_goals rw [Option.some.injEq, Prod.mk.injEq] at h
  all_goals obtain ⟨h1, h2⟩ := h
  all_goals rw [← h2, ← h1]

theorem descEval_conf {prices : List ℚ} {w : ℕ} {c : ℤ} {p : DescPat}
    (h : descendingTriangleEval prices w = some (c, p)) : p.confidence = c := by
  unfold descendingTriangleEval at h
  repeat
    first
    | (split at h <;> try exact Option.noConfusion h)
    | dsimp only [] at h
  all_goals rw [Option.some.injEq, Prod.mk.injEq] at h
  all_goals obtain ⟨h1, h2⟩ := h
  all_goals rw [← h2, ← h1]

theorem cupEval_conf {prices : List ℚ} {dates : List String} {c : ℤ} {p : CupPat}
    (h : cupAndHandleEval prices dates = some (c, p)) : p.confidence = c := by
  unfold cupAndHandleEval at h
  dsimp only [] at h
  split_ifs at h
  all_goals rw [Option.some.injEq, Prod.mk.injEq] at h
  all_goals obtain ⟨h1, h2⟩ := h
  all_goals rw [← h2, ← h1]

theorem flagEval_conf {prices : List ℚ} {c : ℤ} {p : FlagPat}
    (h : bullishFlagEval prices = some (c, p)) : p.confidence = c := by
  unfold bullishFlagEval at h
  repeat
    first
    | (split at h <;> try exact Option.noConfusion h)
    | dsimp only [] at h
  all_goals rw [Option.some.injEq, Prod.mk.injEq] at h
  all_goals obtain ⟨h1, h2⟩ := h
  all_goals rw [← h2, ← h1]

theorem wedgeEval_conf {prices : List ℚ} {w : ℕ} {c : ℤ} {p : WedgePat}
    (h : fallingWedgeEval prices w = some (c, p)) : p.confidence = c := by
  unfold fallingWedgeEval at h
  repeat
    first
    | (split at h <;> try exact Option.noConfusion h)
    | dsimp only [] at h
  all_goals rw [Option.some.injEq, Prod.mk.injEq] at h
  all_goals obtain ⟨h1, h2⟩ := h
  all_goals rw [← h2, ← h1]

theorem hsCandidates_conf {prices : List ℚ} {dates : List String} {w : ℕ}
    {c : ℤ} {p : HSPat} (h : (c, p) ∈ hsCandidates prices dates w) :
    p.confidence = c := by
  unfold hsCandidates at h
  obtain ⟨t, _, ht⟩ := List.mem_filterMap.1 h
  exact hsEval_conf ht

theorem ihsCandidates_conf {prices : List ℚ} {dates : List String} {w : ℕ}
    {c : ℤ} {p : IHSPat} (h : (c, p) ∈ ihsCandidates prices dates w) :
    p.confidence = c := by
  unfold ihsCandidates at h
  obtain ⟨t, _, ht⟩ := List.mem_filterMap.1 h
  exact ihsEval_conf ht

theorem dtCandidates_conf {prices : List ℚ} {dates : List String} {w : ℕ}
    {c : ℤ} {p : DTPat} (h : (c, p) ∈ dtCandidates prices dates w) :
    p.confidence = c := by
  unfold dtCandidates at h
  obtain ⟨t, _, ht⟩ := List.mem_filterMap.1 h
  exact dtEval_conf ht

theorem dbCandidates_conf {prices : List ℚ} {dates : List String} {w : ℕ}
    {c : ℤ} {p : DBPat} (h : (c, p) ∈ dbCandidates prices dates w) :
    p.confidence = c := by
  unfold dbCandidates at h
  obtain ⟨t, _, ht⟩ := List.mem_filterMap.1 h
  exact dbEval_conf ht

theorem ttCandidates_conf {prices : List ℚ} {dates : List String} {w : ℕ}
    {c : ℤ} {p : TTPat} (h : (c, p) ∈ ttCandidates prices dates w) :
    p.confidence = c := by
  unfold ttCandidates at h
  obtain ⟨t, _, ht⟩ := List.mem_filterMap.1 h
  exact ttEval_conf ht

theorem tbCandidates_conf {prices : List ℚ} {dates : List String} {w : ℕ}
    {c : ℤ} {p : TBPat} (h : (c, p) ∈ tbCandidates prices dates w) :
    p.confidence = c := by
  unfold tbCandidates at h
  obtain ⟨t, _, ht⟩ := List.mem_filterMap.1 h
  exact tbEval_conf ht

/-! ## Claim C5 -/

/-- C5: in every detector, a failed constraint only discards that tuple
(the qualifying-candidate list is built from the whole enumeration), and
the candidate returned is the first one (in enumeration order) attaining
the maximal confidence over all qualifying tuples: for the six loop
detectors, a returned pattern decomposes the qualifying list as
`l1 ++ (c, p) :: l2` with every earlier qualifying confidence strictly
below `c` and every later one at most `c`; each of the five
single-candidate detectors evaluates exactly one candidate, which is the
one returned. -/
theorem claim_C5 (prices : List ℚ) (dates : List String) (w : ℕ) :
    (∀ p, detect_head_and_shoulders prices dates w = some p →
      ∃ l1 c l2, hsCandidates prices dates w = l1 ++ (c, p) :: l2 ∧
        p.confidence = c ∧ 0 < c ∧ (∀ q ∈ l1, q.1 < c) ∧ (∀ q ∈ l2, q.1 ≤ c)) ∧
    (∀ p, detect_inverse_head_shoulders prices dates w = some p →
      ∃ l1 c l2, ihsCandidates prices dates w = l1 ++ (c, p) :: l2 ∧
        p.confidence = c ∧ 0 < c ∧ (∀ q ∈ l1, q.1 < c) ∧ (∀ q ∈ l2, q.1 ≤ c)) ∧
    (∀ p, detect_double_top prices dates w = some p →
      ∃ l1 c l2, dtCandidates prices dates w = l1 ++ (c, p) :: l2 ∧
        p.confidence = c ∧ 0 < c ∧ (∀ q ∈ l1, q.1 < c) ∧ (∀ q ∈ l2, q.1 ≤ c)) ∧
    (∀ p, detect_double_bottom prices dates w = some p →
      ∃ l1 c l2, dbCandidates prices dates w = l1 ++ (c, p) :: l2 ∧
        p.confidence = c ∧ 0 < c ∧ (∀ q ∈ l1, q.1 < c) ∧ (∀ q ∈ l2, q.1 ≤ c)) ∧
    (∀ p, detect_triple_top prices dates w = some p →
      ∃ l1 c l2, ttCandidates prices dates w = l1 ++ (c, p) :: l2 ∧
        p.confidence = c ∧ 0 < c ∧ (∀ q ∈ l1, q.1 < c) ∧ (∀ q ∈ l2, q.1 ≤ c)) ∧
    (∀ p, detect_triple_bottom prices dates w = some p →
      ∃ l1 c l2, tbCandidates prices dates w = l1 ++ (c, p) :: l2 ∧
        p.confidence = c ∧ 0 < c ∧ (∀ q ∈ l1, q.1 < c) ∧ (∀ q ∈ l2, q.1 ≤ c)) ∧
    (∀ p, detect_ascending_triangle prices dates w = some p →
      ∃ c, ascendingTriangleEval prices w = some (c, p) ∧ p.confidence = c) ∧
    (∀ p, detect_descending_triangle prices dates w = some p →
      ∃ c, descendingTriangleEval prices w = some (c, p) ∧ p.confidence = c) ∧
    (∀ p, detect_cup_and_handle prices dates w = some p →
      ∃ c, cupAndHandleEval prices dates = some (c, p) ∧ p.confidence = c) ∧
    (∀ p, detect_bullish_flag prices dates w = some p →
      ∃ c, bullishFlagEval prices = some (c, p) ∧ p.confidence = c) ∧
    (∀ p, detect_falling_wedge prices dates w = some p →
      ∃ c, fallingWedgeEval prices w = some (c, p) ∧ p.confidence = c) := by
  refine ⟨fun p h => ?_, fun p h => ?_, fun p h => ?_, fun p h => ?_, fun p h => ?_,
    fun p h => ?_, fun p h => ?_, fun p h => ?_, fun p h => ?_, fun p h => ?_, fun p h => ?_⟩
  · obtain ⟨l1, c, l2, hdec, hc, h1, h2⟩ := detect_hs_some h
    have hconf : p.confidence = c :=
      hsCandidates_conf (by rw [hdec]; exact List.mem_append_right _ (List.mem_cons_self _ _))
    exact ⟨l1, c, l2, hdec, hconf, hc, h1, h2⟩
  · obtain ⟨l1, c, l2, hdec, hc, h1, h2⟩ := detect_ihs_some h
    have hconf : p.confidence = c :=
      ihsCandidates_conf (by rw [hdec]; exact List.mem_append_right _ (List.mem_cons_self _ _))
    exact ⟨l1, c, l2, hdec, hconf, hc, h1, h2⟩
  · obtain ⟨l1, c, l2, hdec, hc, h1, h2⟩ := detect_dt_some h
    have hconf : p.confidence = c :=
      dtCandidates_conf (by rw [hdec]; exact List.mem_append_right _ (List.mem_cons_self _ _))
    exact ⟨l1, c, l2, hdec, hconf, hc, h1, h2⟩
  · obtain ⟨l1, c, l2, hdec, hc, h1, h2⟩ := detect_db_some h
    have hconf : p.confidence = c :=
      dbCandidates_conf (by rw [hdec]; exact List.mem_append_right _ (List.mem_cons_self _ _))
    exact ⟨l1, c, l2, hdec, hconf, hc, h1, h2⟩
  · obtain ⟨l1, c, l2, hdec, hc, h1, h2⟩ := detect_tt_some h
    have hconf : p.confidence = c :=
      ttCandidates_conf (by rw [hdec]; exact List.mem_append_right _ (List.mem_cons_self _ _))
    exact ⟨l1, c, l2, hdec, hconf, hc, h1, h2⟩
  · obtain ⟨l1, c, l2, hdec, hc, h1, h2⟩ := detect_tb_some h
    have hconf : p.confidence = c :=
      tbCandidates_conf (by rw [hdec]; exact List.mem_append_right _ (List.mem_cons_self _ _))
    exact ⟨l1, c, l2, hdec, hconf, hc, h1, h2⟩
  · obtain ⟨c, heq, _⟩ := detect_asc_some h
    exact ⟨c, heq, ascEval_conf heq⟩
  · obtain ⟨c, heq, _⟩ := detect_desc_some h
    exact ⟨c, heq, descEval_conf heq⟩
  · obtain ⟨c, heq, _⟩ := detect_cup_some h
    exact ⟨c, heq, cupEval_conf heq⟩
  · obtain ⟨c, heq, _⟩ := detect_flag_some h
    exact ⟨c, heq, flagEval_conf heq⟩
  · obtain ⟨c, heq, _⟩ := detect_wedge_some h
    exact ⟨c, heq, wedgeEval_conf heq⟩

/-- A 13-day series carrying a clean head-and-shoulders shape
(peaks 12 / 14 / 12 at indices 2, 6, 10; troughs 10 at 4 and 8). -/
def hsDemoPrices : List ℚ := [10, 11, 12, 11, 10, 11, 14, 11, 10, 11, 12, 11, 10]

/-- Dates for `hsDemoPrices`. -/
def hsDemoDates : List String :=
  ["d0", "d1", "d2", "d3", "d4", "d5", "d6", "d7", "d8", "d9", "d10", "d11", "d12"]

/-- The pattern `detect_head_and_shoulders` finds on `hsDemoPrices` with
window 2. -/
def hsDemoPat : HSPat :=
  { confidence := 93
    left_shoulder := ⟨2, "d2", 12⟩
    head := ⟨6, "d6", 14⟩
    right_shoulder := ⟨10, "d10", 12⟩
    neckline := 10
    target_price := 6
    current_price := 10
    price_vs_neckline_pct := 0
    pattern_height_pct := 40 }

/-- Witness for C5 on the concrete head-and-shoulders demo series. -/
theorem claim_C5_witness :
    ∃ l1 c l2, hsCandidates hsDemoPrices hsDemoDates 2 = l1 ++ (c, hsDemoPat) :: l2 ∧
      hsDemoPat.confidence = c ∧ 0 < c ∧
      (∀ q ∈ l1, q.1 < c) ∧ (∀ q ∈ l2, q.1 ≤ c) :=
  (claim_C5 hsDemoPrices hsDemoDates 2).1 hsDemoPat (by decide)

/-! ## Bounds on confidences -/

theorem pyint_eq_floor {q : ℚ} (h : 0 ≤ q) : pyint q = Rat.floor q := by
  unfold pyint
  rw [if_neg (not_lt.2 h)]

theorem le_pyint {b : ℤ} {q : ℚ} (h0 : 0 ≤ q) (h : (b : ℚ) ≤ q) : b ≤ pyint q := by
  rw [pyint_eq_floor h0]
  exact Rat.le_floor.2 h

theorem pyint_le {b : ℤ} {q : ℚ} (h0 : 0 ≤ q) (h : q < (b : ℚ) + 1) : pyint q ≤ b := by
  rw [pyint_eq_floor h0]
  by_contra hc
  have h1 : b + 1 ≤ Rat.floor q := by omega
  have h2 : ((b + 1 : ℤ) : ℚ) ≤ q := Rat.le_floor.1 h1
  push_cast at h2
  linarith

theorem recency_bounds {ri ss n : ℕ} (h1 : ss ≤ ri) (h2 : ri < n) :
    0 ≤ ((ri : ℚ) - (ss : ℚ)) / ((n : ℚ) - (ss : ℚ)) ∧
    ((ri : ℚ) - (ss : ℚ)) / ((n : ℚ) - (ss : ℚ)) < 1 := by
  have hrn : (ri : ℚ) < (n : ℚ) := by exact_mod_cast h2
  have hsr : (ss : ℚ) ≤ (ri : ℚ) := by exact_mod_cast h1
  have hd : (0 : ℚ) < (n : ℚ) - (ss : ℚ) := by linarith
  constructor
  · exact div_nonneg (by linarith) (le_of_lt hd)
  · rw [div_lt_one hd]
    linarith

theorem absdiff_nonneg {a b : ℚ} (ha : 0 < a) (hb : 0 < b) :
    0 ≤ |a - b| / max a b :=
  div_nonneg (abs_nonneg _) (le_of_lt (lt_max_of_lt_left ha))

/-- Bounds for the `0.3 / 0.4 / 0.3` weighted confidence of the
head-and-shoulders detectors. -/
theorem conf343_bounds {s h r : ℚ} (hs1 : 0.85 ≤ s) (hs2 : s ≤ 1)
    (hh1 : 1/4 ≤ h) (hh2 : h ≤ 1) (hr1 : 0 ≤ r) (hr2 : r < 1) :
    30 ≤ pyint ((s * 0.3 + h * 0.4 + r * 0.3) * 100) ∧
    pyint ((s * 0.3 + h * 0.4 + r * 0.3) * 100) ≤ 99 := by
  have hq0 : (0 : ℚ) ≤ (s * 0.3 + h * 0.4 + r * 0.3) * 100 := by nlinarith
  constructor
  · apply le_pyint hq0
    push_cast
    nlinarith
  · apply pyint_le hq0
    push_cast
    nlinarith

/-- Bounds for the `0.4 / 0.3 / 0.3` weighted confidence of the double and
triple detectors. -/
theorem conf433_bounds {s h r : ℚ} (hs1 : 0.95 ≤ s) (hs2 : s ≤ 1)
    (hh1 : 1/4 ≤ h) (hh2 : h ≤ 1) (hr1 : 0 ≤ r) (hr2 : r < 1) :
    30 ≤ pyint ((s * 0.4 + h * 0.3 + r * 0.3) * 100) ∧
    pyint ((s * 0.4 + h * 0.3 + r * 0.3) * 100) ≤ 99 := by
  have hq0 : (0 : ℚ) ≤ (s * 0.4 + h * 0.3 + r * 0.3) * 100 := by nlinarith
  constructor
  · apply le_pyint hq0
    push_cast
    nlinarith
  · apply pyint_le hq0
    push_cast
    nlinarith

/-- A qualifying head-and-shoulders tuple always scores in `[30, 99]`
(`[35, 99]` in fact) when prices are positive. -/
theorem hsEval_bounds {prices : List ℚ} {dates : List String} {w : ℕ}
    {t : (ℕ × ℚ) × (ℕ × ℚ) × (ℕ × ℚ)} {c : ℤ} {p : HSPat}
    (hpos : ∀ x ∈ prices, 0 < x)
    (hl : (t.1.1, t.1.2) ∈ localMaxima prices w)
    (hr : (t.2.2.1, t.2.2.2) ∈ localMaxima prices w)
    (hss : prices.length - 120 ≤ t.2.2.1)
    (h : hsEval prices dates (prices.length - 120)
        (localMinima prices w) t = some (c, p)) :
    30 ≤ c ∧ c ≤ 99 := by
  have hlp : 0 < t.1.2 := hpos _ (localMaxima_snd_mem hl)
  have hrp : 0 < t.2.2.2 := hpos _ (localMaxima_snd_mem hr)
  have hrin : t.2.2.1 < prices.length := localMaxima_idx_lt hr
  obtain ⟨hrec0, hrec1⟩ := recency_bounds hss hrin
  have hd0 : 0 ≤ |t.1.2 - t.2.2.2| / max t.1.2 t.2.2.2 := absdiff_nonneg hlp hrp
  unfold hsEval at h
  dsimp only [] at h
  split_ifs at h with h1 h2 h3 h4
  rw [Option.some.injEq, Prod.mk.injEq] at h
  obtain ⟨hc, _⟩ := h
  rw [← hc]
  have hd15 := le_of_not_lt h2
  have hh05 := le_of_not_lt h4
  exact conf343_bounds (by linarith) (by linarith)
    (le_min (by linarith) (by norm_num)) (min_le_right _ _) hrec0 hrec1

/-- A qualifying inverse-head-and-shoulders tuple scores in `[30, 99]`. -/
theorem ihsEval_bounds {prices : List ℚ} {dates : List String} {w : ℕ}
    {t : (ℕ × ℚ) × (ℕ × ℚ) × (ℕ × ℚ)} {c : ℤ} {p : IHSPat}
    (hpos : ∀ x ∈ prices, 0 < x)
    (hl : (t.1.1, t.1.2) ∈ localMinima prices w)
    (hr : (t.2.2.1, t.2.2.2) ∈ localMinima prices w)
    (hss : prices.length - 120 ≤ t.2.2.1)
    (h : ihsEval prices dates (prices.length - 120)
        (localMaxima prices w) t = some (c, p)) :
    30 ≤ c ∧ c ≤ 99 := by
  have hlp : 0 < t.1.2 := hpos _ (localMinima_snd_mem hl)
  have hrp : 0 < t.2.2.2 := hpos _ (localMinima_snd_mem hr)
  have hrin : t.2.2.1 < prices.length := localMinima_idx_lt hr
  obtain ⟨hrec0, hrec1⟩ := recency_bounds hss hrin
  have hd0 : 0 ≤ |t.1.2 - t.2.2.2| / max t.1.2 t.2.2.2 := absdiff_nonneg hlp hrp
  unfold ihsEval at h
  dsimp only [] at h
  split_ifs at h with h1 h2 h3 h4
  rw [Option.some.injEq, Prod.mk.injEq] at h
  obtain ⟨hc, _⟩ := h
  rw [← hc]
  have hd15 := le_of_not_lt h2
  have hh05 := le_of_not_lt h4
  exact conf343_bounds (by linarith) (by linarith)
    (le_min (by linarith) (by norm_num)) (min_le_right _ _) hrec0 hrec1

/-- A qualifying double-top pair scores in `[30, 99]`. -/
theorem dtEval_bounds {prices : List ℚ} {dates : List String} {w : ℕ}
    {t : (ℕ × ℚ) × (ℕ × ℚ)} {c : ℤ} {p : DTPat}
    (hpos : ∀ x ∈ prices, 0 < x)
    (hl : (t.1.1, t.1.2) ∈ localMaxima prices w)
    (hr : (t.2.1, t.2.2) ∈ localMaxima prices w)
    (hss : prices.length - 100 ≤ t.2.1)
    (h : dtEval prices dates w (prices.length - 100)
        (localMinima prices w) t = some (c, p)) :
    30 ≤ c ∧ c ≤ 99 := by
  have hlp : 0 < t.1.2 := hpos _ (localMaxima_snd_mem hl)
  have hrp : 0 < t.2.2 := hpos _ (localMaxima_snd_mem hr)
  have hrin : t.2.1 < prices.length := localMaxima_idx_lt hr
  obtain ⟨hrec0, hrec1⟩ := recency_bounds hss hrin
  have hd0 : 0 ≤ |t.1.2 - t.2.2| / max t.1.2 t.2.2 := absdiff_nonneg hlp hrp
  unfold dtEval at h
  dsimp only [] at h
  split_ifs at h with h1 h2 h3 h4
  rw [Option.some.injEq, Prod.mk.injEq] at h
  obtain ⟨hc, _⟩ := h
  rw [← hc]
  have hd03 := le_of_not_lt h1
  have hh05 := le_of_not_lt h4
  exact conf433_bounds (by linarith) (by linarith)
    (le_min (by linarith) (by norm_num)) (min_le_right _ _) hrec0 hrec1

/-- A qualifying double-bottom pair scores in `[30, 99]`. -/
theorem dbEval_bounds {prices : List ℚ} {dates : List String} {w : ℕ}
    {t : (ℕ × ℚ) × (ℕ × ℚ)} {c : ℤ} {p : DBPat}
    (hpos : ∀ x ∈ prices, 0 < x)
    (hl : (t.1.1, t.1.2) ∈ localMinima prices w)
    (hr : (t.2.1, t.2.2) ∈ localMinima prices w)
    (hss : prices.length - 100 ≤ t.2.1)
    (h : dbEval prices dates w (prices.length - 100)
        (localMaxima prices w) t = some (c, p)) :
    30 ≤ c ∧ c ≤ 99 := by
  have hlp : 0 < t.1.2 := hpos _ (localMinima_snd_mem hl)
  have hrp : 0 < t.2.2 := hpos _ (localMinima_snd_mem hr)
  have hrin : t.2.1 < prices.length := localMinima_idx_lt hr
  obtain ⟨hrec0, hrec1⟩ := recency_bounds hss hrin
  have hd0 : 0 ≤ |t.1.2 - t.2.2| / max t.1.2 t.2.2 := absdiff_nonneg hlp hrp
  unfold dbEval at h
  dsimp only [] at h
  split_ifs at h with h1 h2 h3 h4
  rw [Option.some.injEq, Prod.mk.injEq] at h
  obtain ⟨hc, _⟩ := h
  rw [← hc]
  have hd03 := le_of_not_lt h1
  have hh05 := le_of_not_lt h4
  exact conf433_bounds (by linarith) (by linarith)
    (le_min (by linarith) (by norm_num)) (min_le_right _ _) hrec0 hrec1

/-- A qualifying triple-top tuple scores in `[30, 99]`. -/
theorem ttEval_bounds {prices : List ℚ} {dates : List String} {w : ℕ}
    {t : (ℕ × ℚ) × (ℕ × ℚ) × (ℕ × ℚ)} {c : ℤ} {p : TTPat}
    (hpos : ∀ x ∈ prices, 0 < x)
    (hl : (t.1.1, t.1.2) ∈ localMaxima prices w)
    (hm : (t.2.1.1, t.2.1.2) ∈ localMaxima prices w)
    (hr : (t.2.2.1, t.2.2.2) ∈ localMaxima prices w)
    (hss : prices.length - 150 ≤ t.2.2.1)
    (h : ttEval prices dates (prices.length - 150)
        (localMinima prices w) t = some (c, p)) :
    30 ≤ c ∧ c ≤ 99 := by
  have hlp : 0 < t.1.2 := hpos _ (localMaxima_snd_mem hl)
  have hmp : 0 < t.2.1.2 := hpos _ (localMaxima_snd_mem hm)
  have hrp : 0 < t.2.2.2 := hpos _ (localMaxima_snd_mem hr)
  have hrin : t.2.2.1 < prices.length := localMaxima_idx_lt hr
  obtain ⟨hrec0, hrec1⟩ := recency_bounds hss hrin
  have havg : 0 < (t.1.2 + t.2.1.2 + t.2.2.2) / 3 := by linarith
  have hd0 : 0 ≤ max (|t.1.2 - (t.1.2 + t.2.1.2 + t.2.2.2) / 3|)
      (max (|t.2.1.2 - (t.1.2 + t.2.1.2 + t.2.2.2) / 3|)
        (|t.2.2.2 - (t.1.2 + t.2.1.2 + t.2.2.2) / 3|)) /
      ((t.1.2 + t.2.1.2 + t.2.2.2) / 3) :=
    div_nonneg (le_trans (abs_nonneg _) (le_max_left _ _)) (le_of_lt havg)
  unfold ttEval at h
  dsimp only [] at h
  split_ifs at h with h1 h2 h3
  rw [Option.some.injEq, Prod.mk.injEq] at h
  obtain ⟨hc, _⟩ := h
  rw [← hc]
  have hd05 := le_of_not_lt h1
  have hh05 := le_of_not_lt h3
  exact conf433_bounds (by linarith) (by linarith)
    (le_min (by linarith) (by norm_num)) (min_le_right _ _) hrec0 hrec1

/-- A qualifying triple-bottom tuple scores in `[30, 99]`. -/
theorem tbEval_bounds {prices : List ℚ} {dates : List String} {w : ℕ}
    {t : (ℕ × ℚ) × (ℕ × ℚ) × (ℕ × ℚ)} {c : ℤ} {p : TBPat}
    (hpos : ∀ x ∈ prices, 0 < x)
    (hl : (t.1.1, t.1.2) ∈ localMinima prices w)
    (hm : (t.2.1.1, t.2.1.2) ∈ localMinima prices w)
    (hr : (t.2.2.1, t.2.2.2) ∈ localMinima prices w)
    (hss : prices.length - 150 ≤ t.2.2.1)
    (h : tbEval prices dates (prices.length - 150)
        (localMaxima prices w) t = some (c, p)) :
    30 ≤ c ∧ c ≤ 99 := by
  have hlp : 0 < t.1.2 := hpos _ (localMinima_snd_mem hl)
  have hmp : 0 < t.2.1.2 := hpos _ (localMinima_snd_mem hm)
  have hrp : 0 < t.2.2.2 := hpos _ (localMinima_snd_mem hr)
  have hrin : t.2.2.1 < prices.length := localMinima_idx_lt hr
  obtain ⟨hrec0, hrec1⟩ := recency_bounds hss hrin
  have havg : 0 < (t.1.2 + t.2.1.2 + t.2.2.2) / 3 := by linarith
  have hd0 : 0 ≤ max (|t.1.2 - (t.1.2 + t.2.1.2 + t.2.2.2) / 3|)
      (max (|t.2.1.2 - (t.1.2 + t.2.1.2 + t.2.2.2) / 3|)
        (|t.2.2.2 - (t.1.2 + t.2.1.2 + t.2.2.2) / 3|)) /
      ((t.1.2 + t.2.1.2 + t.2.2.2) / 3) :=
    div_nonneg (le_trans (abs_nonneg _) (le_max_left _ _)) (le_of_lt havg)
  unfold tbEval at h
  dsimp only [] at h
  split_ifs at h with h1 h2 h3
  rw [Option.some.injEq, Prod.mk.injEq] at h
  obtain ⟨hc, _⟩ := h
  rw [← hc]
  have hd05 := le_of_not_lt h1
  have hh05 := le_of_not_lt h3
  exact conf433_bounds (by linarith) (by linarith)
    (le_min (by linarith) (by norm_num)) (min_le_right _ _) hrec0 hrec1

theorem pymax_pos {l : List ℚ} (hne : l ≠ []) (hp : ∀ x ∈ l, 0 < x) :
    0 < pymax l := hp _ (pymax_mem hne)

/-- Bounds for the cup-and-handle confidence blend. -/
theorem confCup_bounds {u d s : ℚ} (hu1 : 0.9 ≤ u) (hu2 : u ≤ 1)
    (hd1 : 0.3 ≤ d) (hd2 : d ≤ 1) (hs1 : 0.4 ≤ s) (hs2 : s ≤ 0.7) :
    35 ≤ pyint ((u * 0.3 + d * 0.4 + s * 0.3) * 100) ∧
    pyint ((u * 0.3 + d * 0.4 + s * 0.3) * 100) ≤ 99 := by
  have hq0 : (0 : ℚ) ≤ (u * 0.3 + d * 0.4 + s * 0.3) * 100 := by nlinarith
  constructor
  · apply le_pyint hq0
    push_cast
    nlinarith
  · apply pyint_le hq0
    push_cast
    nlinarith

/-- A geometrically valid cup-and-handle always scores in `[35, 99]` when
prices are positive (so its publish floor of 35 never rejects one). -/
theorem cupEval_bounds {prices : List ℚ} {dates : List String} {c : ℤ} {p : CupPat}
    (hpos : ∀ x ∈ prices, 0 < x)
    (h : cupAndHandleEval prices dates = some (c, p)) : 35 ≤ c ∧ c ≤ 99 := by
  unfold cupAndHandleEval at h
  dsimp only [] at h
  split_ifs at h with g1 g2 g3 g4 g5 g6 g7 g8 g9 g10 g11 g12 g13
  all_goals rw [Option.some.injEq, Prod.mk.injEq] at h
  all_goals obtain ⟨hc, _⟩ := h
  all_goals rw [← hc]
  all_goals push_neg at g4
  · -- right lip from `right_half[-15:-5]`, shape score 0.7
    have hll : 0 < pymax (List.take 5 (List.take
        (pyargmin (List.drop (prices.length - 100) prices))
        (List.drop (prices.length - 100) prices))) := by
      refine pymax_pos ?_ ?_
      · rw [← List.length_pos, List.length_take]
        omega
      · intro x hx
        exact hpos x (List.mem_of_mem_drop (List.mem_of_mem_take (List.mem_of_mem_take hx)))
    have hrl : 0 < pymax (List.take 10 (List.drop
        ((List.drop (pyargmin (List.drop (prices.length - 100) prices))
          (List.drop (prices.length - 100) prices)).length - 15)
        (List.drop (pyargmin (List.drop (prices.length - 100) prices))
          (List.drop (prices.length - 100) prices)))) := by
      refine pymax_pos ?_ ?_
      · rw [← List.length_pos, List.length_take, List.length_drop]
        omega
      · intro x hx
        exact hpos x (List.mem_of_mem_drop (List.mem_of_mem_drop (List.mem_of_mem_drop (List.mem_of_mem_take hx))))
    have hld0 := absdiff_nonneg hll hrl
    push_neg at g7
    exact confCup_bounds (by linarith [le_of_not_lt g6]) (by linarith)
      (le_min (by linarith [g7.1]) (by norm_num)) (min_le_right _ _)
      (by norm_num) (by norm_num)
  · -- right lip from `right_half[-15:-5]`, shape score 0.4
    have hll : 0 < pymax (List.take 5 (List.take
        (pyargmin (List.drop (prices.length - 100) prices))
        (List.drop (prices.length - 100) prices))) := by
      refine pymax_pos ?_ ?_
      · rw [← List.length_pos, List.length_take]
        omega
      · intro x hx
        exact hpos x (List.mem_of_mem_drop (List.mem_of_mem_take (List.mem_of_mem_take hx)))
    have hrl : 0 < pymax (List.take 10 (List.drop
        ((List.drop (pyargmin (List.drop (prices.length - 100) prices))
          (List.drop (prices.length - 100) prices)).length - 15)
        (List.drop (pyargmin (List.drop (prices.length - 100) prices))
          (List.drop (prices.length - 100) prices)))) := by
      refine pymax_pos ?_ ?_
      · rw [← List.length_pos, List.length_take, List.length_drop]
        omega
      · intro x hx
        exact hpos x (List.mem_of_mem_drop (List.mem_of_mem_drop (List.mem_of_mem_drop (List.mem_of_mem_take hx))))
    have hld0 := absdiff_nonneg hll hrl
    push_neg at g7
    exact confCup_bounds (by linarith [le_of_not_lt g6]) (by linarith)
      (le_min (by linarith [g7.1]) (by norm_num)) (min_le_right _ _)
      (by norm_num) (by norm_num)
  · -- right lip from `right_half[-5:]`, shape score 0.7
    have hll : 0 < pymax (List.take 5 (List.take
        (pyargmin (List.drop (prices.length - 100) prices))
        (List.drop (prices.length - 100) prices))) := by
      refine pymax_pos ?_ ?_
      · rw [← List.length_pos, List.length_take]
        omega
      · intro x hx
        exact hpos x (List.mem_of_mem_drop (List.mem_of_mem_take (List.mem_of_mem_take hx)))
    have hrl : 0 < pymax (List.drop
        ((List.drop (pyargmin (List.drop (prices.length - 100) prices))
          (List.drop (prices.length - 100) prices)).length - 5)
        (List.drop (pyargmin (List.drop (prices.length - 100) prices))
          (List.drop (prices.length - 100) prices))) := by
      refine pymax_pos ?_ ?_
      · rw [← List.length_pos, List.length_drop]
        omega
      · intro x hx
        exact hpos x (List.mem_of_mem_drop (List.mem_of_mem_drop (List.mem_of_mem_drop hx)))
    have hld0 := absdiff_nonneg hll hrl
    push_neg at g11
    exact confCup_bounds (by linarith [le_of_not_lt g10]) (by linarith)
      (le_min (by linarith [g11.1]) (by norm_num)) (min_le_right _ _)
      (by norm_num) (by norm_num)
  · -- right lip from `right_half[-5:]`, shape score 0.4
    have hll : 0 < pymax (List.take 5 (List.take
        (pyargmin (List.drop (prices.length - 100) prices))
        (List.drop (prices.length - 100) prices))) := by
      refine pymax_pos ?_ ?_
      · rw [← List.length_pos, List.length_take]
        omega
      · intro x hx
        exact hpos x (List.mem_of_mem_drop (List.mem_of_mem_take (List.mem_of_mem_take hx)))
    have hrl : 0 < pymax (List.drop
        ((List.drop (pyargmin (List.drop (prices.length - 100) prices))
          (List.drop (prices.length - 100) prices)).length - 5)
        (List.drop (pyargmin (List.drop (prices.length - 100) prices))
          (List.drop (prices.length - 100) prices))) := by
      refine pymax_pos ?_ ?_
      · rw [← List.length_pos, List.length_drop]
        omega
      · intro x hx
        exact hpos x (List.mem_of_mem_drop (List.mem_of_mem_drop (List.mem_of_mem_drop hx)))
    have hld0 := absdiff_nonneg hll hrl
    push_neg at g11
    exact confCup_bounds (by linarith [le_of_not_lt g10]) (by linarith)
      (le_min (by linarith [g11.1]) (by norm_num)) (min_le_right _ _)
      (by norm_num) (by norm_num)

theorem clamp_bounds (x : ℤ) : 0 ≤ max 0 (min 100 x) ∧ max 0 (min 100 x) ≤ 100 :=
  ⟨le_max_left _ _, max_le (by norm_num) (min_le_left _ _)⟩

/-- The clamped ascending-triangle confidence is in `[0, 100]`. -/
theorem ascEval_range {prices : List ℚ} {w : ℕ} {c : ℤ} {p : AscPat}
    (h : ascendingTriangleEval prices w = some (c, p)) : 0 ≤ c ∧ c ≤ 100 := by
  unfold ascendingTriangleEval at h
  dsimp only [] at h
  split_ifs at h
  rw [Option.some.injEq, Prod.mk.injEq] at h
  obtain ⟨hc, _⟩ := h
  rw [← hc]
  exact clamp_bounds _

/-- The clamped descending-triangle confidence is in `[0, 100]`. -/
theorem descEval_range {prices : List ℚ} {w : ℕ} {c : ℤ} {p : DescPat}
    (h : descendingTriangleEval prices w = some (c, p)) : 0 ≤ c ∧ c ≤ 100 := by
  unfold descendingTriangleEval at h
  dsimp only [] at h
  split_ifs at h
  rw [Option.some.injEq, Prod.mk.injEq] at h
  obtain ⟨hc, _⟩ := h
  rw [← hc]
  exact clamp_bounds _

/-- The clamped bullish-flag confidence is in `[0, 100]`. -/
theorem flagEval_range {prices : List ℚ} {c : ℤ} {p : FlagPat}
    (h : bullishFlagEval prices = some (c, p)) : 0 ≤ c ∧ c ≤ 100 := by
  unfold bullishFlagEval at h
  dsimp only [] at h
  split_ifs at h
  rw [Option.some.injEq, Prod.mk.injEq] at h
  obtain ⟨hc, _⟩ := h
  rw [← hc]
  exact clamp_bounds _

/-- The clamped falling-wedge confidence is in `[0, 100]`. -/
theorem wedgeEval_range {prices : List ℚ} {w : ℕ} {c : ℤ} {p : WedgePat}
    (h : fallingWedgeEval prices w = some (c, p)) : 0 ≤ c ∧ c ≤ 100 := by
  unfold fallingWedgeEval at h
  dsimp only [] at h
  split_ifs at h
  rw [Option.some.injEq, Prod.mk.injEq] at h
  obtain ⟨hc, _⟩ := h
  rw [← hc]
  exact clamp_bounds _

theorem detect_hs_conf_range {prices : List ℚ} {dates : List String} {w : ℕ}
    {p : HSPat} (hpos : ∀ x ∈ prices, 0 < x)
    (h : detect_head_and_shoulders prices dates w = some p) :
    30 ≤ p.confidence ∧ p.confidence ≤ 99 := by
  obtain ⟨l1, c, l2, hdec, _, _, _⟩ := detect_hs_some h
  have hmem : (c, p) ∈ hsCandidates prices dates w := by
    rw [hdec]; exact List.mem_append_right _ (List.mem_cons_self _ _)
  have hconf : p.confidence = c := hsCandidates_conf hmem
  unfold hsCandidates at hmem
  obtain ⟨t, ht, heval⟩ := List.mem_filterMap.1 hmem
  obtain ⟨h1, _, h3⟩ := mem_triples ht
  have hl := (List.mem_filter.1 h1).1
  have hrmem := List.mem_filter.1 h3
  have hss : prices.length - 120 ≤ t.2.2.1 := of_decide_eq_true hrmem.2
  rw [hconf]
  exact hsEval_bounds hpos (by simpa using hl) (by simpa using hrmem.1) hss heval

theorem detect_ihs_conf_range {prices : List ℚ} {dates : List String} {w : ℕ}
    {p : IHSPat} (hpos : ∀ x ∈ prices, 0 < x)
    (h : detect_inverse_head_shoulders prices dates w = some p) :
    30 ≤ p.confidence ∧ p.confidence ≤ 99 := by
  obtain ⟨l1, c, l2, hdec, _, _, _⟩ := detect_ihs_some h
  have hmem : (c, p) ∈ ihsCandidates prices dates w := by
    rw [hdec]; exact List.mem_append_right _ (List.mem_cons_self _ _)
  have hconf : p.confidence = c := ihsCandidates_conf hmem
  unfold ihsCandidates at hmem
  obtain ⟨t, ht, heval⟩ := List.mem_filterMap.1 hmem
  obtain ⟨h1, _, h3⟩ := mem_triples ht
  have hl := (List.mem_filter.1 h1).1
  have hrmem := List.mem_filter.1 h3
  have hss : prices.length - 120 ≤ t.2.2.1 := of_decide_eq_true hrmem.2
  rw [hconf]
  exact ihsEval_bounds hpos (by simpa using hl) (by simpa using hrmem.1) hss heval

theorem detect_dt_conf_range {prices : List ℚ} {dates : List String} {w : ℕ}
    {p : DTPat} (hpos : ∀ x ∈ prices, 0 < x)
    (h : detect_double_top prices dates w = some p) :
    30 ≤ p.confidence ∧ p.confidence ≤ 99 := by
  obtain ⟨l1, c, l2, hdec, _, _, _⟩ := detect_dt_some h
  have hmem : (c, p) ∈ dtCandidates prices dates w := by
    rw [hdec]; exact List.mem_append_right _ (List.mem_cons_self _ _)
  have hconf : p.confidence = c := dtCandidates_conf hmem
  unfold dtCandidates at hmem
  obtain ⟨t, ht, heval⟩ := List.mem_filterMap.1 hmem
  obtain ⟨h1, h2⟩ := mem_pairs ht
  have hl := (List.mem_filter.1 h1).1
  have hrmem := List.mem_filter.1 h2
  have hss : prices.length - 100 ≤ t.2.1 := of_decide_eq_true hrmem.2
  rw [hconf]
  exact dtEval_bounds hpos (by simpa using hl) (by simpa using hrmem.1) hss heval

theorem detect_db_conf_range {prices : List ℚ} {dates : List String} {w : ℕ}
    {p : DBPat} (hpos : ∀ x ∈ prices, 0 < x)
    (h : detect_double_bottom prices dates w = some p) :
    30 ≤ p.confidence ∧ p.confidence ≤ 99 := by
  obtain ⟨l1, c, l2, hdec, _, _, _⟩ := detect_db_some h
  have hmem : (c, p) ∈ dbCandidates prices dates w := by
    rw [hdec]; exact List.mem_append_right _ (List.mem_cons_self _ _)
  have hconf : p.confidence = c := dbCandidates_conf hmem
  unfold dbCandidates at hmem
  obtain ⟨t, ht, heval⟩ := List.mem_filterMap.1 hmem
  obtain ⟨h1, h2⟩ := mem_pairs ht
  have hl := (List.mem_filter.1 h1).1
  have hrmem := List.mem_filter.1 h2
  have hss : prices.length - 100 ≤ t.2.1 := of_decide_eq_true hrmem.2
  rw [hconf]
  exact dbEval_bounds hpos (by simpa using hl) (by simpa using hrmem.1) hss heval

theorem detect_tt_conf_range {prices : List ℚ} {dates : List String} {w : ℕ}
    {p : TTPat} (hpos : ∀ x ∈ prices, 0 < x)
    (h : detect_triple_top prices dates w = some p) :
    30 ≤ p.confidence ∧ p.confidence ≤ 99 := by
  obtain ⟨l1, c, l2, hdec, _, _, _⟩ := detect_tt_some h
  have hmem : (c, p) ∈ ttCandidates prices dates w := by
    rw [hdec]; exact List.mem_append_right _ (List.mem_cons_self _ _)
  have hconf : p.confidence = c := ttCandidates_conf hmem
  unfold ttCandidates at hmem
  obtain ⟨t, ht, heval⟩ := List.mem_filterMap.1 hmem
  obtain ⟨h1, h2, h3⟩ := mem_triples ht
  have hl := (List.mem_filter.1 h1).1
  have hm := (List.mem_filter.1 h2).1
  have hrmem := List.mem_filter.1 h3
  have hss : prices.length - 150 ≤ t.2.2.1 := of_decide_eq_true hrmem.2
  rw [hconf]
  exact ttEval_bounds hpos (by simpa using hl) (by simpa using hm)
    (by simpa using hrmem.1) hss heval

theorem detect_tb_conf_range {prices : List ℚ} {dates : List String} {w : ℕ}
    {p : TBPat} (hpos : ∀ x ∈ prices, 0 < x)
    (h : detect_triple_bottom prices dates w = some p) :
    30 ≤ p.confidence ∧ p.confidence ≤ 99 := by
  obtain ⟨l1, c, l2, hdec, _, _, _⟩ := detect_tb_some h
  have hmem : (c, p) ∈ tbCandidates prices dates w := by
    rw [hdec]; exact List.mem_append_right _ (List.mem_cons_self _ _)
  have hconf : p.confidence = c := tbCandidates_conf hmem
  unfold tbCandidates at hmem
  obtain ⟨t, ht, heval⟩ := List.mem_filterMap.1 hmem
  obtain ⟨h1, h2, h3⟩ := mem_triples ht
  have hl := (List.mem_filter.1 h1).1
  have hm := (List.mem_filter.1 h2).1
  have hrmem := List.mem_filter.1 h3
  have hss : prices.length - 150 ≤ t.2.2.1 := of_decide_eq_true hrmem.2
  rw [hconf]
  exact tbEval_bounds hpos (by simpa using hl) (by simpa using hm)
    (by simpa using hrmem.1) hss heval

/-! ## Claim C2 -/

/-- C2: whenever any of the eleven detectors reports a pattern on a series
of positive prices, the confidence (an integer by construction) lies in
`[0, 100]` — including the seven detectors that apply no clamp after the
`int(...)` truncation (their qualifying scores are provably below 100 and
nonnegative). -/
theorem claim_C2 (prices : List ℚ) (dates : List String) (w : ℕ)
    (hpos : ∀ x ∈ prices, 0 < x) :
    (∀ p, detect_head_and_shoulders prices dates w = some p →
      0 ≤ p.confidence ∧ p.confidence ≤ 100) ∧
    (∀ p, detect_inverse_head_shoulders prices dates w = some p →
      0 ≤ p.confidence ∧ p.confidence ≤ 100) ∧
    (∀ p, detect_double_top prices dates w = some p →
      0 ≤ p.confidence ∧ p.confidence ≤ 100) ∧
    (∀ p, detect_double_bottom prices dates w = some p →
      0 ≤ p.confidence ∧ p.confidence ≤ 100) ∧
    (∀ p, detect_triple_top prices dates w = some p →
      0 ≤ p.confidence ∧ p.confidence ≤ 100) ∧
    (∀ p, detect_triple_bottom prices dates w = some p →
      0 ≤ p.confidence ∧ p.confidence ≤ 100) ∧
    (∀ p, detect_ascending_triangle prices dates w = some p →
      0 ≤ p.confidence ∧ p.confidence ≤ 100) ∧
    (∀ p, detect_descending_triangle prices dates w = some p →
      0 ≤ p.confidence ∧ p.confidence ≤ 100) ∧
    (∀ p, detect_cup_and_handle prices dates w = some p →
      0 ≤ p.confidence ∧ p.confidence ≤ 100) ∧
    (∀ p, detect_bullish_flag prices dates w = some p →
      0 ≤ p.confidence ∧ p.confidence ≤ 100) ∧
    (∀ p, detect_falling_wedge prices dates w = some p →
      0 ≤ p.confidence ∧ p.confidence ≤ 100) := by
  refine ⟨fun p h => ?_, fun p h => ?_, fun p h => ?_, fun p h => ?_, fun p h => ?_,
    fun p h => ?_, fun p h => ?_, fun p h => ?_, fun p h => ?_, fun p h => ?_, fun p h => ?_⟩
  · obtain ⟨hlo, hhi⟩ := detect_hs_conf_range hpos h
    exact ⟨by omega, by omega⟩
  · obtain ⟨hlo, hhi⟩ := detect_ihs_conf_range hpos h
    exact ⟨by omega, by omega⟩
  · obtain ⟨hlo, hhi⟩ := detect_dt_conf_range hpos h
    exact ⟨by omega, by omega⟩
  · obtain ⟨hlo, hhi⟩ := detect_db_conf_range hpos h
    exact ⟨by omega, by omega⟩
  · obtain ⟨hlo, hhi⟩ := detect_tt_conf_range hpos h
    exact ⟨by omega, by omega⟩
  · obtain ⟨hlo, hhi⟩ := detect_tb_conf_range hpos h
    exact ⟨by omega, by omega⟩
  · obtain ⟨c, heq, _⟩ := detect_asc_some h
    obtain ⟨h1, h2⟩ := ascEval_range heq
    have := ascEval_conf heq
    omega
  · obtain ⟨c, heq, _⟩ := detect_desc_some h
    obtain ⟨h1, h2⟩ := descEval_range heq
    have := descEval_conf heq
    omega
  · obtain ⟨c, heq, _⟩ := detect_cup_some h
    obtain ⟨h1, h2⟩ := cupEval_bounds hpos heq
    have := cupEval_conf heq
    omega
  · obtain ⟨c, heq, _⟩ := detect_flag_some h
    obtain ⟨h1, h2⟩ := flagEval_range heq
    have := flagEval_conf heq
    omega
  · obtain ⟨c, heq, _⟩ := detect_wedge_some h
    obtain ⟨h1, h2⟩ := wedgeEval_range heq
    have := wedgeEval_conf heq
    omega

/-- Witness for C2 on the concrete head-and-shoulders demo. -/
theorem claim_C2_witness :
    0 ≤ hsDemoPat.confidence ∧ hsDemoPat.confidence ≤ 100 :=
  (claim_C2 hsDemoPrices hsDemoDates 2 (by decide)).1 hsDemoPat (by decide)

/-! ## Claim C9 -/

/-- C9: the detectors with an explicit minimum publishable confidence
(ascending triangle 30, descending triangle 30, falling wedge 30, cup and
handle 35, bullish flag 35) return `none` whenever the confidence computed
for their geometrically valid candidate falls below the floor; and every
published pattern of all eleven detectors carries confidence at least 30
(at least 35 for cup and handle and bullish flag). -/
theorem claim_C9 (prices : List ℚ) (dates : List String) (w : ℕ)
    (hpos : ∀ x ∈ prices, 0 < x) :
    (∀ c p, ascendingTriangleEval prices w = some (c, p) → c < 30 →
      detect_ascending_triangle prices dates w = none) ∧
    (∀ c p, descendingTriangleEval prices w = some (c, p) → c < 30 →
      detect_descending_triangle prices dates w = none) ∧
    (∀ c p, fallingWedgeEval prices w = some (c, p) → c < 30 →
      detect_falling_wedge prices dates w = none) ∧
    (∀ c p, cupAndHandleEval prices dates = some (c, p) → c < 35 →
      detect_cup_and_handle prices dates w = none) ∧
    (∀ c p, bullishFlagEval prices = some (c, p) → c < 35 →
      detect_bullish_flag prices dates w = none) ∧
    (∀ p, detect_ascending_triangle prices dates w = some p → 30 ≤ p.confidence) ∧
    (∀ p, detect_descending_triangle prices dates w = some p → 30 ≤ p.confidence) ∧
    (∀ p, detect_falling_wedge prices dates w = some p → 30 ≤ p.confidence) ∧
    (∀ p, detect_cup_and_handle prices dates w = some p → 35 ≤ p.confidence) ∧
    (∀ p, detect_bullish_flag prices dates w = some p → 35 ≤ p.confidence) ∧
    (∀ p, detect_head_and_shoulders prices dates w = some p → 30 ≤ p.confidence) ∧
    (∀ p, detect_inverse_head_shoulders prices dates w = some p → 30 ≤ p.confidence) ∧
    (∀ p, detect_double_top prices dates w = some p → 30 ≤ p.confidence) ∧
    (∀ p, detect_double_bottom prices dates w = some p → 30 ≤ p.confidence) ∧
    (∀ p, detect_triple_top prices dates w = some p → 30 ≤ p.confidence) ∧
    (∀ p, detect_triple_bottom prices dates w = some p → 30 ≤ p.confidence) := by
  refine ⟨fun c p heval hlt => ?_, fun c p heval hlt => ?_, fun c p heval hlt => ?_,
    fun c p heval hlt => ?_, fun c p heval hlt => ?_,
    fun p h => ?_, fun p h => ?_, fun p h => ?_, fun p h => ?_, fun p h => ?_,
    fun p h => ?_, fun p h => ?_, fun p h => ?_, fun p h => ?_, fun p h => ?_, fun p h => ?_⟩
  · unfold detect_ascending_triangle
    rw [heval]
    show (if c < 30 then (none : Option AscPat) else some p) = none
    rw [if_pos hlt]
  · unfold detect_descending_triangle
    rw [heval]
    show (if c < 30 then (none : Option DescPat) else some p) = none
    rw [if_pos hlt]
  · unfold detect_falling_wedge
    rw [heval]
    show (if c < 30 then (none : Option WedgePat) else some p) = none
    rw [if_pos hlt]
  · unfold detect_cup_and_handle
    rw [heval]
    show (if c < 35 then (none : Option CupPat) else some p) = none
    rw [if_pos hlt]
  · unfold detect_bullish_flag
    rw [heval]
    show (if c < 35 then (none : Option FlagPat) else some p) = none
    rw [if_pos hlt]
  · obtain ⟨c, heq, hc⟩ := detect_asc_some h
    have := ascEval_conf heq
    omega
  · obtain ⟨c, heq, hc⟩ := detect_desc_some h
    have := descEval_conf heq
    omega
  · obtain ⟨c, heq, hc⟩ := detect_wedge_some h
    have := wedgeEval_conf heq
    omega
  · obtain ⟨c, heq, hc⟩ := detect_cup_some h
    have := cupEval_conf heq
    omega
  · obtain ⟨c, heq, hc⟩ := detect_flag_some h
    have := flagEval_conf heq
    omega
  · exact (detect_hs_conf_range hpos h).1
  · exact (detect_ihs_conf_range hpos h).1
  · exact (detect_dt_conf_range hpos h).1
  · exact (detect_db_conf_range hpos h).1
  · exact (detect_tt_conf_range hpos h).1
  · exact (detect_tb_conf_range hpos h).1

/-- A 50-day falling-wedge shape whose geometry passes every constraint
but whose confidence (28) is below the publish floor of 30. -/
def wedgeLowPrices : List ℚ :=
  [9.1, 9.2, 9.3, 9.4, 9.5, 9.6, 9.7, 9.8, 9.9, 10,
   9.98, 9.96, 9.94, 9.92, 9.90, 9.88, 9.86, 9.83, 9.8,
   9.82, 9.84, 9.86, 9.88, 9.90, 9.91, 9.92, 9.925, 9.93,
   9.91, 9.89, 9.87, 9.85, 9.83, 9.82, 9.80, 9.792,
   9.82, 9.85, 9.88, 9.90, 9.92, 9.95,
   9.9, 9.85, 9.8, 9.75, 9.7, 9.65, 9.6, 9.55]

/-- The geometrically valid but sub-floor wedge candidate found on
`wedgeLowPrices`. -/
def wedgeLowPat : WedgePat :=
  { confidence := 28
    resistance_start := 10
    resistance_current := 9.95
    support_start := 9.8
    support_current := 9.79
    breakout_level := 9.95
    target_price := 10.15
    current_price := 9.55
    convergence_pct := 21 }

/-- A 40-day bullish-flag shape whose geometry passes every constraint but
whose confidence (27) is below the publish floor of 35. -/
def flagLowPrices : List ℚ :=
  [100, 100.5, 101, 101.5, 102, 102.5, 103, 103.5, 104, 104.5, 105, 105.5,
   106, 106.3, 106.6, 107, 107.5, 108, 108.5, 109, 109.2, 109.4, 109.6, 109.8, 110,
   107, 106, 105, 104, 103, 102, 101, 100, 99, 100, 101, 102, 103, 104, 105]

/-- The geometrically valid but sub-floor flag candidate found on
`flagLowPrices`. -/
def flagLowPat : FlagPat :=
  { confidence := 27
    pole_low := 100
    pole_high := 110
    flag_high := 107
    flag_low := 99
    target_price := 120
    current_price := 105
    pole_gain_pct := 10 }

/-- Witness for C9: concrete sub-floor candidates are discarded, and the
head-and-shoulders demo pattern clears the 30 floor. -/
theorem claim_C9_witness :
    detect_falling_wedge wedgeLowPrices [] 8 = none ∧
    detect_bullish_flag flagLowPrices [] 5 = none ∧
    30 ≤ hsDemoPat.confidence :=
  ⟨(claim_C9 wedgeLowPrices [] 8 (by decide)).2.2.1 28 wedgeLowPat
      (by decide) (by decide),
   (claim_C9 flagLowPrices [] 5 (by decide)).2.2.2.2.1 27 flagLowPat
      (by decide) (by decide),
   (claim_C9 hsDemoPrices hsDemoDates 2 (by decide)).2.2.2.2.2.2.2.2.2.2.1
      hsDemoPat (by decide)⟩

/-! ## Landmark indices -/

theorem getD_drop (l : List ℚ) (k i : ℕ) (d : ℚ) :
    (l.drop k).getD i d = l.getD (k + i) d := by
  rw [List.getD_eq_getElem?_getD, List.getD_eq_getElem?_getD, List.getElem?_drop]

theorem hsEval_landmarks {prices : List ℚ} {dates : List String} {ss : ℕ}
    {minima : List (ℕ × ℚ)} {t : (ℕ × ℚ) × (ℕ × ℚ) × (ℕ × ℚ)} {c : ℤ} {p : HSPat}
    (h : hsEval prices dates ss minima t = some (c, p)) :
    p.left_shoulder.idx = t.1.1 ∧ p.head.idx = t.2.1.1 ∧
      p.right_shoulder.idx = t.2.2.1 := by
  unfold hsEval at h
  dsimp only [] at h
  split_ifs at h
  rw [Option.some.injEq, Prod.mk.injEq] at h
  obtain ⟨_, h2⟩ := h
  rw [← h2]
  exact ⟨rfl, rfl, rfl⟩

theorem ihsEval_landmarks {prices : List ℚ} {dates : List String} {ss : ℕ}
    {maxima : List (ℕ × ℚ)} {t : (ℕ × ℚ) × (ℕ × ℚ) × (ℕ × ℚ)} {c : ℤ} {p : IHSPat}
    (h : ihsEval prices dates ss maxima t = some (c, p)) :
    p.left_shoulder.idx = t.1.1 ∧ p.head.idx = t.2.1.1 ∧
      p.right_shoulder.idx = t.2.2.1 := by
  unfold ihsEval at h
  dsimp only [] at h
  split_ifs at h
  rw [Option.some.injEq, Prod.mk.injEq] at h
  obtain ⟨_, h2⟩ := h
  rw [← h2]
  exact ⟨rfl, rfl, rfl⟩

theorem dtEval_landmarks {prices : List ℚ} {dates : List String} {w ss : ℕ}
    {minima : List (ℕ × ℚ)} {t : (ℕ × ℚ) × (ℕ × ℚ)} {c : ℤ} {p : DTPat}
    (h : dtEval prices dates w ss minima t = some (c, p)) :
    p.first_peak.idx = t.1.1 ∧ p.second_peak.idx = t.2.1 ∧
      ∃ m ∈ minima, p.trough.idx = m.1 := by
  unfold dtEval at h
  dsimp only [] at h
  split_ifs at h with h1 h2 h3 h4
  rw [Option.some.injEq, Prod.mk.injEq] at h
  obtain ⟨_, hp⟩ := h
  rw [← hp]
  refine ⟨rfl, rfl, pyMinByKey (List.filter
    (fun m => decide (t.1.1 < m.1 ∧ m.1 < t.2.1)) minima), ?_, rfl⟩
  exact (List.mem_filter.1 (pyMinByKey_mem h3)).1

theorem dbEval_landmarks {prices : List ℚ} {dates : List String} {w ss : ℕ}
    {maxima : List (ℕ × ℚ)} {t : (ℕ × ℚ) × (ℕ × ℚ)} {c : ℤ} {p : DBPat}
    (h : dbEval prices dates w ss maxima t = some (c, p)) :
    p.first_trough.idx = t.1.1 ∧ p.second_trough.idx = t.2.1 ∧
      ∃ m ∈ maxima, p.peak.idx = m.1 := by
  unfold dbEval at h
  dsimp only [] at h
  split_ifs at h with h1 h2 h3 h4
  rw [Option.some.injEq, Prod.mk.injEq] at h
  obtain ⟨_, hp⟩ := h
  rw [← hp]
  refine ⟨rfl, rfl, pyMaxByKey (List.filter
    (fun m => decide (t.1.1 < m.1 ∧ m.1 < t.2.1)) maxima), ?_, rfl⟩
  exact (List.mem_filter.1 (pyMaxByKey_mem h3)).1

theorem ttEval_landmarks {prices : List ℚ} {dates : List String} {ss : ℕ}
    {minima : List (ℕ × ℚ)} {t : (ℕ × ℚ) × (ℕ × ℚ) × (ℕ × ℚ)} {c : ℤ} {p : TTPat}
    (h : ttEval prices dates ss minima t = some (c, p)) :
    p.first_peak.idx = t.1.1 ∧ p.second_peak.idx = t.2.1.1 ∧
      p.third_peak.idx = t.2.2.1 := by
  unfold ttEval at h
  dsimp only [] at h
  split_ifs at h
  rw [Option.some.injEq, Prod.mk.injEq] at h
  obtain ⟨_, h2⟩ := h
  rw [← h2]
  exact ⟨rfl, rfl, rfl⟩

theorem tbEval_landmarks {prices : List ℚ} {dates : List String} {ss : ℕ}
    {maxima : List (ℕ × ℚ)} {t : (ℕ × ℚ) × (ℕ × ℚ) × (ℕ × ℚ)} {c : ℤ} {p : TBPat}
    (h : tbEval prices dates ss maxima t = some (c, p)) :
    p.first_trough.idx = t.1.1 ∧ p.second_trough.idx = t.2.1.1 ∧
      p.third_trough.idx = t.2.2.1 := by
  unfold tbEval at h
  dsimp only [] at h
  split_ifs at h
  rw [Option.some.injEq, Prod.mk.injEq] at h
  obtain ⟨_, h2⟩ := h
  rw [← h2]
  exact ⟨rfl, rfl, rfl⟩

/-- On success the cup-and-handle bottom index is
`cup_start + argmin(cup_data)` and satisfies the source's range guards. -/
theorem cupEval_bottom {prices : List ℚ} {dates : List String} {c : ℤ} {p : CupPat}
    (h : cupAndHandleEval prices dates = some (c, p)) :
    p.cup_bottom_idx = (prices.length - 100) +
        pyargmin (prices.drop (prices.length - 100)) ∧
      40 ≤ (prices.drop (prices.length - 100)).length ∧
      10 ≤ pyargmin (prices.drop (prices.length - 100)) ∧
      pyargmin (prices.drop (prices.length - 100)) ≤
        (prices.drop (prices.length - 100)).length - 15 := by
  unfold cupAndHandleEval at h
  dsimp only [] at h
  split_ifs at h with g1 g2 g3 g4 g5 g6 g7 g8 g9 g10 g11 g12 g13
  all_goals push_neg at g3
  all_goals rw [Option.some.injEq, Prod.mk.injEq] at h
  all_goals obtain ⟨_, hp⟩ := h
  all_goals rw [← hp]
  all_goals exact ⟨rfl, by omega, g3.1, g3.2⟩

/-- The first global minimum of `prices[cs:]` is a local minimum for every
window radius `w ≤ 10`, provided it sits at least 10 in from the left edge
of the slice and 15 in from its right end (the cup detector's guards). -/
theorem argmin_of_drop_is_localMin {prices : List ℚ} {w cs : ℕ} (hw : w ≤ 10)
    (h10 : 10 ≤ pyargmin (prices.drop cs))
    (h15 : pyargmin (prices.drop cs) + 15 ≤ (prices.drop cs).length) :
    (cs + pyargmin (prices.drop cs),
      prices.getD (cs + pyargmin (prices.drop cs)) 0) ∈ localMinima prices w := by
  have hbne : prices.drop cs ≠ [] := by
    rw [← List.length_pos]
    omega
  have hblt : pyargmin (prices.drop cs) < (prices.drop cs).length :=
    pyargmin_lt_length hbne
  have hlen : (prices.drop cs).length = prices.length - cs := List.length_drop _ _
  have hlt : cs + pyargmin (prices.drop cs) + w < prices.length := by omega
  have hgd : prices.getD (cs + pyargmin (prices.drop cs)) 0 =
      (prices.drop cs).getD (pyargmin (prices.drop cs)) 0 := (getD_drop _ _ _ _).symm
  have hbot : (prices.drop cs).getD (pyargmin (prices.drop cs)) 0 =
      pymin (prices.drop cs) := getD_pyargmin hbne
  refine mem_localMinima_iff.2 ⟨by omega, hlt, rfl, ?_⟩
  have hslice : (windowSlice prices w (cs + pyargmin (prices.drop cs))).length =
      2 * w + 1 := by
    unfold windowSlice
    rw [List.length_take, List.length_drop]
    omega
  symm
  apply pymin_eq_of
  · have hget : (windowSlice prices w (cs + pyargmin (prices.drop cs))).getD w 0 =
        prices.getD (cs + pyargmin (prices.drop cs)) 0 := by
      unfold windowSlice
      rw [List.getD_eq_getElem?_getD, List.getD_eq_getElem?_getD,
        List.getElem?_take, if_pos (by omega), List.getElem?_drop]
      have he : cs + pyargmin (prices.drop cs) - w + w =
          cs + pyargmin (prices.drop cs) := by omega
      rw [he]
    rw [← hget, List.getD_eq_getElem _ _ (by omega)]
    exact List.getElem_mem _
  · intro y hy
    unfold windowSlice at hy
    have hy2 : y ∈ prices.drop (cs + pyargmin (prices.drop cs) - w) :=
      List.mem_of_mem_take hy
    have hdecomp : prices.drop (cs + pyargmin (prices.drop cs) - w) =
        (prices.drop cs).drop (pyargmin (prices.drop cs) - w) := by
      rw [List.drop_drop]
      have he : cs + (pyargmin (prices.drop cs) - w) =
          cs + pyargmin (prices.drop cs) - w := by omega
      rw [he]
    rw [hdecomp] at hy2
    rw [hgd, hbot]
    exact pymin_le (List.mem_of_mem_drop hy2)

/-! ## Claim C7 -/

/-- C7: the index of every reported landmark point (shoulders and head,
peaks, troughs, and the cup bottom — the landmarks whose index/date the
result carries) is an index that the extrema extraction with that
detector's window reports as a local maximum or minimum of the same
series.  (The triangle, flag and wedge results report price levels only,
with no indexed landmark; the cup conjunct covers any window `w ≤ 10`,
the detector's default being 10.) -/
theorem claim_C7 (prices : List ℚ) (dates : List String) (w : ℕ) :
    (∀ p, detect_head_and_shoulders prices dates w = some p →
      p.left_shoulder.idx ∈ (localMaxima prices w).map Prod.fst ∧
      p.head.idx ∈ (localMaxima prices w).map Prod.fst ∧
      p.right_shoulder.idx ∈ (localMaxima prices w).map Prod.fst) ∧
    (∀ p, detect_inverse_head_shoulders prices dates w = some p →
      p.left_shoulder.idx ∈ (localMinima prices w).map Prod.fst ∧
      p.head.idx ∈ (localMinima prices w).map Prod.fst ∧
      p.right_shoulder.idx ∈ (localMinima prices w).map Prod.fst) ∧
    (∀ p, detect_double_top prices dates w = some p →
      p.first_peak.idx ∈ (localMaxima prices w).map Prod.fst ∧
      p.second_peak.idx ∈ (localMaxima prices w).map Prod.fst ∧
      p.trough.idx ∈ (localMinima prices w).map Prod.fst) ∧
    (∀ p, detect_double_bottom prices dates w = some p →
      p.first_trough.idx ∈ (localMinima prices w).map Prod.fst ∧
      p.second_trough.idx ∈ (localMinima prices w).map Prod.fst ∧
      p.peak.idx ∈ (localMaxima prices w).map Prod.fst) ∧
    (∀ p, detect_triple_top prices dates w = some p →
      p.first_peak.idx ∈ (localMaxima prices w).map Prod.fst ∧
      p.second_peak.idx ∈ (localMaxima prices w).map Prod.fst ∧
      p.third_peak.idx ∈ (localMaxima prices w).map Prod.fst) ∧
    (∀ p, detect_triple_bottom prices dates w = some p →
      p.first_trough.idx ∈ (localMinima prices w).map Prod.fst ∧
      p.second_trough.idx ∈ (localMinima prices w).map Prod.fst ∧
      p.third_trough.idx ∈ (localMinima prices w).map Prod.fst) ∧
    (∀ p, w ≤ 10 → detect_cup_and_handle prices dates w = some p →
      p.cup_bottom_idx ∈ (localMinima prices w).map Prod.fst) := by
  refine ⟨fun p h => ?_, fun p h => ?_, fun p h => ?_, fun p h => ?_,
    fun p h => ?_, fun p h => ?_, fun p hw h => ?_⟩
  · obtain ⟨l1, c, l2, hdec, _, _, _⟩ := detect_hs_some h
    have hmem : (c, p) ∈ hsCandidates prices dates w := by
      rw [hdec]; exact List.mem_append_right _ (List.mem_cons_self _ _)
    unfold hsCandidates at hmem
    obtain ⟨t, ht, heval⟩ := List.mem_filterMap.1 hmem
    obtain ⟨h1, h2, h3⟩ := mem_triples ht
    obtain ⟨f1, f2, f3⟩ := hsEval_landmarks heval
    exact ⟨List.mem_map.2 ⟨t.1, (List.mem_filter.1 h1).1, f1.symm⟩,
      List.mem_map.2 ⟨t.2.1, (List.mem_filter.1 h2).1, f2.symm⟩,
      List.mem_map.2 ⟨t.2.2, (List.mem_filter.1 h3).1, f3.symm⟩⟩
  · obtain ⟨l1, c, l2, hdec, _, _, _⟩ := detect_ihs_some h
    have hmem : (c, p) ∈ ihsCandidates prices dates w := by
      rw [hdec]; exact List.mem_append_right _ (List.mem_cons_self _ _)
    unfold ihsCandidates at hmem
    obtain ⟨t, ht, heval⟩ := List.mem_filterMap.1 hmem
    obtain ⟨h1, h2, h3⟩ := mem_triples ht
    obtain ⟨f1, f2, f3⟩ := ihsEval_landmarks heval
    exact ⟨List.mem_map.2 ⟨t.1, (List.mem_filter.1 h1).1, f1.symm⟩,
      List.mem_map.2 ⟨t.2.1, (List.mem_filter.1 h2).1, f2.symm⟩,
      List.mem_map.2 ⟨t.2.2, (List.mem_filter.1 h3).1, f3.symm⟩⟩
  · obtain ⟨l1, c, l2, hdec, _, _, _⟩ := detect_dt_some h
    have hmem : (c, p) ∈ dtCandidates prices dates w := by
      rw [hdec]; exact List.mem_append_right _ (List.mem_cons_self _ _)
    unfold dtCandidates at hmem
    obtain ⟨t, ht, heval⟩ := List.mem_filterMap.1 hmem
    obtain ⟨h1, h2⟩ := mem_pairs ht
    obtain ⟨f1, f2, m, hm, he⟩ := dtEval_landmarks heval
    exact ⟨List.mem_map.2 ⟨t.1, (List.mem_filter.1 h1).1, f1.symm⟩,
      List.mem_map.2 ⟨t.2, (List.mem_filter.1 h2).1, f2.symm⟩,
      List.mem_map.2 ⟨m, hm, he.symm⟩⟩
  · obtain ⟨l1, c, l2, hdec, _, _, _⟩ := detect_db_some h
    have hmem : (c, p) ∈ dbCandidates prices dates w := by
      rw [hdec]; exact List.mem_append_right _ (List.mem_cons_self _ _)
    unfold dbCandidates at hmem
    obtain ⟨t, ht, heval⟩ := List.mem_filterMap.1 hmem
    obtain ⟨h1, h2⟩ := mem_pairs ht
    obtain ⟨f1, f2, m, hm, he⟩ := dbEval_landmarks heval
    exact ⟨List.mem_map.2 ⟨t.1, (List.mem_filter.1 h1).1, f1.symm⟩,
      List.mem_map.2 ⟨t.2, (List.mem_filter.1 h2).1, f2.symm⟩,
      List.mem_map.2 ⟨m, hm, he.symm⟩⟩
  · obtain ⟨l1, c, l2, hdec, _, _, _⟩ := detect_tt_some h
    have hmem : (c, p) ∈ ttCandidates prices dates w := by
      rw [hdec]; exact List.mem_append_right _ (List.mem_cons_self _ _)
    unfold ttCandidates at hmem
    obtain ⟨t, ht, heval⟩ := List.mem_filterMap.1 hmem
    obtain ⟨h1, h2, h3⟩ := mem_triples ht
    obtain ⟨f1, f2, f3⟩ := ttEval_landmarks heval
    exact ⟨List.mem_map.2 ⟨t.1, (List.mem_filter.1 h1).1, f1.symm⟩,
      List.mem_map.2 ⟨t.2.1, (List.mem_filter.1 h2).1, f2.symm⟩,
      List.mem_map.2 ⟨t.2.2, (List.mem_filter.1 h3).1, f3.symm⟩⟩
  · obtain ⟨l1, c, l2, hdec, _, _, _⟩ := detect_tb_some h
    have hmem : (c, p) ∈ tbCandidates prices dates w := by
      rw [hdec]; exact List.mem_append_right _ (List.mem_cons_self _ _)
    unfold tbCandidates at hmem
    obtain ⟨t, ht, heval⟩ := List.mem_filterMap.1 hmem
    obtain ⟨h1, h2, h3⟩ := mem_triples ht
    obtain ⟨f1, f2, f3⟩ := tbEval_landmarks heval
    exact ⟨List.mem_map.2 ⟨t.1, (List.mem_filter.1 h1).1, f1.symm⟩,
      List.mem_map.2 ⟨t.2.1, (List.mem_filter.1 h2).1, f2.symm⟩,
      List.mem_map.2 ⟨t.2.2, (List.mem_filter.1 h3).1, f3.symm⟩⟩
  · obtain ⟨c, heval, _⟩ := detect_cup_some h
    obtain ⟨hidx, hn, h10, h15⟩ := cupEval_bottom heval
    have h15a : pyargmin (prices.drop (prices.length - 100)) + 15 ≤
        (prices.drop (prices.length - 100)).length := by omega
    rw [hidx]
    exact List.mem_map.2 ⟨_, argmin_of_drop_is_localMin hw h10 h15a, rfl⟩

/-- Witness for C7 on the head-and-shoulders demo. -/
theorem claim_C7_witness :
    hsDemoPat.left_shoulder.idx ∈ (localMaxima hsDemoPrices 2).map Prod.fst ∧
    hsDemoPat.head.idx ∈ (localMaxima hsDemoPrices 2).map Prod.fst ∧
    hsDemoPat.right_shoulder.idx ∈ (localMaxima hsDemoPrices 2).map Prod.fst :=
  (claim_C7 hsDemoPrices hsDemoDates 2).1 hsDemoPat (by decide)

/-! ## Target-price relations -/

theorem hsEval_target {prices : List ℚ} {dates : List String} {ss : ℕ}
    {minima : List (ℕ × ℚ)} {t : (ℕ × ℚ) × (ℕ × ℚ) × (ℕ × ℚ)} {c : ℤ} {p : HSPat}
    (h : hsEval prices dates ss minima t = some (c, p)) :
    ∃ neck head, p.neckline = round2 neck ∧ p.head.price = round2 head ∧
      p.pattern_height_pct = round2 ((head - neck) / neck * 100) ∧
      p.target_price = round2 (neck - (head - neck)) := by
  unfold hsEval at h
  dsimp only [] at h
  split_ifs at h
  rw [Option.some.injEq, Prod.mk.injEq] at h
  obtain ⟨_, hp⟩ := h
  rw [← hp]
  exact ⟨_, _, rfl, rfl, rfl, rfl⟩

theorem ihsEval_target {prices : List ℚ} {dates : List String} {ss : ℕ}
    {maxima : List (ℕ × ℚ)} {t : (ℕ × ℚ) × (ℕ × ℚ) × (ℕ × ℚ)} {c : ℤ} {p : IHSPat}
    (h : ihsEval prices dates ss maxima t = some (c, p)) :
    ∃ neck head, p.neckline = round2 neck ∧ p.head.price = round2 head ∧
      p.pattern_height_pct = round2 ((neck - head) / neck * 100) ∧
      p.target_price = round2 (neck + (neck - head)) := by
  unfold ihsEval at h
  dsimp only [] at h
  split_ifs at h
  rw [Option.some.injEq, Prod.mk.injEq] at h
  obtain ⟨_, hp⟩ := h
  rw [← hp]
  exact ⟨_, _, rfl, rfl, rfl, rfl⟩

theorem dtEval_target {prices : List ℚ} {dates : List String} {w ss : ℕ}
    {minima : List (ℕ × ℚ)} {t : (ℕ × ℚ) × (ℕ × ℚ)} {c : ℤ} {p : DTPat}
    (h : dtEval prices dates w ss minima t = some (c, p)) :
    ∃ neck first, p.neckline = round2 neck ∧ p.first_peak.price = round2 first ∧
      p.pattern_height_pct = round2 ((first - neck) / neck * 100) ∧
      p.target_price = round2 (neck - (first - neck)) := by
  unfold dtEval at h
  dsimp only [] at h
  split_ifs at h
  rw [Option.some.injEq, Prod.mk.injEq] at h
  obtain ⟨_, hp⟩ := h
  rw [← hp]
  exact ⟨_, _, rfl, rfl, rfl, rfl⟩

theorem dbEval_target {prices : List ℚ} {dates : List String} {w ss : ℕ}
    {maxima : List (ℕ × ℚ)} {t : (ℕ × ℚ) × (ℕ × ℚ)} {c : ℤ} {p : DBPat}
    (h : dbEval prices dates w ss maxima t = some (c, p)) :
    ∃ neck first, p.neckline = round2 neck ∧ p.first_trough.price = round2 first ∧
      p.pattern_height_pct = round2 ((neck - first) / first * 100) ∧
      p.target_price = round2 (neck + (neck - first)) := by
  unfold dbEval at h
  dsimp only [] at h
  split_ifs at h
  rw [Option.some.injEq, Prod.mk.injEq] at h
  obtain ⟨_, hp⟩ := h
  rw [← hp]
  exact ⟨_, _, rfl, rfl, rfl, rfl⟩

theorem ttEval_target {prices : List ℚ} {dates : List String} {ss : ℕ}
    {minima : List (ℕ × ℚ)} {t : (ℕ × ℚ) × (ℕ × ℚ) × (ℕ × ℚ)} {c : ℤ} {p : TTPat}
    (h : ttEval prices dates ss minima t = some (c, p)) :
    ∃ neck avg, p.neckline = round2 neck ∧
      p.pattern_height_pct = round2 ((avg - neck) / neck * 100) ∧
      p.target_price = round2 (neck - (avg - neck)) := by
  unfold ttEval at h
  dsimp only [] at h
  split_ifs at h
  rw [Option.some.injEq, Prod.mk.injEq] at h
  obtain ⟨_, hp⟩ := h
  rw [← hp]
  exact ⟨_, _, rfl, rfl, rfl⟩

theorem tbEval_target {prices : List ℚ} {dates : List String} {ss : ℕ}
    {maxima : List (ℕ × ℚ)} {t : (ℕ × ℚ) × (ℕ × ℚ) × (ℕ × ℚ)} {c : ℤ} {p : TBPat}
    (h : tbEval prices dates ss maxima t = some (c, p)) :
    ∃ neck avg, p.neckline = round2 neck ∧
      p.pattern_height_pct = round2 ((neck - avg) / avg * 100) ∧
      p.target_price = round2 (neck + (neck - avg)) := by
  unfold tbEval at h
  dsimp only [] at h
  split_ifs at h
  rw [Option.some.injEq, Prod.mk.injEq] at h
  obtain ⟨_, hp⟩ := h
  rw [← hp]
  exact ⟨_, _, rfl, rfl, rfl⟩

theorem ascEval_target {prices : List ℚ} {w : ℕ} {c : ℤ} {p : AscPat}
    (h : ascendingTriangleEval prices w = some (c, p)) :
    ∃ res cs, p.resistance = round2 res ∧ p.support_current = round2 cs ∧
      p.pattern_height_pct = round2 ((res - cs) / cs * 100) ∧
      p.target_price = round2 (res + (res - cs)) := by
  unfold ascendingTriangleEval at h
  dsimp only [] at h
  split_ifs at h
  rw [Option.some.injEq, Prod.mk.injEq] at h
  obtain ⟨_, hp⟩ := h
  rw [← hp]
  exact ⟨_, _, rfl, rfl, rfl, rfl⟩

theorem descEval_target {prices : List ℚ} {w : ℕ} {c : ℤ} {p : DescPat}
    (h : descendingTriangleEval prices w = some (c, p)) :
    ∃ sup cr, p.support = round2 sup ∧ p.resistance_current = round2 cr ∧
      p.pattern_height_pct = round2 ((cr - sup) / sup * 100) ∧
      p.target_price = round2 (sup - (cr - sup)) := by
  unfold descendingTriangleEval at h
  dsimp only [] at h
  split_ifs at h
  rw [Option.some.injEq, Prod.mk.injEq] at h
  obtain ⟨_, hp⟩ := h
  rw [← hp]
  exact ⟨_, _, rfl, rfl, rfl, rfl⟩

theorem flagEval_target {prices : List ℚ} {c : ℤ} {p : FlagPat}
    (h : bullishFlagEval prices = some (c, p)) :
    ∃ ph pl, p.pole_high = round2 ph ∧ p.pole_low = round2 pl ∧
      p.pole_gain_pct = round2 ((ph - pl) / pl * 100) ∧
      p.target_price = round2 (ph + (ph - pl)) := by
  unfold bullishFlagEval at h
  dsimp only [] at h
  split_ifs at h
  rw [Option.some.injEq, Prod.mk.injEq] at h
  obtain ⟨_, hp⟩ := h
  rw [← hp]
  exact ⟨_, _, rfl, rfl, rfl, rfl⟩

theorem wedgeEval_target {prices : List ℚ} {w : ℕ} {c : ℤ} {p : WedgePat}
    (h : fallingWedgeEval prices w = some (c, p)) :
    ∃ pk0 pk1 tr0 tr1, p.resistance_start = round2 pk0 ∧
      p.resistance_current = round2 pk1 ∧ p.support_start = round2 tr0 ∧
      p.support_current = round2 tr1 ∧ p.breakout_level = round2 pk1 ∧
      p.convergence_pct = round2 (((pk0 - tr0) - (pk1 - tr1)) / (pk0 - tr0) * 100) ∧
      p.target_price = round2 (pk1 + (pk0 - tr0)) := by
  unfold fallingWedgeEval at h
  dsimp only [] at h
  split_ifs at h
  rw [Option.some.injEq, Prod.mk.injEq] at h
  obtain ⟨_, hp⟩ := h
  rw [← hp]
  exact ⟨_, _, _, _, rfl, rfl, rfl, rfl, rfl, rfl, rfl⟩

theorem cupEval_target {prices : List ℚ} {dates : List String} {c : ℤ} {p : CupPat}
    (h : cupAndHandleEval prices dates = some (c, p)) :
    ∃ ll rl cb, p.left_lip = round2 ll ∧ p.right_lip = round2 rl ∧
      p.cup_bottom = round2 cb ∧ p.resistance = round2 (max ll rl) ∧
      p.cup_depth_pct = round2 ((ll - cb) / ll * 100) ∧
      p.target_price = round2 (max ll rl + (max ll rl - cb)) := by
  unfold cupAndHandleEval at h
  dsimp only [] at h
  split_ifs at h
  all_goals rw [Option.some.injEq, Prod.mk.injEq] at h
  all_goals obtain ⟨_, hp⟩ := h
  all_goals rw [← hp]
  all_goals exact ⟨_, _, _, rfl, rfl, rfl, rfl, rfl, rfl⟩

/-! ## Claim C6 -/

/-- An 80-day cup-and-handle shape whose right lip (105) is higher than
its left lip (100): cup bottom 80 at index 40. -/
def cupDemoPrices : List ℚ :=
  [100, 99, 98, 97, 96] ++ List.replicate 35 90 ++ [80] ++ List.replicate 24 95 ++
  [101, 102, 103, 104, 105, 104, 103, 102, 101, 100, 100, 100, 100, 100, 100]

/-- Dates for `cupDemoPrices`. -/
def cupDemoDates : List String := List.replicate 80 "x"

/-- The pattern `detect_cup_and_handle` finds on `cupDemoPrices`. -/
def cupDemoPat : CupPat :=
  { confidence := 73
    cup_bottom := 80
    cup_bottom_idx := 40
    cup_bottom_date := "x"
    left_lip := 100
    right_lip := 105
    resistance := 105
    target_price := 130
    current_price := 100
    cup_depth_pct := 20 }

/-- C6 counterexample: on `cupDemoPrices` the cup-and-handle detector
reports `target_price = 130 = resistance + (resistance - cup_bottom)`,
whereas the height used in its amplitude constraint (`cup_depth`) is
measured from the left lip, `left_lip - cup_bottom = 20`, which would
give `resistance + 20 = 125 ≠ 130`: the target's height is re-derived
from `resistance = max(left_lip, right_lip)`, not taken from the
amplitude constraint. -/
theorem claim_C6_counterexample :
    detect_cup_and_handle cupDemoPrices cupDemoDates 10 = some cupDemoPat ∧
    cupDemoPat.target_price = 130 ∧
    cupDemoPat.resistance = 105 ∧ cupDemoPat.left_lip = 100 ∧
    cupDemoPat.cup_bottom = 80 ∧
    round2 (105 + (100 - 80)) = 125 ∧ (130 : ℚ) ≠ 125 :=
  ⟨by decide, by decide, by decide, by decide, by decide, by decide, by decide⟩

/-- C6 (amended): for every detected pattern the reported target price is
the breakout/neckline level plus the pattern height for bullish patterns
and minus it for bearish ones, the height being the very quantity of the
amplitude constraint — for ten of the eleven detectors.  The exception is
cup and handle, whose target height `resistance - cup_bottom` is
re-derived from `resistance = max(left_lip, right_lip)` and differs from
the left-lip-based amplitude quantity whenever the right lip is the
higher one. -/
theorem claim_C6 (prices : List ℚ) (dates : List String) (w : ℕ) :
    (∀ p, detect_head_and_shoulders prices dates w = some p →
      ∃ neck head, p.neckline = round2 neck ∧ p.head.price = round2 head ∧
        p.pattern_height_pct = round2 ((head - neck) / neck * 100) ∧
        p.target_price = round2 (neck - (head - neck))) ∧
    (∀ p, detect_inverse_head_shoulders prices dates w = some p →
      ∃ neck head, p.neckline = round2 neck ∧ p.head.price = round2 head ∧
        p.pattern_height_pct = round2 ((neck - head) / neck * 100) ∧
        p.target_price = round2 (neck + (neck - head))) ∧
    (∀ p, detect_double_top prices dates w = some p →
      ∃ neck first, p.neckline = round2 neck ∧ p.first_peak.price = round2 first ∧
        p.pattern_height_pct = round2 ((first - neck) / neck * 100) ∧
        p.target_price = round2 (neck - (first - neck))) ∧
    (∀ p, detect_double_bottom prices dates w = some p →
      ∃ neck first, p.neckline = round2 neck ∧ p.first_trough.price = round2 first ∧
        p.pattern_height_pct = round2 ((neck - first) / first * 100) ∧
        p.target_price = round2 (neck + (neck - first))) ∧
    (∀ p, detect_triple_top prices dates w = some p →
      ∃ neck avg, p.neckline = round2 neck ∧
        p.pattern_height_pct = round2 ((avg - neck) / neck * 100) ∧
        p.target_price = round2 (neck - (avg - neck))) ∧
    (∀ p, detect_triple_bottom prices dates w = some p →
      ∃ neck avg, p.neckline = round2 neck ∧
        p.pattern_height_pct = round2 ((neck - avg) / avg * 100) ∧
        p.target_price = round2 (neck + (neck - avg))) ∧
    (∀ p, detect_ascending_triangle prices dates w = some p →
      ∃ res cs, p.resistance = round2 res ∧ p.support_current = round2 cs ∧
        p.pattern_height_pct = round2 ((res - cs) / cs * 100) ∧
        p.target_price = round2 (res + (res - cs))) ∧
    (∀ p, detect_descending_triangle prices dates w = some p →
      ∃ sup cr, p.support = round2 sup ∧ p.resistance_current = round2 cr ∧
        p.pattern_height_pct = round2 ((cr - sup) / sup * 100) ∧
        p.target_price = round2 (sup - (cr - sup))) ∧
    (∀ p, detect_bullish_flag prices dates w = some p →
      ∃ ph pl, p.pole_high = round2 ph ∧ p.pole_low = round2 pl ∧
        p.pole_gain_pct = round2 ((ph - pl) / pl * 100) ∧
        p.target_price = round2 (ph + (ph - pl))) ∧
    (∀ p, detect_falling_wedge prices dates w = some p →
      ∃ pk0 pk1 tr0 tr1, p.resistance_start = round2 pk0 ∧
        p.resistance_current = round2 pk1 ∧ p.support_start = round2 tr0 ∧
        p.support_current = round2 tr1 ∧ p.breakout_level = round2 pk1 ∧
        p.convergence_pct = round2 (((pk0 - tr0) - (pk1 - tr1)) / (pk0 - tr0) * 100) ∧
        p.target_price = round2 (pk1 + (pk0 - tr0))) ∧
    (∀ p, detect_cup_and_handle prices dates w = some p →
      ∃ ll rl cb, p.left_lip = round2 ll ∧ p.right_lip = round2 rl ∧
        p.cup_bottom = round2 cb ∧ p.resistance = round2 (max ll rl) ∧
        p.cup_depth_pct = round2 ((ll - cb) / ll * 100) ∧
        p.target_price = round2 (max ll rl + (max ll rl - cb))) := by
  refine ⟨fun p h => ?_, fun p h => ?_, fun p h => ?_, fun p h => ?_, fun p h => ?_,
    fun p h => ?_, fun p h => ?_, fun p h => ?_, fun p h => ?_, fun p h => ?_, fun p h => ?_⟩
  · obtain ⟨l1, c, l2, hdec, _, _, _⟩ := detect_hs_some h
    have hmem : (c, p) ∈ hsCandidates prices dates w := by
      rw [hdec]; exact List.mem_append_right _ (List.mem_cons_self _ _)
    unfold hsCandidates at hmem
    obtain ⟨t, _, heval⟩ := List.mem_filterMap.1 hmem
    exact hsEval_target heval
  · obtain ⟨l1, c, l2, hdec, _, _, _⟩ := detect_ihs_some h
    have hmem : (c, p) ∈ ihsCandidates prices dates w := by
      rw [hdec]; exact List.mem_append_right _ (List.mem_cons_self _ _)
    unfold ihsCandidates at hmem
    obtain ⟨t, _, heval⟩ := List.mem_filterMap.1 hmem
    exact ihsEval_target heval
  · obtain ⟨l1, c, l2, hdec, _, _, _⟩ := detect_dt_some h
    have hmem : (c, p) ∈ dtCandidates prices dates w := by
      rw [hdec]; exact List.mem_append_right _ (List.mem_cons_self _ _)
    unfold dtCandidates at hmem
    obtain ⟨t, _, heval⟩ := List.mem_filterMap.1 hmem
    exact dtEval_target heval
  · obtain ⟨l1, c, l2, hdec, _, _, _⟩ := detect_db_some h
    have hmem : (c, p) ∈ dbCandidates prices dates w := by
      rw [hdec]; exact List.mem_append_right _ (List.mem_cons_self _ _)
    unfold dbCandidates at hmem
    obtain ⟨t, _, heval⟩ := List.mem_filterMap.1 hmem
    exact dbEval_target heval
  · obtain ⟨l1, c, l2, hdec, _, _, _⟩ := detect_tt_some h
    have hmem : (c, p) ∈ ttCandidates prices dates w := by
      rw [hdec]; exact List.mem_append_right _ (List.mem_cons_self _ _)
    unfold ttCandidates at hmem
    obtain ⟨t, _, heval⟩ := List.mem_filterMap.1 hmem
    exact ttEval_target heval
  · obtain ⟨l1, c, l2, hdec, _, _, _⟩ := detect_tb_some h
    have hmem : (c, p) ∈ tbCandidates prices dates w := by
      rw [hdec]; exact List.mem_append_right _ (List.mem_cons_self _ _)
    unfold tbCandidates at hmem
    obtain ⟨t, _, heval⟩ := List.mem_filterMap.1 hmem
    exact tbEval_target heval
  · obtain ⟨c, heval, _⟩ := detect_asc_some h
    exact ascEval_target heval
  · obtain ⟨c, heval, _⟩ := detect_desc_some h
    exact descEval_target heval
  · obtain ⟨c, heval, _⟩ := detect_flag_some h
    exact flagEval_target heval
  · obtain ⟨c, heval, _⟩ := detect_wedge_some h
    exact wedgeEval_target heval
  · obtain ⟨c, heval, _⟩ := detect_cup_some h
    exact cupEval_target heval

/-- Witness for C6 on the head-and-shoulders demo. -/
theorem claim_C6_witness :
    ∃ neck head, hsDemoPat.neckline = round2 neck ∧ hsDemoPat.head.price = round2 head ∧
      hsDemoPat.pattern_height_pct = round2 ((head - neck) / neck * 100) ∧
      hsDemoPat.target_price = round2 (neck - (head - neck)) :=
  (claim_C6 hsDemoPrices hsDemoDates 2).1 hsDemoPat (by decide)

/-! ## Flat series -/

theorem bestFold_of_all_none {α β : Type} {f : α → Option (ℤ × β)} {l : List α}
    (h : ∀ t ∈ l, f t = none) : bestFold f l = (0, none) := by
  unfold bestFold
  induction l with
  | nil => rfl
  | cons x t ih =>
    rw [List.foldl_cons]
    have hstep : bestStep f (0, none) x = (0, none) := by
      unfold bestStep
      rw [h x (by simp)]
    rw [hstep]
    exact ih fun t2 ht2 => h t2 (List.mem_cons.2 (Or.inr ht2))

theorem replicate_maxima_snd {n : ℕ} {c q : ℚ} {w i : ℕ}
    (h : (i, q) ∈ localMaxima (List.replicate n c) w) : q = c := by
  obtain ⟨_, h2, rfl, _⟩ := mem_localMaxima_iff.1 h
  rw [List.length_replicate] at h2
  rw [List.getD_eq_getElem _ _ (by rw [List.length_replicate]; omega)]
  exact List.getElem_replicate _ _

theorem replicate_minima_snd {n : ℕ} {c q : ℚ} {w i : ℕ}
    (h : (i, q) ∈ localMinima (List.replicate n c) w) : q = c := by
  obtain ⟨_, h2, rfl, _⟩ := mem_localMinima_iff.1 h
  rw [List.length_replicate] at h2
  rw [List.getD_eq_getElem _ _ (by rw [List.length_replicate]; omega)]
  exact List.getElem_replicate _ _

theorem pymin_replicate {m : ℕ} {c : ℚ} (h : 1 ≤ m) :
    pymin (List.replicate m c) = c :=
  pymin_eq_of (by simp [List.mem_replicate]; omega)
    (fun y hy => le_of_eq (List.eq_of_mem_replicate hy).symm)

theorem pyargmin_replicate (m : ℕ) (c : ℚ) :
    pyargmin (List.replicate m c) = 0 := by
  cases m with
  | zero => rfl
  | succ k =>
    cases k with
    | zero => rfl
    | succ j =>
      rw [List.replicate_succ, List.replicate_succ]
      simp only [pyargmin]
      rw [← List.replicate_succ, pymin_replicate (by omega), if_neg (lt_irrefl c)]

theorem pyargmax_lt_length {l : List ℚ} (h : l ≠ []) : pyargmax l < l.length := by
  induction l with
  | nil => exact absurd rfl h
  | cons x t ih =>
    cases t with
    | nil => simp [pyargmax]
    | cons y s =>
      rw [pyargmax]
      split
      · have := ih (by simp)
        simpa [Nat.add_lt_add_iff_right] using Nat.add_lt_add_right this 1
      · simp

theorem detect_hs_flat (n : ℕ) (c : ℚ) (dates : List String) (w : ℕ) :
    detect_head_and_shoulders (List.replicate n c) dates w = none := by
  unfold detect_head_and_shoulders
  split
  · rfl
  · dsimp only []
    split
    · rfl
    · split
      · rfl
      · rw [bestFold_of_all_none ?_]
        intro t ht
        obtain ⟨h1, h2, _⟩ := mem_triples ht
        have hl : t.1.2 = c :=
          replicate_maxima_snd (by simpa using (List.mem_filter.1 h1).1)
        have hh : t.2.1.2 = c :=
          replicate_maxima_snd (by simpa using (List.mem_filter.1 h2).1)
        unfold hsEval
        dsimp only []
        rw [if_pos (Or.inl (by rw [hl, hh]))]

theorem detect_ihs_flat (n : ℕ) (c : ℚ) (dates : List String) (w : ℕ) :
    detect_inverse_head_shoulders (List.replicate n c) dates w = none := by
  unfold detect_inverse_head_shoulders
  split
  · rfl
  · dsimp only []
    split
    · rfl
    · split
      · rfl
      · rw [bestFold_of_all_none ?_]
        intro t ht
        obtain ⟨h1, h2, _⟩ := mem_triples ht
        have hl : t.1.2 = c :=
          replicate_minima_snd (by simpa using (List.mem_filter.1 h1).1)
        have hh : t.2.1.2 = c :=
          replicate_minima_snd (by simpa using (List.mem_filter.1 h2).1)
        unfold ihsEval
        dsimp only []
        rw [if_pos (Or.inl (by rw [hl, hh]))]

theorem detect_dt_flat (n : ℕ) (c : ℚ) (dates : List String) (w : ℕ) :
    detect_double_top (List.replicate n c) dates w = none := by
  unfold detect_double_top
  split
  · rfl
  · dsimp only []
    split
    · rfl
    · rw [bestFold_of_all_none ?_]
      intro t ht
      obtain ⟨h1, h2⟩ := mem_pairs ht
      have hf : t.1.2 = c :=
        replicate_maxima_snd (by simpa using (List.mem_filter.1 h1).1)
      have hs2 : t.2.2 = c :=
        replicate_maxima_snd (by simpa using (List.mem_filter.1 h2).1)
      unfold dtEval
      dsimp only []
      rw [if_neg (by rw [hf, hs2]; norm_num [sub_self])]
      split
      · rfl
      · split
        · rfl
        · split
          · rfl
          · rename_i hne hph
            exfalso
            apply hph
            have hneck : (pyMinByKey (List.filter
                (fun m => decide (t.1.1 < m.1 ∧ m.1 < t.2.1))
                (localMinima (List.replicate n c) w))).2 = c :=
              replicate_minima_snd
                (by simpa using (List.mem_filter.1 (pyMinByKey_mem hne)).1)
            rw [hf, hneck]
            norm_num [sub_self]

theorem pymax_replicate {m : ℕ} {c : ℚ} (h : 1 ≤ m) :
    pymax (List.replicate m c) = c :=
  pymax_eq_of (by simp [List.mem_replicate]; omega)
    (fun y hy => le_of_eq (List.eq_of_mem_replicate hy))

theorem pyargmax_replicate (m : ℕ) (c : ℚ) :
    pyargmax (List.replicate m c) = 0 := by
  cases m with
  | zero => rfl
  | succ k =>
    cases k with
    | zero => rfl
    | succ j =>
      rw [List.replicate_succ, List.replicate_succ]
      simp only [pyargmax]
      rw [← List.replicate_succ, pymax_replicate (by omega), if_neg (lt_irrefl c)]

theorem getD_replicate (m i : ℕ) (c : ℚ) :
    (List.replicate m c).getD i 0 = if i < m then c else 0 := by
  split
  · rw [List.getD_eq_getElem _ _ (by rwa [List.length_replicate])]
    exact List.getElem_replicate _ _
  · rename_i hi
    rw [List.getD_eq_getElem?_getD, List.getElem?_eq_none (by rw [List.length_replicate]; omega)]
    rfl

theorem headD_replicate (m : ℕ) (c : ℚ) :
    (List.replicate m c).headD 0 = if m = 0 then 0 else c := by
  cases m with
  | zero => rfl
  | succ k => rw [List.replicate_succ, if_neg (Nat.succ_ne_zero k)]; rfl

theorem getLastD_replicate (m : ℕ) (c : ℚ) :
    (List.replicate m c).getLastD 0 = if m = 0 then 0 else c := by
  cases m with
  | zero => rfl
  | succ k =>
    rw [if_neg (Nat.succ_ne_zero k)]
    exact List.eq_of_mem_replicate (getLastD_mem (by simp) 0)

theorem map_snd_filter_maxima (n : ℕ) (c : ℚ) (w : ℕ) (P : ℕ × ℚ → Bool) :
    (List.filter P (localMaxima (List.replicate n c) w)).map (fun m => m.2)
      = List.replicate (List.filter P (localMaxima (List.replicate n c) w)).length c := by
  have h : (List.filter P (localMaxima (List.replicate n c) w)).map (fun m => m.2)
      = List.replicate ((List.filter P (localMaxima (List.replicate n c) w)).map
          (fun m => m.2)).length c := by
    apply List.eq_replicate_of_mem
    intro b hb
    obtain ⟨m, hm, rfl⟩ := List.mem_map.1 hb
    exact replicate_maxima_snd (List.mem_filter.1 hm).1
  rw [List.length_map] at h
  exact h

theorem map_snd_filter_minima (n : ℕ) (c : ℚ) (w : ℕ) (P : ℕ × ℚ → Bool) :
    (List.filter P (localMinima (List.replicate n c) w)).map (fun m => m.2)
      = List.replicate (List.filter P (localMinima (List.replicate n c) w)).length c := by
  have h : (List.filter P (localMinima (List.replicate n c) w)).map (fun m => m.2)
      = List.replicate ((List.filter P (localMinima (List.replicate n c) w)).map
          (fun m => m.2)).length c := by
    apply List.eq_replicate_of_mem
    intro b hb
    obtain ⟨m, hm, rfl⟩ := List.mem_map.1 hb
    exact replicate_minima_snd (List.mem_filter.1 hm).1
  rw [List.length_map] at h
  exact h

theorem pyMinByKey_filter_minima_snd {n : ℕ} {c : ℚ} {w : ℕ} (P : ℕ × ℚ → Bool)
    (hne : ¬ (localMinima (List.replicate n c) w).filter P = []) :
    (pyMinByKey ((localMinima (List.replicate n c) w).filter P)).2 = c :=
  replicate_minima_snd (List.mem_filter.1 (pyMinByKey_mem hne)).1

theorem pyMaxByKey_filter_maxima_snd {n : ℕ} {c : ℚ} {w : ℕ} (P : ℕ × ℚ → Bool)
    (hne : ¬ (localMaxima (List.replicate n c) w).filter P = []) :
    (pyMaxByKey ((localMaxima (List.replicate n c) w).filter P)).2 = c :=
  replicate_maxima_snd (List.mem_filter.1 (pyMaxByKey_mem hne)).1

theorem detect_db_flat (n : ℕ) (c : ℚ) (dates : List String) (w : ℕ) :
    detect_double_bottom (List.replicate n c) dates w = none := by
  unfold detect_double_bottom
  split
  · rfl
  · dsimp only []
    split
    · rfl
    · rw [bestFold_of_all_none ?_]
      intro t ht
      obtain ⟨h1, h2⟩ := mem_pairs ht
      have hf : t.1.2 = c :=
        replicate_minima_snd (by simpa using (List.mem_filter.1 h1).1)
      have hs2 : t.2.2 = c :=
        replicate_minima_snd (by simpa using (List.mem_filter.1 h2).1)
      unfold dbEval
      dsimp only []
      rw [if_neg (by rw [hf, hs2]; norm_num [sub_self])]
      split
      · rfl
      · split
        · rfl
        · split
          · rfl
          · rename_i hne hph
            exfalso
            apply hph
            rw [hf, pyMaxByKey_filter_maxima_snd _ hne]
            norm_num [sub_self]

theorem detect_tt_flat (n : ℕ) (c : ℚ) (dates : List String) (w : ℕ) :
    detect_triple_top (List.replicate n c) dates w = none := by
  unfold detect_triple_top
  split
  · rfl
  · dsimp only []
    split
    · rfl
    · rw [bestFold_of_all_none ?_]
      intro t ht
      obtain ⟨h1, h2, h3⟩ := mem_triples ht
      have hf : t.1.2 = c :=
        replicate_maxima_snd (by simpa using (List.mem_filter.1 h1).1)
      have hg : t.2.1.2 = c :=
        replicate_maxima_snd (by simpa using (List.mem_filter.1 h2).1)
      have hh : t.2.2.2 = c :=
        replicate_maxima_snd (by simpa using (List.mem_filter.1 h3).1)
      have havg : (c + c + c) / 3 = c := by ring
      unfold ttEval
      dsimp only []
      rw [if_neg (by rw [hf, hg, hh, havg]; norm_num [sub_self])]
      split
      · rfl
      · split
        · rfl
        · rename_i hne hph
          exfalso
          apply hph
          push_neg at hne
          rw [hf, hg, hh, havg, pyMinByKey_filter_minima_snd _ hne.1,
            pyMinByKey_filter_minima_snd _ hne.2, min_self]
          norm_num [sub_self]

theorem detect_tb_flat (n : ℕ) (c : ℚ) (dates : List String) (w : ℕ) :
    detect_triple_bottom (List.replicate n c) dates w = none := by
  unfold detect_triple_bottom
  split
  · rfl
  · dsimp only []
    split
    · rfl
    · rw [bestFold_of_all_none ?_]
      intro t ht
      obtain ⟨h1, h2, h3⟩ := mem_triples ht
      have hf : t.1.2 = c :=
        replicate_minima_snd (by simpa using (List.mem_filter.1 h1).1)
      have hg : t.2.1.2 = c :=
        replicate_minima_snd (by simpa using (List.mem_filter.1 h2).1)
      have hh : t.2.2.2 = c :=
        replicate_minima_snd (by simpa using (List.mem_filter.1 h3).1)
      have havg : (c + c + c) / 3 = c := by ring
      unfold tbEval
      dsimp only []
      rw [if_neg (by rw [hf, hg, hh, havg]; norm_num [sub_self])]
      split
      · rfl
      · split
        · rfl
        · rename_i hne hph
          exfalso
          apply hph
          push_neg at hne
          rw [hf, hg, hh, havg, pyMaxByKey_filter_maxima_snd _ hne.1,
            pyMaxByKey_filter_maxima_snd _ hne.2, max_self]
          norm_num [sub_self]

theorem ascEval_flat (n : ℕ) (c : ℚ) (w : ℕ) :
    ascendingTriangleEval (List.replicate n c) w = none := by
  unfold ascendingTriangleEval
  split
  · rfl
  · dsimp only []
    split
    · rfl
    · split
      · rfl
      · split
        · rfl
        · split
          · rfl
          · split
            · rfl
            · rename_i hslope
              exfalso
              apply hslope
              rw [map_snd_filter_minima, getLastD_replicate, headD_replicate,
                sub_self, zero_div]

theorem detect_asc_flat (n : ℕ) (c : ℚ) (dates : List String) (w : ℕ) :
    detect_ascending_triangle (List.replicate n c) dates w = none := by
  unfold detect_ascending_triangle
  rw [ascEval_flat]

theorem descEval_flat (n : ℕ) (c : ℚ) (w : ℕ) :
    descendingTriangleEval (List.replicate n c) w = none := by
  unfold descendingTriangleEval
  split
  · rfl
  · dsimp only []
    split
    · rfl
    · split
      · rfl
      · split
        · rfl
        · split
          · rfl
          · rename_i hslope
            exfalso
            apply hslope
            rw [map_snd_filter_maxima, getLastD_replicate, headD_replicate,
              sub_self, zero_div]

theorem detect_desc_flat (n : ℕ) (c : ℚ) (dates : List String) (w : ℕ) :
    detect_descending_triangle (List.replicate n c) dates w = none := by
  unfold detect_descending_triangle
  rw [descEval_flat]

theorem wedgeEval_flat (n : ℕ) (c : ℚ) (w : ℕ) :
    fallingWedgeEval (List.replicate n c) w = none := by
  unfold fallingWedgeEval
  split
  · rfl
  · dsimp only []
    split
    · rfl
    · split
      · rfl
      · split
        · rfl
        · rename_i hslope
          exfalso
          apply hslope
          left
          rw [map_snd_filter_maxima, getLastD_replicate, headD_replicate,
            sub_self, zero_div]

theorem detect_wedge_flat (n : ℕ) (c : ℚ) (dates : List String) (w : ℕ) :
    detect_falling_wedge (List.replicate n c) dates w = none := by
  unfold detect_falling_wedge
  rw [wedgeEval_flat]

theorem cupEval_flat (n : ℕ) (c : ℚ) (dates : List String) :
    cupAndHandleEval (List.replicate n c) dates = none := by
  unfold cupAndHandleEval
  split
  · rfl
  · dsimp only []
    split
    · rfl
    · split
      · rfl
      · rename_i hidx
        exfalso
        apply hidx
        left
        rw [List.drop_replicate, pyargmin_replicate]
        norm_num

theorem detect_cup_flat (n : ℕ) (c : ℚ) (dates : List String) (w : ℕ) :
    detect_cup_and_handle (List.replicate n c) dates w = none := by
  unfold detect_cup_and_handle
  rw [cupEval_flat]

theorem flagEval_flat (n : ℕ) (c : ℚ) :
    bullishFlagEval (List.replicate n c) = none := by
  unfold bullishFlagEval
  split
  · rfl
  · dsimp only []
    split
    · rfl
    · rename_i h15
      split
      · rfl
      · rename_i hgain
        exfalso
        apply hgain
        rw [List.drop_replicate, List.take_replicate] at h15
        rw [List.drop_replicate, List.take_replicate]
        simp only [List.length_replicate] at h15 ⊢
        rw [List.take_replicate, List.drop_replicate,
          pyargmin_replicate, pyargmax_replicate, getD_replicate, getD_replicate]
        split_ifs with h1 h2
        · norm_num [sub_self]
        · exfalso; omega
        · exfalso; omega
        · exfalso; omega

theorem detect_flag_flat (n : ℕ) (c : ℚ) (dates : List String) (w : ℕ) :
    detect_bullish_flag (List.replicate n c) dates w = none := by
  unfold detect_bullish_flag
  rw [flagEval_flat]

/-- C4: for every constant (flat) price series — any length `n`, any
positive constant price `c`, any dates, any window — each of the eleven
detectors returns `none` (not detected). -/
theorem claim_C4 (n : ℕ) (c : ℚ) (dates : List String) (w : ℕ) (hc : 0 < c) :
    detect_head_and_shoulders (List.replicate n c) dates w = none ∧
    detect_inverse_head_shoulders (List.replicate n c) dates w = none ∧
    detect_double_top (List.replicate n c) dates w = none ∧
    detect_double_bottom (List.replicate n c) dates w = none ∧
    detect_triple_top (List.replicate n c) dates w = none ∧
    detect_triple_bottom (List.replicate n c) dates w = none ∧
    detect_ascending_triangle (List.replicate n c) dates w = none ∧
    detect_descending_triangle (List.replicate n c) dates w = none ∧
    detect_cup_and_handle (List.replicate n c) dates w = none ∧
    detect_bullish_flag (List.replicate n c) dates w = none ∧
    detect_falling_wedge (List.replicate n c) dates w = none :=
  ⟨detect_hs_flat n c dates w, detect_ihs_flat n c dates w,
   detect_dt_flat n c dates w, detect_db_flat n c dates w,
   detect_tt_flat n c dates w, detect_tb_flat n c dates w,
   detect_asc_flat n c dates w, detect_desc_flat n c dates w,
   detect_cup_flat n c dates w, detect_flag_flat n c dates w,
   detect_wedge_flat n c dates w⟩

/-- Witness for C4: the flat series of 120 sevens defeats all eleven
detectors at window 10. -/
theorem claim_C4_witness :
    (0 : ℚ) < 7 ∧
    detect_head_and_shoulders (List.replicate 120 7) [] 10 = none ∧
    detect_inverse_head_shoulders (List.replicate 120 7) [] 10 = none ∧
    detect_double_top (List.replicate 120 7) [] 10 = none ∧
    detect_double_bottom (List.replicate 120 7) [] 10 = none ∧
    detect_triple_top (List.replicate 120 7) [] 10 = none ∧
    detect_triple_bottom (List.replicate 120 7) [] 10 = none ∧
    detect_ascending_triangle (List.replicate 120 7) [] 10 = none ∧
    detect_descending_triangle (List.replicate 120 7) [] 10 = none ∧
    detect_cup_and_handle (List.replicate 120 7) [] 10 = none ∧
    detect_bullish_flag (List.replicate 120 7) [] 10 = none ∧
    detect_falling_wedge (List.replicate 120 7) [] 10 = none :=
  ⟨by norm_num, claim_C4 120 7 [] 10 (by norm_num)⟩

/-! ## Safety of the mirrored events (claim C10) -/

theorem getD_pos {l : List ℚ} {i : ℕ} (hpos : ∀ p ∈ l, 0 < p) (hi : i < l.length) :
    0 < l.getD i 0 := by
  rw [List.getD_eq_getElem _ _ hi]
  exact hpos _ (List.getElem_mem hi)

theorem listMean_pos {l : List ℚ} (hne : l ≠ []) (hp : ∀ x ∈ l, 0 < x) :
    0 < listMean l := by
  unfold listMean
  apply div_pos (List.sum_pos l hp hne)
  exact_mod_cast List.length_pos.2 hne

theorem idx_denom_pos {l : List ℕ} (hp : l.Pairwise (· < ·)) :
    (0 : ℚ) < (l.getLastD 0 : ℚ) - (l.headD 0 : ℚ) + 1 := by
  rcases eq_or_ne l [] with rfl | hne
  · norm_num
  · have h := sorted_headD_le_getLastD hp hne
    have h2 : ((l.headD 0 : ℕ) : ℚ) ≤ ((l.getLastD 0 : ℕ) : ℚ) := by exact_mod_cast h
    linarith

theorem filter_map_fst_pairwise {L : List (ℕ × ℚ)} (hp : L.Pairwise (fun a b => a.1 < b.1))
    (P : ℕ × ℚ → Bool) : ((L.filter P).map (fun m => m.1)).Pairwise (· < ·) :=
  List.pairwise_map.2 (hp.filter P)

theorem getLastD_map_cast (l : List ℕ) :
    (l.map (fun i : ℕ => (i : ℚ))).getLastD 0 = ((l.getLastD 0 : ℕ) : ℚ) := by
  have h : ∀ d : ℕ,
      (l.map (fun i : ℕ => (i : ℚ))).getLastD (d : ℚ) = ((l.getLastD d : ℕ) : ℚ) := by
    induction l with
    | nil => intro d; rfl
    | cons x t ih =>
      intro d
      rw [List.map_cons, List.getLastD_cons, List.getLastD_cons]
      exact ih x
  simpa using h 0

theorem headD_map_cast (l : List ℕ) :
    (l.map (fun i : ℕ => (i : ℚ))).headD 0 = ((l.headD 0 : ℕ) : ℚ) := by
  cases l with
  | nil => simp
  | cons x t => rfl

/-- The slope denominator `last - first + 1` over the (ℚ-cast) indices of
a filtered extrema list is positive. -/
theorem idx_denom_pos_q {L : List (ℕ × ℚ)} (hp : L.Pairwise (fun a b => a.1 < b.1))
    (P : ℕ × ℚ → Bool) :
    (0 : ℚ) < ((L.filter P).map (fun m => (m.1 : ℚ))).getLastD 0
        - ((L.filter P).map (fun m => (m.1 : ℚ))).headD 0 + 1 := by
  have h1 : ((L.filter P).map (fun m => (m.1 : ℚ))) =
      ((L.filter P).map (fun m => m.1)).map (fun i : ℕ => (i : ℚ)) := by
    rw [List.map_map]
    rfl
  rw [h1, getLastD_map_cast, headD_map_cast]
  exact idx_denom_pos (filter_map_fst_pairwise hp P)

theorem map_snd_filter_maxima_pos {prices : List ℚ} {w : ℕ} (hpos : ∀ p ∈ prices, 0 < p)
    {P : ℕ × ℚ → Bool} {x : ℚ}
    (hx : x ∈ (List.filter P (localMaxima prices w)).map (fun m => m.2)) : 0 < x := by
  obtain ⟨m, hm, rfl⟩ := List.mem_map.1 hx
  exact hpos _ (localMaxima_snd_mem (List.mem_filter.1 hm).1)

theorem map_snd_filter_minima_pos {prices : List ℚ} {w : ℕ} (hpos : ∀ p ∈ prices, 0 < p)
    {P : ℕ × ℚ → Bool} {x : ℚ}
    (hx : x ∈ (List.filter P (localMinima prices w)).map (fun m => m.2)) : 0 < x := by
  obtain ⟨m, hm, rfl⟩ := List.mem_map.1 hx
  exact hpos _ (localMinima_snd_mem (List.mem_filter.1 hm).1)

theorem hsEvalEvents_safe {prices : List ℚ} {search_start : ℕ}
    {local_minima : List (ℕ × ℚ)} {t : (ℕ × ℚ) × (ℕ × ℚ) × (ℕ × ℚ)}
    (hl : 0 < t.1.2) (hr : 0 < t.2.2.2)
    (hmins : ∀ m ∈ local_minima, 0 < m.2)
    (hil : t.1.1 < prices.length) (hih : t.2.1.1 < prices.length)
    (hir : t.2.2.1 < prices.length)
    (hss : search_start < prices.length) :
    (∀ d ∈ (hsEvalEvents prices search_start local_minima t).1, d ≠ 0) ∧
    (∀ i ∈ (hsEvalEvents prices search_start local_minima t).2, i < prices.length) := by
  have hd1 : (0 : ℚ) < max t.1.2 t.2.2.2 := lt_max_of_lt_left hl
  have hrecd : (0 : ℚ) < (prices.length : ℚ) - (search_start : ℚ) :=
    sub_pos.2 (by exact_mod_cast hss)
  unfold hsEvalEvents
  dsimp only []
  split
  · simp
  · split
    · refine ⟨?_, by simp⟩
      intro d hd
      rw [List.mem_singleton] at hd
      subst hd
      exact ne_of_gt hd1
    · split
      · refine ⟨?_, by simp⟩
        intro d hd
        rw [List.mem_singleton] at hd
        subst hd
        exact ne_of_gt hd1
      · rename_i hcand
        push_neg at hcand
        have hn1 := hmins _ (List.mem_filter.1 (pyMinByKey_mem hcand.1)).1
        have hn2 := hmins _ (List.mem_filter.1 (pyMinByKey_mem hcand.2)).1
        have hneck := div_pos (add_pos hn1 hn2) (by norm_num : (0:ℚ) < 2)
        split
        · refine ⟨?_, by simp⟩
          intro d hd
          simp only [List.mem_cons, List.not_mem_nil, or_false] at hd
          rcases hd with rfl | rfl
          · exact ne_of_gt hd1
          · exact ne_of_gt hneck
        · constructor
          · intro d hd
            simp only [List.mem_cons, List.not_mem_nil, or_false] at hd
            rcases hd with rfl | rfl | rfl | rfl
            · exact ne_of_gt hd1
            · exact ne_of_gt hneck
            · exact ne_of_gt hrecd
            · exact ne_of_gt hneck
          · intro i hi
            simp only [List.mem_cons, List.not_mem_nil, or_false] at hi
            rcases hi with rfl | rfl | rfl | rfl
            · exact hil
            · exact hih
            · exact hir
            · omega

theorem hsEvents_safe {prices : List ℚ} {w : ℕ} (hpos : ∀ p ∈ prices, 0 < p) :
    (∀ d ∈ (hsEvents prices w).1, d ≠ 0) ∧
    (∀ i ∈ (hsEvents prices w).2, i < prices.length) := by
  have hmins : ∀ m ∈ localMinima prices w, 0 < m.2 :=
    fun m hm => hpos _ (localMinima_snd_mem hm)
  unfold hsEvents
  split
  · simp
  · dsimp only []
    split
    · simp
    · split
      · simp
      · constructor
        · intro d hd
          obtain ⟨t, ht, hdt⟩ := List.mem_flatMap.1 hd
          obtain ⟨h1, h2, h3⟩ := mem_triples ht
          have hl := hpos _ (localMaxima_snd_mem (List.mem_filter.1 h1).1)
          have hr := hpos _ (localMaxima_snd_mem (List.mem_filter.1 h3).1)
          have hil := localMaxima_idx_lt (List.mem_filter.1 h1).1
          have hih := localMaxima_idx_lt (List.mem_filter.1 h2).1
          have hir := localMaxima_idx_lt (List.mem_filter.1 h3).1
          exact (hsEvalEvents_safe hl hr hmins hil hih hir (by omega)).1 d hdt
        · intro i hi
          obtain ⟨t, ht, hit⟩ := List.mem_flatMap.1 hi
          obtain ⟨h1, h2, h3⟩ := mem_triples ht
          have hl := hpos _ (localMaxima_snd_mem (List.mem_filter.1 h1).1)
          have hr := hpos _ (localMaxima_snd_mem (List.mem_filter.1 h3).1)
          have hil := localMaxima_idx_lt (List.mem_filter.1 h1).1
          have hih := localMaxima_idx_lt (List.mem_filter.1 h2).1
          have hir := localMaxima_idx_lt (List.mem_filter.1 h3).1
          exact (hsEvalEvents_safe hl hr hmins hil hih hir (by omega)).2 i hit

theorem ihsEvalEvents_safe {prices : List ℚ} {search_start : ℕ}
    {local_maxima : List (ℕ × ℚ)} {t : (ℕ × ℚ) × (ℕ × ℚ) × (ℕ × ℚ)}
    (hl : 0 < t.1.2)
    (hmaxs : ∀ m ∈ local_maxima, 0 < m.2)
    (hil : t.1.1 < prices.length) (hih : t.2.1.1 < prices.length)
    (hir : t.2.2.1 < prices.length)
    (hss : search_start < prices.length) :
    (∀ d ∈ (ihsEvalEvents prices search_start local_maxima t).1, d ≠ 0) ∧
    (∀ i ∈ (ihsEvalEvents prices search_start local_maxima t).2, i < prices.length) := by
  have hd1 : (0 : ℚ) < max t.1.2 t.2.2.2 := lt_max_of_lt_left hl
  have hrecd : (0 : ℚ) < (prices.length : ℚ) - (search_start : ℚ) :=
    sub_pos.2 (by exact_mod_cast hss)
  unfold ihsEvalEvents
  dsimp only []
  split
  · simp
  · split
    · refine ⟨?_, by simp⟩
      intro d hd
      rw [List.mem_singleton] at hd
      subst hd
      exact ne_of_gt hd1
    · split
      · refine ⟨?_, by simp⟩
        intro d hd
        rw [List.mem_singleton] at hd
        subst hd
        exact ne_of_gt hd1
      · rename_i hcand
        push_neg at hcand
        have hn1 := hmaxs _ (List.mem_filter.1 (pyMaxByKey_mem hcand.1)).1
        have hn2 := hmaxs _ (List.mem_filter.1 (pyMaxByKey_mem hcand.2)).1
        have hneck := div_pos (add_pos hn1 hn2) (by norm_num : (0:ℚ) < 2)
        split
        · refine ⟨?_, by simp⟩
          intro d hd
          simp only [List.mem_cons, List.not_mem_nil, or_false] at hd
          rcases hd with rfl | rfl
          · exact ne_of_gt hd1
          · exact ne_of_gt hneck
        · constructor
          · intro d hd
            simp only [List.mem_cons, List.not_mem_nil, or_false] at hd
            rcases hd with rfl | rfl | rfl | rfl
            · exact ne_of_gt hd1
            · exact ne_of_gt hneck
            · exact ne_of_gt hrecd
            · exact ne_of_gt hneck
          · intro i hi
            simp only [List.mem_cons, List.not_mem_nil, or_false] at hi
            rcases hi with rfl | rfl | rfl | rfl
            · exact hil
            · exact hih
            · exact hir
            · omega

theorem ihsEvents_safe {prices : List ℚ} {w : ℕ} (hpos : ∀ p ∈ prices, 0 < p) :
    (∀ d ∈ (ihsEvents prices w).1, d ≠ 0) ∧
    (∀ i ∈ (ihsEvents prices w).2, i < prices.length) := by
  have hmaxs : ∀ m ∈ localMaxima prices w, 0 < m.2 :=
    fun m hm => hpos _ (localMaxima_snd_mem hm)
  unfold ihsEvents
  split
  · simp
  · dsimp only []
    split
    · simp
    · split
      · simp
      · constructor
        · intro d hd
          obtain ⟨t, ht, hdt⟩ := List.mem_flatMap.1 hd
          obtain ⟨h1, h2, h3⟩ := mem_triples ht
          have hl := hpos _ (localMinima_snd_mem (List.mem_filter.1 h1).1)
          have hil := localMinima_idx_lt (List.mem_filter.1 h1).1
          have hih := localMinima_idx_lt (List.mem_filter.1 h2).1
          have hir := localMinima_idx_lt (List.mem_filter.1 h3).1
          exact (ihsEvalEvents_safe hl hmaxs hil hih hir (by omega)).1 d hdt
        · intro i hi
          obtain ⟨t, ht, hit⟩ := List.mem_flatMap.1 hi
          obtain ⟨h1, h2, h3⟩ := mem_triples ht
          have hl := hpos _ (localMinima_snd_mem (List.mem_filter.1 h1).1)
          have hil := localMinima_idx_lt (List.mem_filter.1 h1).1
          have hih := localMinima_idx_lt (List.mem_filter.1 h2).1
          have hir := localMinima_idx_lt (List.mem_filter.1 h3).1
          exact (ihsEvalEvents_safe hl hmaxs hil hih hir (by omega)).2 i hit

theorem dtEvalEvents_safe {prices : List ℚ} {window search_start : ℕ}
    {local_minima : List (ℕ × ℚ)} {t : (ℕ × ℚ) × (ℕ × ℚ)}
    (hf : 0 < t.1.2)
    (hmins : ∀ m ∈ local_minima, 0 < m.2)
    (hi1 : t.1.1 < prices.length) (hi2 : t.2.1 < prices.length)
    (himin : ∀ m ∈ local_minima, m.1 < prices.length)
    (hss : search_start < prices.length) :
    (∀ d ∈ (dtEvalEvents prices window search_start local_minima t).1, d ≠ 0) ∧
    (∀ i ∈ (dtEvalEvents prices window search_start local_minima t).2, i < prices.length) := by
  have hd1 : (0 : ℚ) < max t.1.2 t.2.2 := lt_max_of_lt_left hf
  have hrecd : (0 : ℚ) < (prices.length : ℚ) - (search_start : ℚ) :=
    sub_pos.2 (by exact_mod_cast hss)
  unfold dtEvalEvents
  dsimp only []
  split
  · refine ⟨?_, by simp⟩
    intro d hd
    rw [List.mem_singleton] at hd
    subst hd
    exact ne_of_gt hd1
  · split
    · refine ⟨?_, by simp⟩
      intro d hd
      rw [List.mem_singleton] at hd
      subst hd
      exact ne_of_gt hd1
    · split
      · refine ⟨?_, by simp⟩
        intro d hd
        rw [List.mem_singleton] at hd
        subst hd
        exact ne_of_gt hd1
      · rename_i hcand
        have htm := List.mem_filter.1 (pyMinByKey_mem hcand)
        have hneck := hmins _ htm.1
        have htidx := himin _ htm.1
        split
        · refine ⟨?_, by simp⟩
          intro d hd
          simp only [List.mem_cons, List.not_mem_nil, or_false] at hd
          rcases hd with rfl | rfl
          · exact ne_of_gt hd1
          · exact ne_of_gt hneck
        · constructor
          · intro d hd
            simp only [List.mem_cons, List.not_mem_nil, or_false] at hd
            rcases hd with rfl | rfl | rfl
            · exact ne_of_gt hd1
            · exact ne_of_gt hneck
            · exact ne_of_gt hrecd
          · intro i hi
            simp only [List.mem_cons, List.not_mem_nil, or_false] at hi
            rcases hi with rfl | rfl | rfl | rfl
            · exact hi1
            · exact hi2
            · exact htidx
            · omega

theorem dtEvents_safe {prices : List ℚ} {w : ℕ} (hpos : ∀ p ∈ prices, 0 < p) :
    (∀ d ∈ (dtEvents prices w).1, d ≠ 0) ∧
    (∀ i ∈ (dtEvents prices w).2, i < prices.length) := by
  have hmins : ∀ m ∈ localMinima prices w, 0 < m.2 :=
    fun m hm => hpos _ (localMinima_snd_mem hm)
  have himin : ∀ m ∈ localMinima prices w, m.1 < prices.length :=
    fun m hm => localMinima_idx_lt hm
  unfold dtEvents
  split
  · simp
  · dsimp only []
    split
    · simp
    · constructor
      · intro d hd
        obtain ⟨t, ht, hdt⟩ := List.mem_flatMap.1 hd
        obtain ⟨h1, h2⟩ := mem_pairs ht
        have hf := hpos _ (localMaxima_snd_mem (List.mem_filter.1 h1).1)
        have hi1 := localMaxima_idx_lt (List.mem_filter.1 h1).1
        have hi2 := localMaxima_idx_lt (List.mem_filter.1 h2).1
        exact (dtEvalEvents_safe hf hmins hi1 hi2 himin (by omega)).1 d hdt
      · intro i hi
        obtain ⟨t, ht, hit⟩ := List.mem_flatMap.1 hi
        obtain ⟨h1, h2⟩ := mem_pairs ht
        have hf := hpos _ (localMaxima_snd_mem (List.mem_filter.1 h1).1)
        have hi1 := localMaxima_idx_lt (List.mem_filter.1 h1).1
        have hi2 := localMaxima_idx_lt (List.mem_filter.1 h2).1
        exact (dtEvalEvents_safe hf hmins hi1 hi2 himin (by omega)).2 i hit

theorem dbEvalEvents_safe {prices : List ℚ} {window search_start : ℕ}
    {local_maxima : List (ℕ × ℚ)} {t : (ℕ × ℚ) × (ℕ × ℚ)}
    (hf : 0 < t.1.2)
    (himax : ∀ m ∈ local_maxima, m.1 < prices.length)
    (hi1 : t.1.1 < prices.length) (hi2 : t.2.1 < prices.length)
    (hss : search_start < prices.length) :
    (∀ d ∈ (dbEvalEvents prices window search_start local_maxima t).1, d ≠ 0) ∧
    (∀ i ∈ (dbEvalEvents prices window search_start local_maxima t).2, i < prices.length) := by
  have hd1 : (0 : ℚ) < max t.1.2 t.2.2 := lt_max_of_lt_left hf
  have hrecd : (0 : ℚ) < (prices.length : ℚ) - (search_start : ℚ) :=
    sub_pos.2 (by exact_mod_cast hss)
  unfold dbEvalEvents
  dsimp only []
  split
  · refine ⟨?_, by simp⟩
    intro d hd
    rw [List.mem_singleton] at hd
    subst hd
    exact ne_of_gt hd1
  · split
    · refine ⟨?_, by simp⟩
      intro d hd
      rw [List.mem_singleton] at hd
      subst hd
      exact ne_of_gt hd1
    · split
      · refine ⟨?_, by simp⟩
        intro d hd
        rw [List.mem_singleton] at hd
        subst hd
        exact ne_of_gt hd1
      · rename_i hcand
        have hpm := List.mem_filter.1 (pyMaxByKey_mem hcand)
        have hpidx := himax _ hpm.1
        split
        · refine ⟨?_, by simp⟩
          intro d hd
          simp only [List.mem_cons, List.not_mem_nil, or_false] at hd
          rcases hd with rfl | rfl
          · exact ne_of_gt hd1
          · exact ne_of_gt hf
        · constructor
          · intro d hd
            simp only [List.mem_cons, List.not_mem_nil, or_false] at hd
            rcases hd with rfl | rfl | rfl
            · exact ne_of_gt hd1
            · exact ne_of_gt hf
            · exact ne_of_gt hrecd
          · intro i hi
            simp only [List.mem_cons, List.not_mem_nil, or_false] at hi
            rcases hi with rfl | rfl | rfl | rfl
            · exact hi1
            · exact hi2
            · exact hpidx
            · omega

theorem dbEvents_safe {prices : List ℚ} {w : ℕ} (hpos : ∀ p ∈ prices, 0 < p) :
    (∀ d ∈ (dbEvents prices w).1, d ≠ 0) ∧
    (∀ i ∈ (dbEvents prices w).2, i < prices.length) := by
  have himax : ∀ m ∈ localMaxima prices w, m.1 < prices.length :=
    fun m hm => localMaxima_idx_lt hm
  unfold dbEvents
  split
  · simp
  · dsimp only []
    split
    · simp
    · constructor
      · intro d hd
        obtain ⟨t, ht, hdt⟩ := List.mem_flatMap.1 hd
        obtain ⟨h1, h2⟩ := mem_pairs ht
        have hf := hpos _ (localMinima_snd_mem (List.mem_filter.1 h1).1)
        have hi1 := localMinima_idx_lt (List.mem_filter.1 h1).1
        have hi2 := localMinima_idx_lt (List.mem_filter.1 h2).1
        exact (dbEvalEvents_safe hf himax hi1 hi2 (by omega)).1 d hdt
      · intro i hi
        obtain ⟨t, ht, hit⟩ := List.mem_flatMap.1 hi
        obtain ⟨h1, h2⟩ := mem_pairs ht
        have hf := hpos _ (localMinima_snd_mem (List.mem_filter.1 h1).1)
        have hi1 := localMinima_idx_lt (List.mem_filter.1 h1).1
        have hi2 := localMinima_idx_lt (List.mem_filter.1 h2).1
        exact (dbEvalEvents_safe hf himax hi1 hi2 (by omega)).2 i hit

theorem ttEvalEvents_safe {prices : List ℚ} {search_start : ℕ}
    {local_minima : List (ℕ × ℚ)} {t : (ℕ × ℚ) × (ℕ × ℚ) × (ℕ × ℚ)}
    (hf : 0 < t.1.2) (hg : 0 < t.2.1.2) (hh : 0 < t.2.2.2)
    (hmins : ∀ m ∈ local_minima, 0 < m.2)
    (hi1 : t.1.1 < prices.length) (hi2 : t.2.1.1 < prices.length)
    (hi3 : t.2.2.1 < prices.length)
    (hss : search_start < prices.length) :
    (∀ d ∈ (ttEvalEvents prices search_start local_minima t).1, d ≠ 0) ∧
    (∀ i ∈ (ttEvalEvents prices search_start local_minima t).2, i < prices.length) := by
  have havg : (0 : ℚ) < (t.1.2 + t.2.1.2 + t.2.2.2) / 3 :=
    div_pos (add_pos (add_pos hf hg) hh) (by norm_num)
  have hrecd : (0 : ℚ) < (prices.length : ℚ) - (search_start : ℚ) :=
    sub_pos.2 (by exact_mod_cast hss)
  unfold ttEvalEvents
  dsimp only []
  split
  · refine ⟨?_, by simp⟩
    intro d hd
    rw [List.mem_singleton] at hd
    subst hd
    exact ne_of_gt havg
  · split
    · refine ⟨?_, by simp⟩
      intro d hd
      rw [List.mem_singleton] at hd
      subst hd
      exact ne_of_gt havg
    · rename_i hcand
      push_neg at hcand
      have hn1 := hmins _ (List.mem_filter.1 (pyMinByKey_mem hcand.1)).1
      have hn2 := hmins _ (List.mem_filter.1 (pyMinByKey_mem hcand.2)).1
      have hneck := lt_min hn1 hn2
      split
      · refine ⟨?_, by simp⟩
        intro d hd
        simp only [List.mem_cons, List.not_mem_nil, or_false] at hd
        rcases hd with rfl | rfl
        · exact ne_of_gt havg
        · exact ne_of_gt hneck
      · constructor
        · intro d hd
          simp only [List.mem_cons, List.not_mem_nil, or_false] at hd
          rcases hd with rfl | rfl | rfl
          · exact ne_of_gt havg
          · exact ne_of_gt hneck
          · exact ne_of_gt hrecd
        · intro i hi
          simp only [List.mem_cons, List.not_mem_nil, or_false] at hi
          rcases hi with rfl | rfl | rfl | rfl
          · exact hi1
          · exact hi2
          · exact hi3
          · omega

theorem ttEvents_safe {prices : List ℚ} {w : ℕ} (hpos : ∀ p ∈ prices, 0 < p) :
    (∀ d ∈ (ttEvents prices w).1, d ≠ 0) ∧
    (∀ i ∈ (ttEvents prices w).2, i < prices.length) := by
  have hmins : ∀ m ∈ localMinima prices w, 0 < m.2 :=
    fun m hm => hpos _ (localMinima_snd_mem hm)
  unfold ttEvents
  split
  · simp
  · dsimp only []
    split
    · simp
    · constructor
      · intro d hd
        obtain ⟨t, ht, hdt⟩ := List.mem_flatMap.1 hd
        obtain ⟨h1, h2, h3⟩ := mem_triples ht
        have hf := hpos _ (localMaxima_snd_mem (List.mem_filter.1 h1).1)
        have hg := hpos _ (localMaxima_snd_mem (List.mem_filter.1 h2).1)
        have hh := hpos _ (localMaxima_snd_mem (List.mem_filter.1 h3).1)
        have hi1 := localMaxima_idx_lt (List.mem_filter.1 h1).1
        have hi2 := localMaxima_idx_lt (List.mem_filter.1 h2).1
        have hi3 := localMaxima_idx_lt (List.mem_filter.1 h3).1
        exact (ttEvalEvents_safe hf hg hh hmins hi1 hi2 hi3 (by omega)).1 d hdt
      · intro i hi
        obtain ⟨t, ht, hit⟩ := List.mem_flatMap.1 hi
        obtain ⟨h1, h2, h3⟩ := mem_triples ht
        have hf := hpos _ (localMaxima_snd_mem (List.mem_filter.1 h1).1)
        have hg := hpos _ (localMaxima_snd_mem (List.mem_filter.1 h2).1)
        have hh := hpos _ (localMaxima_snd_mem (List.mem_filter.1 h3).1)
        have hi1 := localMaxima_idx_lt (List.mem_filter.1 h1).1
        have hi2 := localMaxima_idx_lt (List.mem_filter.1 h2).1
        have hi3 := localMaxima_idx_lt (List.mem_filter.1 h3).1
        exact (ttEvalEvents_safe hf hg hh hmins hi1 hi2 hi3 (by omega)).2 i hit

theorem tbEvalEvents_safe {prices : List ℚ} {search_start : ℕ}
    {local_maxima : List (ℕ × ℚ)} {t : (ℕ × ℚ) × (ℕ × ℚ) × (ℕ × ℚ)}
    (hf : 0 < t.1.2) (hg : 0 < t.2.1.2) (hh : 0 < t.2.2.2)
    (hi1 : t.1.1 < prices.length) (hi2 : t.2.1.1 < prices.length)
    (hi3 : t.2.2.1 < prices.length)
    (hss : search_start < prices.length) :
    (∀ d ∈ (tbEvalEvents prices search_start local_maxima t).1, d ≠ 0) ∧
    (∀ i ∈ (tbEvalEvents prices search_start local_maxima t).2, i < prices.length) := by
  have havg : (0 : ℚ) < (t.1.2 + t.2.1.2 + t.2.2.2) / 3 :=
    div_pos (add_pos (add_pos hf hg) hh) (by norm_num)
  have hrecd : (0 : ℚ) < (prices.length : ℚ) - (search_start : ℚ) :=
    sub_pos.2 (by exact_mod_cast hss)
  unfold tbEvalEvents
  dsimp only []
  split
  · refine ⟨?_, by simp⟩
    intro d hd
    rw [List.mem_singleton] at hd
    subst hd
    exact ne_of_gt havg
  · split
    · refine ⟨?_, by simp⟩
      intro d hd
      rw [List.mem_singleton] at hd
      subst hd
      exact ne_of_gt havg
    · split
      · refine ⟨?_, by simp⟩
        intro d hd
        simp only [List.mem_cons, List.not_mem_nil, or_false] at hd
        rcases hd with rfl | rfl
        · exact ne_of_gt havg
        · exact ne_of_gt havg
      · constructor
        · intro d hd
          simp only [List.mem_cons, List.not_mem_nil, or_false] at hd
          rcases hd with rfl | rfl | rfl
          · exact ne_of_gt havg
          · exact ne_of_gt havg
          · exact ne_of_gt hrecd
        · intro i hi
          simp only [List.mem_cons, List.not_mem_nil, or_false] at hi
          rcases hi with rfl | rfl | rfl | rfl
          · exact hi1
          · exact hi2
          · exact hi3
          · omega

theorem tbEvents_safe {prices : List ℚ} {w : ℕ} (hpos : ∀ p ∈ prices, 0 < p) :
    (∀ d ∈ (tbEvents prices w).1, d ≠ 0) ∧
    (∀ i ∈ (tbEvents prices w).2, i < prices.length) := by
  unfold tbEvents
  split
  · simp
  · dsimp only []
    split
    · simp
    · constructor
      · intro d hd
        obtain ⟨t, ht, hdt⟩ := List.mem_flatMap.1 hd
        obtain ⟨h1, h2, h3⟩ := mem_triples ht
        have hf := hpos _ (localMinima_snd_mem (List.mem_filter.1 h1).1)
        have hg := hpos _ (localMinima_snd_mem (List.mem_filter.1 h2).1)
        have hh := hpos _ (localMinima_snd_mem (List.mem_filter.1 h3).1)
        have hi1 := localMinima_idx_lt (List.mem_filter.1 h1).1
        have hi2 := localMinima_idx_lt (List.mem_filter.1 h2).1
        have hi3 := localMinima_idx_lt (List.mem_filter.1 h3).1
        exact (tbEvalEvents_safe hf hg hh hi1 hi2 hi3 (by omega)).1 d hdt
      · intro i hi
        obtain ⟨t, ht, hit⟩ := List.mem_flatMap.1 hi
        obtain ⟨h1, h2, h3⟩ := mem_triples ht
        have hf := hpos _ (localMinima_snd_mem (List.mem_filter.1 h1).1)
        have hg := hpos _ (localMinima_snd_mem (List.mem_filter.1 h2).1)
        have hh := hpos _ (localMinima_snd_mem (List.mem_filter.1 h3).1)
        have hi1 := localMinima_idx_lt (List.mem_filter.1 h1).1
        have hi2 := localMinima_idx_lt (List.mem_filter.1 h2).1
        have hi3 := localMinima_idx_lt (List.mem_filter.1 h3).1
        exact (tbEvalEvents_safe hf hg hh hi1 hi2 hi3 (by omega)).2 i hit

theorem ascEvents_safe {prices : List ℚ} {w : ℕ} (hpos : ∀ p ∈ prices, 0 < p) :
    (∀ d ∈ (ascEvents prices w).1, d ≠ 0) ∧
    (∀ i ∈ (ascEvents prices w).2, i < prices.length) := by
  unfold ascEvents
  split
  · simp
  · rename_i h60
    dsimp only []
    split
    · simp
    · split
      · simp
      · rename_i hcnt hrec
        push_neg at hrec
        obtain ⟨hrm, hrn⟩ := hrec
        have hpne : ((localMaxima prices w).filter
            (fun m => decide (prices.length - 80 ≤ m.1))).map (fun m => m.2) ≠ [] := by
          rw [← List.length_pos, List.length_map]
          omega
        have hres := listMean_pos hpne (fun x hx => map_snd_filter_maxima_pos hpos hx)
        have he1 : ∀ d ∈ (((((localMaxima prices w).filter
              (fun m => decide (prices.length - 80 ≤ m.1))).map (fun m => m.2)).length : ℚ) ::
            (((localMaxima prices w).filter
              (fun m => decide (prices.length - 80 ≤ m.1))).map (fun m => m.2)).map
              (fun _ => listMean (((localMaxima prices w).filter
                (fun m => decide (prices.length - 80 ≤ m.1))).map (fun m => m.2)))), d ≠ 0 := by
          intro d hd
          rcases List.mem_cons.1 hd with rfl | hd2
          · exact Nat.cast_ne_zero.2 (by rw [List.length_map]; omega)
          · obtain ⟨p, hp, hpd⟩ := List.mem_map.1 hd2
            exact hpd ▸ ne_of_gt hres
        have hmne : ((localMinima prices w).filter
            (fun m => decide (prices.length - 80 ≤ m.1))).map (fun m => m.2) ≠ [] := by
          rw [← List.length_pos, List.length_map]
          omega
        have hcs := map_snd_filter_minima_pos hpos (getLastD_mem hmne 0)
        split
        · exact ⟨fun d hd => he1 d hd, by simp⟩
        · split
          · exact ⟨fun d hd => he1 d hd, by simp⟩
          · split
            · refine ⟨?_, by simp⟩
              intro d hd
              rcases List.mem_append.1 hd with h | h
              · exact he1 d h
              · rw [List.mem_singleton] at h
                subst h
                exact ne_of_gt (idx_denom_pos_q
                  (localMinima_pairwise prices w) _)
            · split
              · refine ⟨?_, by simp⟩
                intro d hd
                rcases List.mem_append.1 hd with h | h
                · exact he1 d h
                · simp only [List.mem_cons, List.not_mem_nil, or_false] at h
                  rcases h with rfl | rfl
                  · exact ne_of_gt (idx_denom_pos_q
                      (localMinima_pairwise prices w) _)
                  · exact ne_of_gt hcs
              · constructor
                · intro d hd
                  rcases List.mem_append.1 hd with h | h
                  · exact he1 d h
                  · simp only [List.mem_cons, List.not_mem_nil, or_false] at h
                    rcases h with rfl | rfl
                    · exact ne_of_gt (idx_denom_pos_q
                        (localMinima_pairwise prices w) _)
                    · exact ne_of_gt hcs
                · intro i hi
                  rw [List.mem_singleton] at hi
                  subst hi
                  omega

theorem descEvents_safe {prices : List ℚ} {w : ℕ} (hpos : ∀ p ∈ prices, 0 < p) :
    (∀ d ∈ (descEvents prices w).1, d ≠ 0) ∧
    (∀ i ∈ (descEvents prices w).2, i < prices.length) := by
  unfold descEvents
  split
  · simp
  · rename_i h60
    dsimp only []
    split
    · simp
    · split
      · simp
      · rename_i hcnt hrec
        push_neg at hrec
        obtain ⟨hrm, hrn⟩ := hrec
        have hmne : ((localMinima prices w).filter
            (fun m => decide (prices.length - 80 ≤ m.1))).map (fun m => m.2) ≠ [] := by
          rw [← List.length_pos, List.length_map]
          omega
        have hsup := listMean_pos hmne (fun x hx => map_snd_filter_minima_pos hpos hx)
        have he1 : ∀ d ∈ (((((localMinima prices w).filter
              (fun m => decide (prices.length - 80 ≤ m.1))).map (fun m => m.2)).length : ℚ) ::
            (((localMinima prices w).filter
              (fun m => decide (prices.length - 80 ≤ m.1))).map (fun m => m.2)).map
              (fun _ => listMean (((localMinima prices w).filter
                (fun m => decide (prices.length - 80 ≤ m.1))).map (fun m => m.2)))), d ≠ 0 := by
          intro d hd
          rcases List.mem_cons.1 hd with rfl | hd2
          · exact Nat.cast_ne_zero.2 (by rw [List.length_map]; omega)
          · obtain ⟨p, hp, hpd⟩ := List.mem_map.1 hd2
            exact hpd ▸ ne_of_gt hsup
        split
        · exact ⟨fun d hd => he1 d hd, by simp⟩
        · split
          · refine ⟨?_, by simp⟩
            intro d hd
            rcases List.mem_append.1 hd with h | h
            · exact he1 d h
            · rw [List.mem_singleton] at h
              subst h
              exact ne_of_gt (idx_denom_pos_q
                (localMaxima_pairwise prices w) _)
          · split
            · refine ⟨?_, by simp⟩
              intro d hd
              rcases List.mem_append.1 hd with h | h
              · exact he1 d h
              · simp only [List.mem_cons, List.not_mem_nil, or_false] at h
                rcases h with rfl | rfl
                · exact ne_of_gt (idx_denom_pos_q
                    (localMaxima_pairwise prices w) _)
                · exact ne_of_gt hsup
            · constructor
              · intro d hd
                rcases List.mem_append.1 hd with h | h
                · exact he1 d h
                · simp only [List.mem_cons, List.not_mem_nil, or_false] at h
                  rcases h with rfl | rfl
                  · exact ne_of_gt (idx_denom_pos_q
                      (localMaxima_pairwise prices w) _)
                  · exact ne_of_gt hsup
              · intro i hi
                rw [List.mem_singleton] at hi
                subst hi
                omega

theorem wedgeEvents_safe {prices : List ℚ} {w : ℕ} (hpos : ∀ p ∈ prices, 0 < p) :
    (∀ d ∈ (wedgeEvents prices w).1, d ≠ 0) ∧
    (∀ i ∈ (wedgeEvents prices w).2, i < prices.length) := by
  unfold wedgeEvents
  split
  · simp
  · rename_i h50
    dsimp only []
    split
    · simp
    · split
      · simp
      · have hd : ∀ d ∈ ([((((localMaxima prices w).filter
              (fun m => decide (prices.length - 70 ≤ m.1))).map (fun m => (m.1 : ℚ))).getLastD 0
                - ((((localMaxima prices w).filter
              (fun m => decide (prices.length - 70 ≤ m.1))).map (fun m => (m.1 : ℚ))).headD 0) + 1),
            ((((((localMinima prices w).filter
              (fun m => decide (prices.length - 70 ≤ m.1))).map (fun m => m.1)).getLastD 0 : ℕ) : ℚ)
                - (((((localMinima prices w).filter
              (fun m => decide (prices.length - 70 ≤ m.1))).map (fun m => m.1)).headD 0 : ℕ) : ℚ) + 1)] : List ℚ),
            d ≠ 0 := by
          intro d hd
          simp only [List.mem_cons, List.not_mem_nil, or_false] at hd
          rcases hd with rfl | rfl
          · exact ne_of_gt (idx_denom_pos_q (localMaxima_pairwise prices w) _)
          · exact ne_of_gt (idx_denom_pos
              (filter_map_fst_pairwise (localMinima_pairwise prices w) _))
        split
        · exact ⟨fun d h => hd d h, by simp⟩
        · split
          · exact ⟨fun d h => hd d h, by simp⟩
          · split
            · exact ⟨fun d h => hd d h, by simp⟩
            · refine ⟨fun d h => hd d h, ?_⟩
              intro i hi
              rw [List.mem_singleton] at hi
              subst hi
              omega

theorem flagEvents_safe {prices : List ℚ} (hpos : ∀ p ∈ prices, 0 < p) :
    (∀ d ∈ (flagEvents prices).1, d ≠ 0) ∧
    (∀ i ∈ (flagEvents prices).2, i < prices.length) := by
  unfold flagEvents
  split
  · simp
  · rename_i h40
    dsimp only []
    split
    · simp
    · rename_i h15
      have hpdpos : ∀ x ∈ (prices.drop (prices.length - 15 - 30)).take
          (prices.length - 15 - (prices.length - 15 - 30)), 0 < x :=
        fun x hx => hpos x (List.mem_of_mem_drop (List.mem_of_mem_take hx))
      have htne : List.take 10 ((prices.drop (prices.length - 15 - 30)).take
          (prices.length - 15 - (prices.length - 15 - 30))) ≠ [] := by
        rw [← List.length_pos]
        have h15a := h15
        simp only [List.length_take, List.length_drop] at h15a ⊢
        omega
      have hlowlt : pyargmin (List.take 10 ((prices.drop (prices.length - 15 - 30)).take
            (prices.length - 15 - (prices.length - 15 - 30)))) <
          ((prices.drop (prices.length - 15 - 30)).take
            (prices.length - 15 - (prices.length - 15 - 30))).length :=
        lt_of_lt_of_le (pyargmin_lt_length htne)
          (by rw [List.length_take]; exact min_le_right _ _)
      have hplow := getD_pos hpdpos hlowlt
      have hdne : ((prices.drop (prices.length - 15 - 30)).take
            (prices.length - 15 - (prices.length - 15 - 30))).drop
          (((prices.drop (prices.length - 15 - 30)).take
            (prices.length - 15 - (prices.length - 15 - 30))).length - 10) ≠ [] := by
        rw [← List.length_pos]
        have h15a := h15
        simp only [List.length_take, List.length_drop] at h15a ⊢
        omega
      have hhighlt : pyargmax (((prices.drop (prices.length - 15 - 30)).take
              (prices.length - 15 - (prices.length - 15 - 30))).drop
            (((prices.drop (prices.length - 15 - 30)).take
              (prices.length - 15 - (prices.length - 15 - 30))).length - 10)) +
            ((prices.drop (prices.length - 15 - 30)).take
              (prices.length - 15 - (prices.length - 15 - 30))).length - 10 <
          ((prices.drop (prices.length - 15 - 30)).take
            (prices.length - 15 - (prices.length - 15 - 30))).length := by
        have hpa := pyargmax_lt_length hdne
        rw [List.length_drop] at hpa
        omega
      have hphigh := getD_pos hpdpos hhighlt
      have ha1 : ∀ i ∈ [prices.length - 15 - 30 +
            pyargmin (List.take 10 ((prices.drop (prices.length - 15 - 30)).take
              (prices.length - 15 - (prices.length - 15 - 30)))),
          prices.length - 15 - 30 +
            (pyargmax (((prices.drop (prices.length - 15 - 30)).take
                (prices.length - 15 - (prices.length - 15 - 30))).drop
              (((prices.drop (prices.length - 15 - 30)).take
                (prices.length - 15 - (prices.length - 15 - 30))).length - 10)) +
              ((prices.drop (prices.length - 15 - 30)).take
                (prices.length - 15 - (prices.length - 15 - 30))).length - 10)],
          i < prices.length := by
        intro i hi
        simp only [List.mem_cons, List.not_mem_nil, or_false] at hi
        rcases hi with rfl | rfl
        · have h' := hlowlt
          simp only [List.length_take, List.length_drop] at h'
          omega
        · have h' := hhighlt
          have h2 : ((prices.drop (prices.length - 15 - 30)).take
              (prices.length - 15 - (prices.length - 15 - 30))).length ≤
              prices.length - (prices.length - 15 - 30) := by
            rw [List.length_take, List.length_drop]
            exact min_le_right _ _
          omega
      split
      · refine ⟨?_, fun i hi => ha1 i hi⟩
        intro d hd
        rw [List.mem_singleton] at hd
        subst hd
        exact ne_of_gt hplow
      · split
        · refine ⟨?_, fun i hi => ha1 i hi⟩
          intro d hd
          rw [List.mem_singleton] at hd
          subst hd
          exact ne_of_gt hplow
        · rename_i h8
          have hfne : prices.drop (prices.length - 15) ≠ [] := by
            rw [← List.length_pos]
            have h8a := h8
            simp only [List.length_drop] at h8a ⊢
            omega
          have hfh := pymax_pos hfne (fun x hx => hpos x (List.mem_of_mem_drop hx))
          split
          · refine ⟨?_, fun i hi => ha1 i hi⟩
            intro d hd
            simp only [List.mem_cons, List.not_mem_nil, or_false] at hd
            rcases hd with rfl | rfl
            · exact ne_of_gt hplow
            · exact ne_of_gt hfh
          · split
            · refine ⟨?_, fun i hi => ha1 i hi⟩
              intro d hd
              simp only [List.mem_cons, List.not_mem_nil, or_false] at hd
              rcases hd with rfl | rfl | rfl
              · exact ne_of_gt hplow
              · exact ne_of_gt hfh
              · exact ne_of_gt hphigh
            · constructor
              · intro d hd
                simp only [List.mem_cons, List.not_mem_nil, or_false] at hd
                rcases hd with rfl | rfl | rfl
                · exact ne_of_gt hplow
                · exact ne_of_gt hfh
                · exact ne_of_gt hphigh
              · intro i hi
                rcases List.mem_append.1 hi with h | h
                · exact ha1 i h
                · rw [List.mem_singleton] at h
                  subst h
                  omega

theorem cupEvents_safe {prices : List ℚ} (hpos : ∀ p ∈ prices, 0 < p) :
    (∀ d ∈ (cupEvents prices).1, d ≠ 0) ∧
    (∀ i ∈ (cupEvents prices).2, i < prices.length) := by
  unfold cupEvents
  split
  · simp
  · rename_i h80
    dsimp only []
    split
    · simp
    · rename_i h40
      split
      · simp
      · rename_i hidx
        push_neg at hidx
        split
        · simp
        · rename_i hhalv
          push_neg at hhalv
          have hCDpos : ∀ x ∈ prices.drop (prices.length - 100), 0 < x :=
            fun x hx => hpos x (List.mem_of_mem_drop hx)
          have hll : 0 < pymax (List.take 5 ((prices.drop (prices.length - 100)).take
              (pyargmin (prices.drop (prices.length - 100))))) := by
            apply pymax_pos
            · rw [← List.length_pos, List.length_take, List.length_take]
              have h5 := hhalv.1
              rw [List.length_take] at h5
              omega
            · exact fun x hx =>
                hCDpos x (List.mem_of_mem_take (List.mem_of_mem_take hx))
          have hacc : prices.length - 100 +
              pyargmin (prices.drop (prices.length - 100)) < prices.length := by
            have h1 := hidx.2
            have h3 : (prices.drop (prices.length - 100)).length =
                prices.length - (prices.length - 100) := by
              rw [List.length_drop]
            omega
          split
          · rename_i h15r
            split
            · refine ⟨?_, by simp⟩
              intro d hd
              rw [List.mem_singleton] at hd
              subst hd
              exact ne_of_gt (lt_max_of_lt_left hll)
            · split
              · constructor
                · intro d hd
                  simp only [List.mem_cons, List.not_mem_nil, or_false] at hd
                  rcases hd with rfl | rfl
                  · exact ne_of_gt (lt_max_of_lt_left hll)
                  · exact ne_of_gt hll
                · intro i hi
                  rw [List.mem_singleton] at hi
                  subst hi
                  exact hacc
              · split
                · constructor
                  · intro d hd
                    simp only [List.mem_cons, List.not_mem_nil, or_false] at hd
                    rcases hd with rfl | rfl | rfl
                    · exact ne_of_gt (lt_max_of_lt_left hll)
                    · exact ne_of_gt hll
                    · apply ne_of_gt
                      apply pymax_pos
                      · rw [← List.length_pos, List.length_take, List.length_drop]
                        omega
                      · exact fun x hx => hCDpos x (List.mem_of_mem_drop
                          (List.mem_of_mem_drop (List.mem_of_mem_take hx)))
                  · intro i hi
                    rw [List.mem_singleton] at hi
                    subst hi
                    exact hacc
                · constructor
                  · intro d hd
                    simp only [List.mem_cons, List.not_mem_nil, or_false] at hd
                    rcases hd with rfl | rfl | rfl
                    · exact ne_of_gt (lt_max_of_lt_left hll)
                    · exact ne_of_gt hll
                    · apply ne_of_gt
                      apply pymax_pos
                      · rw [← List.length_pos, List.length_take, List.length_drop]
                        omega
                      · exact fun x hx => hCDpos x (List.mem_of_mem_drop
                          (List.mem_of_mem_drop (List.mem_of_mem_take hx)))
                  · intro i hi
                    simp only [List.mem_cons, List.not_mem_nil, or_false] at hi
                    rcases hi with rfl | rfl | rfl
                    · exact hacc
                    · exact hacc
                    · omega
          · rename_i h15r
            split
            · refine ⟨?_, by simp⟩
              intro d hd
              rw [List.mem_singleton] at hd
              subst hd
              exact ne_of_gt (lt_max_of_lt_left hll)
            · split
              · constructor
                · intro d hd
                  simp only [List.mem_cons, List.not_mem_nil, or_false] at hd
                  rcases hd with rfl | rfl
                  · exact ne_of_gt (lt_max_of_lt_left hll)
                  · exact ne_of_gt hll
                · intro i hi
                  rw [List.mem_singleton] at hi
                  subst hi
                  exact hacc
              · split
                · constructor
                  · intro d hd
                    simp only [List.mem_cons, List.not_mem_nil, or_false] at hd
                    rcases hd with rfl | rfl | rfl
                    · exact ne_of_gt (lt_max_of_lt_left hll)
                    · exact ne_of_gt hll
                    · apply ne_of_gt
                      apply pymax_pos
                      · rw [← List.length_pos, List.length_drop]
                        have h10 := hhalv.2
                        omega
                      · exact fun x hx => hCDpos x (List.mem_of_mem_drop
                          (List.mem_of_mem_drop hx))
                  · intro i hi
                    rw [List.mem_singleton] at hi
                    subst hi
                    exact hacc
                · constructor
                  · intro d hd
                    simp only [List.mem_cons, List.not_mem_nil, or_false] at hd
                    rcases hd with rfl | rfl | rfl
                    · exact ne_of_gt (lt_max_of_lt_left hll)
                    · exact ne_of_gt hll
                    · apply ne_of_gt
                      apply pymax_pos
                      · rw [← List.length_pos, List.length_drop]
                        have h10 := hhalv.2
                        omega
                      · exact fun x hx => hCDpos x (List.mem_of_mem_drop
                          (List.mem_of_mem_drop hx))
                  · intro i hi
                    simp only [List.mem_cons, List.not_mem_nil, or_false] at hi
                    rcases hi with rfl | rfl | rfl
                    · exact hacc
                    · exact hacc
                    · omega

/-- C10: with strictly positive prices and equal-length dates, every
division the eleven detectors perform along their executed control path
has a nonzero denominator, and every raw index access (dates at reported
landmarks, prices and its slices, `prices[-1]`) is in bounds — as
mirrored by the per-detector event lists — *except* the `convergence`
division of `detect_falling_wedge`, whose denominator
(`fallingWedgeConvergenceDenom`) is excluded here because it can be zero
(see `claim_C10_counterexample`): the original claim is corrected, not
confirmed. -/
theorem claim_C10 (prices : List ℚ) (dates : List String) (w : ℕ)
    (hpos : ∀ p ∈ prices, 0 < p) (hlen : dates.length = prices.length) :
    ((∀ d ∈ (hsEvents prices w).1, d ≠ 0) ∧
      ∀ i ∈ (hsEvents prices w).2, i < prices.length ∧ i < dates.length) ∧
    ((∀ d ∈ (ihsEvents prices w).1, d ≠ 0) ∧
      ∀ i ∈ (ihsEvents prices w).2, i < prices.length ∧ i < dates.length) ∧
    ((∀ d ∈ (dtEvents prices w).1, d ≠ 0) ∧
      ∀ i ∈ (dtEvents prices w).2, i < prices.length ∧ i < dates.length) ∧
    ((∀ d ∈ (dbEvents prices w).1, d ≠ 0) ∧
      ∀ i ∈ (dbEvents prices w).2, i < prices.length ∧ i < dates.length) ∧
    ((∀ d ∈ (ttEvents prices w).1, d ≠ 0) ∧
      ∀ i ∈ (ttEvents prices w).2, i < prices.length ∧ i < dates.length) ∧
    ((∀ d ∈ (tbEvents prices w).1, d ≠ 0) ∧
      ∀ i ∈ (tbEvents prices w).2, i < prices.length ∧ i < dates.length) ∧
    ((∀ d ∈ (ascEvents prices w).1, d ≠ 0) ∧
      ∀ i ∈ (ascEvents prices w).2, i < prices.length ∧ i < dates.length) ∧
    ((∀ d ∈ (descEvents prices w).1, d ≠ 0) ∧
      ∀ i ∈ (descEvents prices w).2, i < prices.length ∧ i < dates.length) ∧
    ((∀ d ∈ (cupEvents prices).1, d ≠ 0) ∧
      ∀ i ∈ (cupEvents prices).2, i < prices.length ∧ i < dates.length) ∧
    ((∀ d ∈ (flagEvents prices).1, d ≠ 0) ∧
      ∀ i ∈ (flagEvents prices).2, i < prices.length ∧ i < dates.length) ∧
    ((∀ d ∈ (wedgeEvents prices w).1, d ≠ 0) ∧
      ∀ i ∈ (wedgeEvents prices w).2, i < prices.length ∧ i < dates.length) := by
  refine ⟨?_, ?_, ?_, ?_, ?_, ?_, ?_, ?_, ?_, ?_, ?_⟩
  · have h := @hsEvents_safe prices w hpos
    exact ⟨h.1, fun i hi => ⟨h.2 i hi, by rw [hlen]; exact h.2 i hi⟩⟩
  · have h := @ihsEvents_safe prices w hpos
    exact ⟨h.1, fun i hi => ⟨h.2 i hi, by rw [hlen]; exact h.2 i hi⟩⟩
  · have h := @dtEvents_safe prices w hpos
    exact ⟨h.1, fun i hi => ⟨h.2 i hi, by rw [hlen]; exact h.2 i hi⟩⟩
  · have h := @dbEvents_safe prices w hpos
    exact ⟨h.1, fun i hi => ⟨h.2 i hi, by rw [hlen]; exact h.2 i hi⟩⟩
  · have h := @ttEvents_safe prices w hpos
    exact ⟨h.1, fun i hi => ⟨h.2 i hi, by rw [hlen]; exact h.2 i hi⟩⟩
  · have h := @tbEvents_safe prices w hpos
    exact ⟨h.1, fun i hi => ⟨h.2 i hi, by rw [hlen]; exact h.2 i hi⟩⟩
  · have h := @ascEvents_safe prices w hpos
    exact ⟨h.1, fun i hi => ⟨h.2 i hi, by rw [hlen]; exact h.2 i hi⟩⟩
  · have h := @descEvents_safe prices w hpos
    exact ⟨h.1, fun i hi => ⟨h.2 i hi, by rw [hlen]; exact h.2 i hi⟩⟩
  · have h := cupEvents_safe hpos
    exact ⟨h.1, fun i hi => ⟨h.2 i hi, by rw [hlen]; exact h.2 i hi⟩⟩
  · have h := flagEvents_safe hpos
    exact ⟨h.1, fun i hi => ⟨h.2 i hi, by rw [hlen]; exact h.2 i hi⟩⟩
  · have h := @wedgeEvents_safe prices w hpos
    exact ⟨h.1, fun i hi => ⟨h.2 i hi, by rw [hlen]; exact h.2 i hi⟩⟩

/-- Witness for C10 on the head-and-shoulders demo series. -/
theorem claim_C10_witness :
    (∀ p ∈ hsDemoPrices, 0 < p) ∧ hsDemoDates.length = hsDemoPrices.length ∧
    ((∀ d ∈ (hsEvents hsDemoPrices 2).1, d ≠ 0) ∧
      ∀ i ∈ (hsEvents hsDemoPrices 2).2, i < hsDemoPrices.length ∧ i < hsDemoDates.length) :=
  ⟨by decide, by decide, (claim_C10 hsDemoPrices hsDemoDates 2 (by decide) (by decide)).1⟩

/-- Counterexample for C10 as stated: `wedgeZeroPrices` is a strictly
positive series with an equal-length dates list, yet
`detect_falling_wedge` (window 8) reaches the `convergence` division
with denominator `initial_spread = 0` — in the source a numpy float
division by zero. -/
theorem claim_C10_counterexample :
    (∀ p ∈ wedgeZeroPrices, 0 < p) ∧
    wedgeZeroDates.length = wedgeZeroPrices.length ∧
    fallingWedgeConvergenceDenom wedgeZeroPrices 8 = some 0 :=
  ⟨by decide, by decide, by decide⟩
